import Mathlib

/-!
# Kyma CLI command extensions: loader, validator and command-tree builder

A shallow embedding of the extension framework of the repository
(`internal/cmdcommon/extensions.go`, `internal/cmdcommon/extensions_types.go`,
`internal/extensions/extensions.go`,
`internal/cmd/alpha/templates/parameters/parameters.go`) together with
theorems about it.

Conventions of the embedding:

* a Go `error` is an `Option GoError` (`none` is the `nil` error);
* a Go `nil` slice and an empty slice are both the empty list;
* a Go run-time panic is the `Except.error` outcome of an `Except GoPanic`;
* the process argument vector `os.Args`, the YAML decoder, the cluster client
  and the action constructors are explicit parameters;
* of the flag library, the registration of a flag (`VarPF`) is embedded with
  the panics it can raise.
-/

set_option autoImplicit false

/-! ## Go errors -/

/-- Go error values as they are built in this code base: `errors.New` and
`fmt.Errorf` without `%w` give an `errorString`, `pkgerrors.Wrapf` gives a
`withMessage` around its cause, `errors.Join` gives a `joinError`. -/
inductive GoError where
  | errorString (s : String)
  | withMessage (cause : GoError) (msg : String)
  | joinError (errs : List GoError)

mutual
/-- The `Error()` text of an error. -/
def GoError.Error : GoError → String
  | .errorString s => s
  | .withMessage cause msg => msg ++ ": " ++ cause.Error
  | .joinError errs => GoError.ErrorLines errs
/-- The texts of the members of a `joinError`, separated by newlines. -/
def GoError.ErrorLines : List GoError → String
  | [] => ""
  | [e] => e.Error
  | e :: es => e.Error ++ "\n" ++ GoError.ErrorLines es
end

mutual
/-- The errors held by an error once every `joinError` is opened: the
sequence of non-join errors it was joined from, in order. -/
def GoError.flatten : GoError → List GoError
  | .errorString s => [.errorString s]
  | .withMessage cause msg => [.withMessage cause msg]
  | .joinError errs => GoError.flattenAll errs
/-- Flattening of a list of errors. -/
def GoError.flattenAll : List GoError → List GoError
  | [] => []
  | e :: es => e.flatten ++ GoError.flattenAll es
end

/-- The errors held by a possibly nil error. -/
def heldErrors : Option GoError → List GoError
  | none => []
  | some e => e.flatten

/-- Go `errors.Join`: nil members are dropped, and the result is nil when no
member is left. -/
def errorsJoin (errs : List (Option GoError)) : Option GoError :=
  match errs.filterMap id with
  | [] => none
  | e :: es => some (.joinError (e :: es))

/-- The `pkgerrors.Wrapf` of a non-nil error with an already formatted message. -/
def pkgerrorsWrapf (err : GoError) (msg : String) : GoError :=
  .withMessage err msg

/-- Run-time panics the embedded code can raise: the call of a nil function,
a read through a nil pointer, and the three panics of the flag library on
registering a flag (a name registered twice, a shorthand longer than one
byte, a shorthand registered twice). -/
inductive GoPanic where
  | nilFunctionCall
  | nilPointerDereference
  | flagRedefined (name : String)
  | shorthandTooLong (shorthand : String)
  | shorthandRedefined (shorthand : String)
  deriving DecidableEq, Repr

/-! ## Strings and the process argument vector -/

/-- Go `strings.HasPrefix`. -/
def stringsHasPrefix (s pre : String) : Bool :=
  pre.toList.isPrefixOf s.toList

/-- Go `strings.Contains`. -/
def stringsContains (s sub : String) : Bool :=
  s.toList.tails.any (fun t => sub.toList.isPrefixOf t)

/-- Go `strconv.ParseBool`: `none` stands for the syntax error. -/
def strconvParseBool (s : String) : Option Bool :=
  if s = "1" ∨ s = "t" ∨ s = "T" ∨ s = "TRUE" ∨ s = "true" ∨ s = "True" then some true
  else if s = "0" ∨ s = "f" ∨ s = "F" ∨ s = "FALSE" ∨ s = "false" ∨ s = "False" then some false
  else none

/-- The loop of `getBoolFlagValue` over the remaining arguments; the head of
`rest` is `os.Args[i]` and its tail starts at `os.Args[i+1]`. -/
def getBoolFlagValueLoop (flag : String) : List String → Bool
  | [] => false
  | arg :: rest =>
    match (if arg = flag then rest.head? else none).bind strconvParseBool with
    | some value => value
    | none =>
      if stringsHasPrefix arg flag && !stringsContains arg "false" then true
      else getBoolFlagValueLoop flag rest

/-- Source `getBoolFlagValue`: searches `os.Args` for the flag and returns its value. -/
def getBoolFlagValue (osArgs : List String) (flag : String) : Bool :=
  getBoolFlagValueLoop flag osArgs

/-- Source `isSubRootCommandUsed`: whether one of `args` occurs in `os.Args`. -/
def isSubRootCommandUsed (osArgs : List String) (args : List String) : Bool :=
  args.any (fun arg => osArgs.contains arg)

/-! ## The extension definition model (`extensions_types.go`) -/

/-- Source `ExtensionCMLabelKey`. -/
def ExtensionCMLabelKey : String := "kyma-cli/extension"
/-- Source `ExtensionCMLabelValue`. -/
def ExtensionCMLabelValue : String := "commands"
/-- Source `ExtensionCMDataKey`. -/
def ExtensionCMDataKey : String := "kyma-commands.yaml"

/-- Source `parameters.ConfigFieldType`, a string. -/
abbrev ConfigFieldType := String

/-- Source `parameters.StringCustomType`. -/
def StringCustomType : ConfigFieldType := "string"
/-- Source `parameters.PathCustomType`. -/
def PathCustomType : ConfigFieldType := "path"
/-- Source `parameters.IntCustomType`. -/
def IntCustomType : ConfigFieldType := "int"
/-- Source `parameters.BoolCustomType`. -/
def BoolCustomType : ConfigFieldType := "bool"

/-- Source `parameters.ValidTypes`. -/
def ValidTypes : List ConfigFieldType :=
  [StringCustomType, PathCustomType, IntCustomType, BoolCustomType]

/-- Scalars stored at the leaves of a config blob. -/
inductive Scalar where
  | str (s : String)
  | int (i : Int)
  | bool (b : Bool)
  deriving DecidableEq, Repr

/-- One node of a config blob (`interface{}` under a `map[string]interface{}`). -/
inductive ConfigNode where
  | scalar (v : Scalar)
  | mapping (entries : List (String × ConfigNode))

/-- Source `CommandConfig = map[string]interface{}`, as an association list. -/
abbrev CommandConfig := List (String × ConfigNode)

/-- Source `CommandMetadata`. -/
structure CommandMetadata where
  Name : String
  Description : String
  DescriptionLong : String
  deriving DecidableEq, Repr

/-- Source `CommandArgs`. -/
structure CommandArgs where
  Type_ : ConfigFieldType
  Optional : Bool
  ConfigPath : String
  deriving DecidableEq, Repr

/-- Source `CommandFlag`. -/
structure CommandFlag where
  Type_ : ConfigFieldType
  Name : String
  Description : String
  Shorthand : String
  ConfigPath : String
  DefaultValue : String
  Required : Bool
  deriving DecidableEq, Repr

/-- Source `CommandExtension`; `Args` is a pointer that may be nil. -/
inductive CommandExtension where
  | mk (Metadata : CommandMetadata) (Uses : String) (Flags : List CommandFlag)
      (Args : Option CommandArgs) (Config : CommandConfig)
      (SubCommands : List CommandExtension)

/-- Field `Metadata`. -/
def CommandExtension.Metadata : CommandExtension → CommandMetadata
  | .mk m _ _ _ _ _ => m
/-- Field `Uses`. -/
def CommandExtension.Uses : CommandExtension → String
  | .mk _ u _ _ _ _ => u
/-- Field `Flags`. -/
def CommandExtension.Flags : CommandExtension → List CommandFlag
  | .mk _ _ f _ _ _ => f
/-- Field `Args`. -/
def CommandExtension.Args : CommandExtension → Option CommandArgs
  | .mk _ _ _ a _ _ => a
/-- Field `Config`. -/
def CommandExtension.Config : CommandExtension → CommandConfig
  | .mk _ _ _ _ c _ => c
/-- Field `SubCommands`. -/
def CommandExtension.SubCommands : CommandExtension → List CommandExtension
  | .mk _ _ _ _ _ s => s

/-- Source `ConfigmapCommandExtension`. -/
structure ConfigmapCommandExtension where
  ConfigMapName : String
  ConfigMapNamespace : String
  Extension : CommandExtension

/-! ## Typed values (`parameters.go`) -/

/-- Modelled from the spec: `cmdcommon_types.NullableBool`, whose declaration
is not among the sources; it carries a nullable payload (the `Value` pointer
read by `boolValue.GetValue`). -/
structure NullableBool where
  Value : Option Bool
  deriving DecidableEq, Repr

/-- Modelled from the spec: `cmdcommon_types.NullableInt64`, whose declaration
is not among the sources; a nullable 64-bit integer payload. -/
structure NullableInt64 where
  Value : Option Int
  deriving DecidableEq, Repr

/-- Modelled from the spec: `cmdcommon_types.NullableString`, whose declaration
is not among the sources; a nullable text payload. -/
structure NullableString where
  Value : Option String
  deriving DecidableEq, Repr

/-- Go `strconv.ParseInt(s, 10, 64)`: an optional sign and decimal digits,
within the range of `int64`; the error text is that of `strconv.NumError`. -/
def strconvParseInt (s : String) : Except GoError Int :=
  let ds := match s.toList with
    | '-' :: r => r
    | '+' :: r => r
    | r => r
  let neg := match s.toList with
    | '-' :: _ => true
    | _ => false
  if ds = [] ∨ ¬ ds.all Char.isDigit then
    .error (.errorString ("strconv.ParseInt: parsing \"" ++ s ++ "\": invalid syntax"))
  else
    let n : Int := Int.ofNat (ds.foldl (fun acc c => acc * 10 + (c.toNat - 48)) 0)
    let v : Int := if neg then -n else n
    if v < -9223372036854775808 ∨ 9223372036854775807 < v then
      .error (.errorString ("strconv.ParseInt: parsing \"" ++ s ++ "\": value out of range"))
    else .ok v

/-- Modelled from the spec: `NullableString.Set`, not among the sources
("String: payload is raw text; parsing never fails"). -/
def NullableString.Set (_n : NullableString) (value : String) : NullableString × Option GoError :=
  (⟨some value⟩, none)

/-- Modelled from the spec: `NullableInt64.Set`, not among the sources
("Int: parsing fails with a format error on non-numeric text"); on failure the
payload is left as it was. -/
def NullableInt64.Set (n : NullableInt64) (value : String) : NullableInt64 × Option GoError :=
  match strconvParseInt value with
  | .ok v => (⟨some v⟩, none)
  | .error e => (n, some e)

/-- Modelled from the spec: `NullableBool.Set`, not among the sources
("Bool: parsing accepts canonical boolean text; fails otherwise"), called on a
receiver pointer that may be nil: the text is parsed first, and storing the
parsed payload through a nil receiver panics. -/
def NullableBool.Set (n : Option NullableBool) (value : String) :
    Except GoPanic (Option NullableBool × Option GoError) :=
  match strconvParseBool value with
  | none => .ok (n, some (.errorString ("strconv.ParseBool: parsing \"" ++ value ++ "\": invalid syntax")))
  | some b =>
    match n with
    | none => .error .nilPointerDereference
    | some _ => .ok (some ⟨some b⟩, none)

/-- Source `parameters.Value` with its four implementations. `boolValue`
embeds a pointer `*NullableBool`, which may be nil; `pathValue` wraps a
`stringValue`. -/
inductive Value where
  | boolValue (NullableBool : Option NullableBool) (path : String)
  | int64Value (NullableInt64 : NullableInt64) (path : String)
  | stringValue (NullableString : NullableString) (path : String)
  | pathValue (NullableString : NullableString) (path : String)
  deriving DecidableEq, Repr

/-- Source `NewTyped`. The `boolValue` literal leaves the embedded pointer nil. -/
def NewTyped (paramType : ConfigFieldType) (resourcepath : String) : Value :=
  if paramType = PathCustomType then .pathValue ⟨none⟩ resourcepath
  else if paramType = IntCustomType then .int64Value ⟨none⟩ resourcepath
  else if paramType = BoolCustomType then .boolValue none resourcepath
  else .stringValue ⟨none⟩ resourcepath

/-- Source `GetPath` of the four implementations. -/
def Value.GetPath : Value → String
  | .boolValue _ path => path
  | .int64Value _ path => path
  | .stringValue _ path => path
  | .pathValue _ path => path

/-- Source `GetValue` of the four implementations: `none` is the nil
interface ("unset"); reading `v.Value` through the nil embedded pointer of a
`boolValue` panics. -/
def Value.GetValue : Value → Except GoPanic (Option Scalar)
  | .boolValue none _ => .error .nilPointerDereference
  | .boolValue (some nb) _ => .ok (nb.Value.map Scalar.bool)
  | .int64Value n _ => .ok (n.Value.map Scalar.int)
  | .stringValue n _ => .ok (n.Value.map Scalar.str)
  | .pathValue n _ => .ok (n.Value.map Scalar.str)

/-- Source `SetValue` of the four implementations; each forwards to the `Set`
of its nullable payload, and `pathValue.SetValue` stores the text itself. -/
def Value.SetValue (v : Value) (value : String) : Except GoPanic (Value × Option GoError) :=
  match v with
  | .boolValue nb path =>
    match NullableBool.Set nb value with
    | .error p => .error p
    | .ok (nb', err) => .ok (.boolValue nb' path, err)
  | .int64Value n path => .ok (.int64Value (n.Set value).1 path, (n.Set value).2)
  | .stringValue n path => .ok (.stringValue (n.Set value).1 path, (n.Set value).2)
  | .pathValue n path => .ok (.pathValue (n.Set value).1 path, (n.Set value).2)

/-- The `Set` method of the four implementations (the `pflag.Value` method):
promoted from the nullable payload, except for `pathValue.Set`, which reads the
file named by the text (`os.ReadFile`, here `readFile`) and stores its content. -/
def Value.Set (readFile : String → Except GoError String) (v : Value) (value : String) :
    Except GoPanic (Value × Option GoError) :=
  match v with
  | .pathValue n path =>
    match readFile value with
    | .error err => .ok (.pathValue n path, some err)
    | .ok bytes => Value.SetValue (.pathValue n path) bytes
  | other => Value.SetValue other value

/-- The `String` method of the four implementations (the `pflag.Value`
method), promoted from the nullable payload, whose declaration is not among
the sources. Only whether the call returns is kept: a method of the payload
reads its `Value` field, which through the nil embedded pointer of a
`boolValue` panics. -/
def Value.String : Value → Except GoPanic Unit
  | .boolValue none _ => .error .nilPointerDereference
  | _ => .ok ()

/-! ## Validation (`extensions_types.go`) -/

/-- The registry handed to the validator and the builder is a Go map from
action identifiers to constructors (`UsesMap`); `Registry κ` is its lookup,
`none` for a missing key. -/
abbrev Registry (κ : Type) := String → Option κ

/-- Source `CommandMetadata.Validate`. -/
def CommandMetadata.Validate (m : CommandMetadata) : Option GoError :=
  if m.Name = "" then some (.errorString "empty name") else none

/-- Source `CommandArgs.Validate`. The two `errors.Join` calls are expression
statements: their results are not assigned, and `err` is returned as declared. -/
def CommandArgs.Validate (a : CommandArgs) : Option GoError :=
  let err : Option GoError := none
  let _joined₁ : Option GoError :=
    if ¬ ValidTypes.contains a.Type_ then
      errorsJoin [err, some (.errorString ("unknown type '" ++ a.Type_ ++ "'"))]
    else none
  let _joined₂ : Option GoError :=
    if a.ConfigPath = "" then errorsJoin [err, some (.errorString "empty ConfigPath")]
    else none
  err

/-- Source `CommandFlag.Validate`. The two `errors.Join` calls are expression
statements: their results are not assigned, and `err` is returned as declared. -/
def CommandFlag.Validate (f : CommandFlag) : Option GoError :=
  let err : Option GoError := none
  let _joined₁ : Option GoError :=
    if ¬ ValidTypes.contains f.Type_ then
      errorsJoin [err, some (.errorString ("unknown type '" ++ f.Type_ ++ "'"))]
    else none
  let _joined₂ : Option GoError :=
    if f.ConfigPath = "" then errorsJoin [err, some (.errorString "empty ConfigPath")]
    else none
  err

/-- The loop over `e.Flags` in `validateWithPath`. -/
def validateFlags (path : String) : List CommandFlag → Option GoError → Option GoError
  | [], err => err
  | f :: rest, err =>
    match f.Validate with
    | some flagErr =>
      validateFlags path rest
        (errorsJoin [err, some (.errorString ("wrong " ++ path ++ "flags: " ++ flagErr.Error))])
    | none => validateFlags path rest err

mutual
/-- Source `CommandExtension.validateWithPath`. The format of the `args`
message has two verbs and one operand, so `fmt.Errorf` puts the text of
`argsErr` at the first verb and `%!s(MISSING)` at the second. -/
def CommandExtension.validateWithPath {κ : Type} (path : String) (availableActions : Registry κ) :
    CommandExtension → Option GoError
  | .mk Metadata Uses Flags Args _ SubCommands =>
    let err : Option GoError := none
    let err :=
      if Uses ≠ "" ∧ (availableActions Uses).isNone then
        errorsJoin [err, some (.errorString
          ("wrong " ++ path ++ "uses: unsupported value '" ++ Uses ++ "'"))]
      else err
    let err :=
      match Metadata.Validate with
      | some metaErr =>
        errorsJoin [err, some (.errorString ("wrong " ++ path ++ "metadata: " ++ metaErr.Error))]
      | none => err
    let err :=
      match Args with
      | some a =>
        match a.Validate with
        | some argsErr =>
          errorsJoin [err, some (.errorString
            ("wrong " ++ argsErr.Error ++ "args: %!s(MISSING)"))]
        | none => err
      | none => err
    let err := validateFlags path Flags err
    validateSubCommands path availableActions SubCommands 0 err
/-- The loop over `e.SubCommands` in `validateWithPath`, from index `i` on. -/
def validateSubCommands {κ : Type} (path : String) (availableActions : Registry κ) :
    List CommandExtension → Nat → Option GoError → Option GoError
  | [], _, err => err
  | sub :: rest, i, err =>
    match CommandExtension.validateWithPath
        (path ++ "subCommands[" ++ toString i ++ "].") availableActions sub with
    | some subCmdErr =>
      validateSubCommands path availableActions rest (i + 1) (errorsJoin [err, some subCmdErr])
    | none => validateSubCommands path availableActions rest (i + 1) err
end

/-- Source `CommandExtension.Validate`. -/
def CommandExtension.Validate {κ : Type} (e : CommandExtension) (availableActions : Registry κ) :
    Option GoError :=
  e.validateWithPath "." availableActions

/-! ## Commands (`cobra.Command`, as far as the builder touches it) -/

/-- A flag registered on a command by `cmd.Flags().VarPF` (a `pflag.Flag`,
without the rendered default `DefValue`). -/
structure CmdFlag where
  Name : String
  Shorthand : String
  Usage : String
  Value : Value
  NoOptDefVal : String
  deriving DecidableEq, Repr

/-- The closure assigned to `cmd.Args`: it captures `extension.Args.Optional`
and the typed value of the positional argument. -/
structure ArgsRule where
  Optional : Bool
  value : Value
  deriving DecidableEq, Repr

/-- The closure assigned to `cmd.PreRun`: it captures the names of the required
flags, the config blob of the definition and the typed values (those of the
flags, then the one of the positional argument). In the source a typed value
is one pointer shared by the registered flag or the `Args` closure and by this
closure; here each holds the value as a term, so a gate built by
`buildExtensionCommand` holds the values as built, and a gate that runs after
the command line was parsed is given the values the parse left behind. -/
structure PreRunGate where
  requiredFlags : List String
  config : CommandConfig
  values : List Value

/-- A `cobra.Command`: display texts, registered flags, the `Args` rule, the
`PreRun` gate, an opaque handle of the run function installed by an action
constructor, and the child commands. -/
inductive Command where
  | mk (Use Short Long : String) (Flags : List CmdFlag) (Args : Option ArgsRule)
      (PreRun : Option PreRunGate) (Run : Option String) (commands : List Command)

/-- Field `Use`. -/
def Command.Use : Command → String
  | .mk u _ _ _ _ _ _ _ => u
/-- Field `Short`. -/
def Command.Short : Command → String
  | .mk _ s _ _ _ _ _ _ => s
/-- Field `Long`. -/
def Command.Long : Command → String
  | .mk _ _ l _ _ _ _ _ => l
/-- The flags registered on the command. -/
def Command.Flags : Command → List CmdFlag
  | .mk _ _ _ f _ _ _ _ => f
/-- Field `Args`. -/
def Command.Args : Command → Option ArgsRule
  | .mk _ _ _ _ a _ _ _ => a
/-- Field `PreRun`. -/
def Command.PreRun : Command → Option PreRunGate
  | .mk _ _ _ _ _ p _ _ => p
/-- Field `Run`. -/
def Command.Run : Command → Option String
  | .mk _ _ _ _ _ _ r _ => r
/-- The child commands. -/
def Command.commands : Command → List Command
  | .mk _ _ _ _ _ _ _ c => c

/-! ## The cluster and its records -/

/-- A ConfigMap: namespace, name and string data (a Go map, here an
association list read with `List.lookup`). -/
structure ConfigMap where
  Namespace : String
  Name : String
  Data : List (String × String)
  deriving DecidableEq, Repr

/-- The cluster client: listing the ConfigMaps of all namespaces that carry a
label selector either fails or yields the items. -/
structure KubeClient where
  ListConfigMaps : String → Except GoError (List ConfigMap)

/-- Source `KubeClientConfig`: `GetKubeClient` either fails or yields a client. -/
structure KubeClientConfig where
  GetKubeClient : Except GoError KubeClient

/-- Source `KymaConfig` (the context is left out). -/
structure KymaConfig where
  KubeClientConfig : KubeClientConfig

/-- Source `UsesMap`: action identifier to command constructor. The
constructors are not among the sources; each is taken to return a fresh
command (never nil) for the config blob it is given. -/
abbrev UsesMap := Registry (KymaConfig → CommandConfig → Command)

/-- The flag library's `(*FlagSet).VarPF(value, name, shorthand, usage)` on a
flag set holding the flags `formal`: it renders the default with
`value.String()`, then `AddFlag` panics when the name is already registered,
and, for a non-empty shorthand, when the shorthand is longer than one byte or
already registered. Names are compared as written (no normalization function is
set), and shorthands, which are single bytes once registered, as texts. The
result is the new flag, which the library has appended to the set. -/
def VarPF (formal : List CmdFlag) (value : Value) (name shorthand usage : String) :
    Except GoPanic CmdFlag :=
  match value.String with
  | .error p => .error p
  | .ok _ =>
    if formal.any (fun g => g.Name = name) then .error (.flagRedefined name)
    else if shorthand = "" then
      .ok { Name := name, Shorthand := shorthand, Usage := usage, Value := value,
            NoOptDefVal := "" }
    else if shorthand.utf8ByteSize > 1 then .error (.shorthandTooLong shorthand)
    else if formal.any (fun g => g.Shorthand = shorthand) then
      .error (.shorthandRedefined shorthand)
    else
      .ok { Name := name, Shorthand := shorthand, Usage := usage, Value := value,
            NoOptDefVal := "" }

/-! ## The loader -/

/-- Source `listCommandExtenionConfigMaps`. -/
def listCommandExtenionConfigMaps (clientConfig : KubeClientConfig) :
    Except GoError (List ConfigMap) :=
  match clientConfig.GetKubeClient with
  | .error clientErr => .error clientErr
  | .ok client =>
    let labelSelector := ExtensionCMLabelKey ++ "==" ++ ExtensionCMLabelValue
    match client.ListConfigMaps labelSelector with
    | .error err =>
      .error (pkgerrorsWrapf err
        ("failed to load ConfigMaps from cluster with label " ++ labelSelector))
    | .ok cms => .ok cms

/-- Source `parseRequiredField`, instantiated at the extension schema;
`yamlUnmarshal` is `yaml.Unmarshal` into a fresh `CommandExtension`. -/
def parseRequiredField (yamlUnmarshal : String → Except GoError CommandExtension)
    (cmData : List (String × String)) (cmKey : String) : Except GoError CommandExtension :=
  match cmData.lookup cmKey with
  | none => .error (.errorString ("missing .data." ++ cmKey ++ " field"))
  | some dataBytes => yamlUnmarshal dataBytes

/-- The error recorded for a record that fails to parse. -/
def parseErrorOf (cm : ConfigMap) (err : GoError) : GoError :=
  pkgerrorsWrapf err ("failed to parse configmap '" ++ cm.Namespace ++ "/" ++ cm.Name ++ "'")

/-- The error recorded for a record whose extension name is already taken. -/
def duplicateErrorOf (cm : ConfigMap) (commandExtension : CommandExtension) : GoError :=
  .errorString ("failed to validate configmap '" ++ cm.Namespace ++ "/" ++ cm.Name
    ++ "': extension with rootCommand.name='" ++ commandExtension.Metadata.Name
    ++ "' already exists")

/-- One iteration of the loop of `loadCommandExtensionsFromCluster` over
`cms.Items`; the state is `(extensions, parseErrors)`. -/
def loadStep (yamlUnmarshal : String → Except GoError CommandExtension)
    (st : List ConfigmapCommandExtension × Option GoError) (cm : ConfigMap) :
    List ConfigmapCommandExtension × Option GoError :=
  match parseRequiredField yamlUnmarshal cm.Data ExtensionCMDataKey with
  | .error err => (st.1, errorsJoin [st.2, some (parseErrorOf cm err)])
  | .ok commandExtension =>
    if st.1.any (fun e => e.Extension.Metadata.Name = commandExtension.Metadata.Name) then
      (st.1, errorsJoin [st.2, some (duplicateErrorOf cm commandExtension)])
    else
      (st.1 ++ [⟨cm.Name, cm.Namespace, commandExtension⟩], st.2)

/-- The loop of `loadCommandExtensionsFromCluster` over fetched records. -/
def loadRecords (yamlUnmarshal : String → Except GoError CommandExtension)
    (cms : List ConfigMap) : List ConfigmapCommandExtension × Option GoError :=
  cms.foldl (loadStep yamlUnmarshal) ([], none)

/-- Source `loadCommandExtensionsFromCluster` (the same text in
`internal/cmdcommon` and `internal/extensions`). -/
def loadCommandExtensionsFromCluster (yamlUnmarshal : String → Except GoError CommandExtension)
    (clientConfig : KubeClientConfig) : List ConfigmapCommandExtension × Option GoError :=
  match listCommandExtenionConfigMaps clientConfig with
  | .error cmsError => ([], some cmsError)
  | .ok cms => loadRecords yamlUnmarshal cms

/-! ## The command-tree builder (`internal/cmdcommon/extensions.go`) -/

/-- Source `newTypedValue`. -/
def newTypedValue (valueType : ConfigFieldType) (configPath defaultValue : String) :
    Except GoPanic (Value × Option GoError) :=
  let value := NewTyped valueType configPath
  if defaultValue ≠ "" then
    match value.SetValue defaultValue with
    | .error p => .error p
    | .ok (value', some setErr) =>
      .ok (value', some (pkgerrorsWrapf setErr
        ("failed to set default value '" ++ defaultValue ++ "'")))
    | .ok (value', none) => .ok (value', none)
  else .ok (value, none)

/-- The state of the flag loop of `buildExtensionCommand`: the flags
registered so far, `values`, `requiredFlags` and `buildError`. -/
structure FlagLoop where
  cmdFlags : List CmdFlag
  values : List Value
  requiredFlags : List String
  buildError : Option GoError

/-- The loop over `extension.Flags` in `buildExtensionCommand`; `name` is
`extension.Metadata.Name`, and `st.cmdFlags` is the flag set of the command,
which starts with the flags the action constructor registered. -/
def buildFlags (name : String) : List CommandFlag → FlagLoop → Except GoPanic FlagLoop
  | [], st => .ok st
  | flag :: rest, st =>
    match newTypedValue flag.Type_ flag.ConfigPath flag.DefaultValue with
    | .error p => .error p
    | .ok (value, err) =>
      let buildError :=
        match err with
        | some e =>
          errorsJoin [st.buildError, some (.errorString
            ("failed to build flag for '" ++ name ++ "' command: " ++ e.Error))]
        | none => st.buildError
      match VarPF st.cmdFlags value flag.Name flag.Shorthand flag.Description with
      | .error p => .error p
      | .ok added =>
        let cmdFlag : CmdFlag :=
          if flag.Type_ = BoolCustomType then { added with NoOptDefVal := "true" } else added
        let requiredFlags :=
          if flag.Required then st.requiredFlags ++ [flag.Name] else st.requiredFlags
        buildFlags name rest
          { cmdFlags := st.cmdFlags ++ [cmdFlag], values := st.values ++ [value],
            requiredFlags := requiredFlags, buildError := buildError }

mutual
/-- Source `KymaExtensionsConfig.buildExtensionCommand`. The constructor is
looked up in the map and called at once: for a key that is not in the map the
lookup yields the nil function, and calling it panics. -/
def buildExtensionCommand (kymaConfig : KymaConfig) (availableActions : UsesMap) :
    CommandExtension → Except GoPanic (Command × Option GoError)
  | .mk Metadata Uses Flags Args Config SubCommands =>
    match availableActions Uses with
    | none => .error .nilFunctionCall
    | some construct =>
      let cmd := construct kymaConfig Config
      match buildFlags Metadata.Name Flags ⟨cmd.Flags, [], [], none⟩ with
      | .error p => .error p
      | .ok st =>
        let argValue : Option Value := Args.map (fun a => NewTyped a.Type_ a.ConfigPath)
        let values := st.values ++ argValue.toList
        let cmdArgs : Option ArgsRule :=
          match Args with
          | some a => some ⟨a.Optional, NewTyped a.Type_ a.ConfigPath⟩
          | none => cmd.Args
        match buildSubCommands kymaConfig availableActions SubCommands
            (cmd.commands, st.buildError) with
        | .error p => .error p
        | .ok (commands, buildError) =>
          .ok (.mk Metadata.Name Metadata.Description Metadata.DescriptionLong
                st.cmdFlags cmdArgs (some ⟨st.requiredFlags, Config, values⟩) cmd.Run commands,
               buildError)
/-- The loop over `extension.SubCommands` in `buildExtensionCommand`; the
state is the children added so far and `buildError`. Every built child is
added, whatever its own build error. -/
def buildSubCommands (kymaConfig : KymaConfig) (availableActions : UsesMap) :
    List CommandExtension → List Command × Option GoError →
      Except GoPanic (List Command × Option GoError)
  | [], st => .ok st
  | subCommand :: rest, st =>
    match buildExtensionCommand kymaConfig availableActions subCommand with
    | .error p => .error p
    | .ok (subCmd, subErr) =>
      let buildError :=
        match subErr with
        | some e =>
          errorsJoin [st.2, some (.errorString
            ("failed to build sub-command '" ++ subCommand.Metadata.Name ++ "': " ++ e.Error))]
        | none => st.2
      buildSubCommands kymaConfig availableActions rest (st.1 ++ [subCmd], buildError)
end

/-! ## Building all extensions -/

/-- Source `KymaExtensionsConfig` of `internal/cmdcommon`. -/
structure KymaExtensionsConfig where
  kymaConfig : KymaConfig
  extensionsError : Option GoError

/-- Source `newExtensionsConfig`. -/
def newExtensionsConfig (kymaConfig : KymaConfig) : KymaExtensionsConfig :=
  { kymaConfig := kymaConfig, extensionsError := none }

/-- The loop over `configmapExtensions` in `BuildExtensions`; the state is
`(extensions, kec.extensionsError)`. -/
def buildExtensionsLoop (kymaConfig : KymaConfig) (availableActions : UsesMap) :
    List ConfigmapCommandExtension → List Command × Option GoError →
      Except GoPanic (List Command × Option GoError)
  | [], st => .ok st
  | cmExt :: rest, st =>
    match cmExt.Extension.Validate availableActions with
    | some err =>
      buildExtensionsLoop kymaConfig availableActions rest
        (st.1, errorsJoin [st.2, some (pkgerrorsWrapf err
          ("failed to validate extension from configmap '" ++ cmExt.ConfigMapName ++ "/"
            ++ cmExt.ConfigMapNamespace ++ "'"))])
    | none =>
      match buildExtensionCommand kymaConfig availableActions cmExt.Extension with
      | .error p => .error p
      | .ok (_, some err) =>
        buildExtensionsLoop kymaConfig availableActions rest
          (st.1, errorsJoin [st.2, some (pkgerrorsWrapf err
            ("failed to build extension from configmap '" ++ cmExt.ConfigMapName ++ "/"
              ++ cmExt.ConfigMapNamespace ++ "'"))])
      | .ok (command, none) =>
        buildExtensionsLoop kymaConfig availableActions rest (st.1 ++ [command], st.2)

/-- Source `KymaExtensionsConfig.BuildExtensions` of `internal/cmdcommon`:
the returned commands and the receiver after the call. -/
def KymaExtensionsConfig.BuildExtensions (kec : KymaExtensionsConfig) (osArgs : List String)
    (yamlUnmarshal : String → Except GoError CommandExtension) (availableActions : UsesMap) :
    Except GoPanic (List Command × KymaExtensionsConfig) :=
  if getBoolFlagValue osArgs "--skip-extensions" then .ok ([], kec)
  else
    let loaded := loadCommandExtensionsFromCluster yamlUnmarshal kec.kymaConfig.KubeClientConfig
    if loaded.2.isSome then
      .ok ([], { kec with extensionsError := loaded.2 })
    else
      match buildExtensionsLoop kec.kymaConfig availableActions loaded.1 ([], loaded.2) with
      | .error p => .error p
      | .ok (extensions, err) => .ok (extensions, { kec with extensionsError := err })

namespace extensions

/-- Source `KymaExtensionsConfig` of `internal/extensions`. -/
structure KymaExtensionsConfig where
  extensionsError : Option GoError

/-- Source `NewBuilder`. -/
def NewBuilder : KymaExtensionsConfig := { extensionsError := none }

/-- The parts of `internal/extensions` that `Build` calls and that are not
among the sources: `Extension.Default`, `Extension.Validate` and
`buildCommand`. -/
structure Collaborators (κ : Type) where
  Default : CommandExtension → CommandExtension
  Validate : CommandExtension → Registry κ → Option GoError
  buildCommand : KymaConfig → CommandExtension → Registry κ →
    Except GoPanic (Command × Option GoError)

/-- The loop over `configmapExtensions` in `Build`; the state is
`(extensions, kec.extensionsError)`. -/
def buildLoop {κ : Type} (c : Collaborators κ) (kymaConfig : KymaConfig)
    (availableActions : Registry κ) :
    List ConfigmapCommandExtension → List Command × Option GoError →
      Except GoPanic (List Command × Option GoError)
  | [], st => .ok st
  | cmExt :: rest, st =>
    let extension := c.Default cmExt.Extension
    match c.Validate extension availableActions with
    | some err =>
      buildLoop c kymaConfig availableActions rest
        (st.1, errorsJoin [st.2, some (pkgerrorsWrapf err
          ("failed to validate extension from configmap '" ++ cmExt.ConfigMapName ++ "/"
            ++ cmExt.ConfigMapNamespace ++ "'"))])
    | none =>
      match c.buildCommand kymaConfig extension availableActions with
      | .error p => .error p
      | .ok (_, some err) =>
        buildLoop c kymaConfig availableActions rest
          (st.1, errorsJoin [st.2, some (pkgerrorsWrapf err
            ("failed to build extension from configmap '" ++ cmExt.ConfigMapName ++ "/"
              ++ cmExt.ConfigMapNamespace ++ "'"))])
      | .ok (command, none) =>
        buildLoop c kymaConfig availableActions rest (st.1 ++ [command], st.2)

/-- Source `KymaExtensionsConfig.Build` of `internal/extensions`: the returned
commands and the receiver after the call. -/
def KymaExtensionsConfig.Build {κ : Type} (kec : KymaExtensionsConfig) (c : Collaborators κ)
    (osArgs : List String) (yamlUnmarshal : String → Except GoError CommandExtension)
    (kymaConfig : KymaConfig) (availableActions : Registry κ) :
    Except GoPanic (List Command × KymaExtensionsConfig) :=
  if getBoolFlagValue osArgs "--skip-extensions" then .ok ([], kec)
  else
    let loaded := loadCommandExtensionsFromCluster yamlUnmarshal kymaConfig.KubeClientConfig
    if loaded.2.isSome then
      .ok ([], { extensionsError := loaded.2 })
    else
      match buildLoop c kymaConfig availableActions loaded.1 ([], loaded.2) with
      | .error p => .error p
      | .ok (extensions, err) => .ok (extensions, { extensionsError := err })

end extensions

/-! ## Vocabulary of the statements -/

/-- Whether a record is malformed: the key `kyma-commands.yaml` is absent or
its value fails to decode. -/
def malformed (yamlUnmarshal : String → Except GoError CommandExtension) (cm : ConfigMap) : Bool :=
  match cm.Data.lookup ExtensionCMDataKey with
  | none => true
  | some text =>
    match yamlUnmarshal text with
    | .error _ => true
    | .ok _ => false

/-- The Definition a record decodes to, tagged with the record's name and
namespace; `none` for a record that does not decode. -/
def decoded (yamlUnmarshal : String → Except GoError CommandExtension) (cm : ConfigMap) :
    Option ConfigmapCommandExtension :=
  match parseRequiredField yamlUnmarshal cm.Data ExtensionCMDataKey with
  | .ok ext => some ⟨cm.Name, cm.Namespace, ext⟩
  | .error _ => none

/-- The parse error of a record that does not decode; `none` for one that does. -/
def parseFailure (yamlUnmarshal : String → Except GoError CommandExtension) (cm : ConfigMap) :
    Option GoError :=
  match parseRequiredField yamlUnmarshal cm.Data ExtensionCMDataKey with
  | .ok _ => none
  | .error err => some (parseErrorOf cm err)

mutual
/-- All nodes of a Definition tree: the node itself, then the nodes of its
subdefinitions in order. -/
def CommandExtension.nodes : CommandExtension → List CommandExtension
  | .mk Metadata Uses Flags Args Config SubCommands =>
    .mk Metadata Uses Flags Args Config SubCommands :: CommandExtension.nodesOfAll SubCommands
/-- All nodes of a list of Definition trees. -/
def CommandExtension.nodesOfAll : List CommandExtension → List CommandExtension
  | [] => []
  | sub :: rest => sub.nodes ++ CommandExtension.nodesOfAll rest
end

/-- A flag is well-formed when its type is one of the four kinds and its
`ConfigPath` is not empty. -/
def CommandFlag.wellFormed (f : CommandFlag) : Prop :=
  f.Type_ ∈ ValidTypes ∧ f.ConfigPath ≠ ""

/-- An `Args` is well-formed when its type is one of the four kinds and its
`ConfigPath` is not empty. -/
def CommandArgs.wellFormed (a : CommandArgs) : Prop :=
  a.Type_ ∈ ValidTypes ∧ a.ConfigPath ≠ ""

instance CommandFlag.decidableWellFormed (f : CommandFlag) : Decidable f.wellFormed :=
  inferInstanceAs (Decidable (f.Type_ ∈ ValidTypes ∧ f.ConfigPath ≠ ""))

instance CommandArgs.decidableWellFormed (a : CommandArgs) : Decidable a.wellFormed :=
  inferInstanceAs (Decidable (a.Type_ ∈ ValidTypes ∧ a.ConfigPath ≠ ""))

/-- A node breaks the name or the `uses` rule: its metadata name is empty, or
its `uses` is not empty and not a key of the registry. -/
def CommandExtension.nameOrUsesViolation {κ : Type} (availableActions : Registry κ)
    (n : CommandExtension) : Prop :=
  n.Metadata.Name = "" ∨ (n.Uses ≠ "" ∧ availableActions n.Uses = none)

instance CommandExtension.decidableNameOrUsesViolation {κ : Type}
    (availableActions : Registry κ) (n : CommandExtension) :
    Decidable (n.nameOrUsesViolation availableActions) :=
  decidable_of_iff
    (n.Metadata.Name = "" ∨ (n.Uses ≠ "" ∧ (availableActions n.Uses).isNone = true))
    (by unfold CommandExtension.nameOrUsesViolation; rw [Option.isNone_iff_eq_none])

/-- The commands a build call returned, by their `Use` names; `none` when the
call panicked. -/
def returnedNames {σ : Type} (r : Except GoPanic (List Command × σ)) : Option (List String) :=
  match r with
  | .ok (cmds, _) => some (cmds.map Command.Use)
  | .error _ => none

/-! ## Sample data -/

/-- The action identifiers registered by `NewAlphaCMD` (`alpha.go`). -/
def alphaActionIDs : List String :=
  ["function_init", "registry_config", "registry_image-import", "resource_create",
   "resource_get", "resource_delete", "resource_explain"]

/-- A registry with the keys of `NewAlphaCMD`; each constructor returns an
otherwise empty command whose run handle is the action identifier. -/
def alphaActions : UsesMap := fun key =>
  if key ∈ alphaActionIDs then some (fun _ _ => .mk "" "" "" [] none none (some key) [])
  else none

/-- A Definition named `greet` bound to the registered action `resource_get`. -/
def greetExtension : CommandExtension :=
  .mk ⟨"greet", "says hello", ""⟩ "resource_get" [] none [] []

/-- A Definition named `greet` bound to another registered action. -/
def greetAgainExtension : CommandExtension :=
  .mk ⟨"greet", "says hello again", ""⟩ "resource_create" [] none [] []

/-- A Definition named `list` bound to a registered action. -/
def listExtension : CommandExtension :=
  .mk ⟨"list", "lists things", ""⟩ "resource_get" [] none [] []

/-- A stand-in for `yaml.Unmarshal` that decodes three sample documents and
rejects every other text. -/
def sampleUnmarshal (text : String) : Except GoError CommandExtension :=
  if text = "metadata:\n  name: greet\n  description: says hello\nuses: resource_get\n" then
    .ok greetExtension
  else if text = "metadata:\n  name: greet\n  description: says hello again\nuses: resource_create\n" then
    .ok greetAgainExtension
  else if text = "metadata:\n  name: list\n  description: lists things\nuses: resource_get\n" then
    .ok listExtension
  else .error (.errorString "yaml: unmarshal errors")

/-- A record holding the `greet` document. -/
def greetRecord : ConfigMap :=
  ⟨"kyma-system", "greet-cm",
    [(ExtensionCMDataKey, "metadata:\n  name: greet\n  description: says hello\nuses: resource_get\n")]⟩

/-- A later record that also defines a `greet` extension. -/
def greetAgainRecord : ConfigMap :=
  ⟨"default", "greet-again-cm",
    [(ExtensionCMDataKey,
      "metadata:\n  name: greet\n  description: says hello again\nuses: resource_create\n")]⟩

/-- A record holding the `list` document. -/
def listRecord : ConfigMap :=
  ⟨"default", "list-cm",
    [(ExtensionCMDataKey, "metadata:\n  name: list\n  description: lists things\nuses: resource_get\n")]⟩

/-- A record without the key `kyma-commands.yaml`. -/
def keylessRecord : ConfigMap :=
  ⟨"default", "keyless-cm", [("other.yaml", "metadata:\n  name: other\n")]⟩

/-- A record whose document does not decode. -/
def brokenRecord : ConfigMap :=
  ⟨"default", "broken-cm", [(ExtensionCMDataKey, "metadata: [")]⟩

/-- A cluster whose listing succeeds with the given records. -/
def clusterWith (cms : List ConfigMap) : KubeClientConfig :=
  { GetKubeClient := .ok { ListConfigMaps := fun _ => .ok cms } }

/-- A cluster that cannot be reached: no client can be made. -/
def unreachableCluster : KubeClientConfig :=
  { GetKubeClient := .error (.errorString "failed to create cluster connection") }

/-- A cluster whose client is made but whose listing is refused. -/
def forbiddenCluster : KubeClientConfig :=
  { GetKubeClient := .ok { ListConfigMaps := fun _ => .error (.errorString "forbidden") } }

/-- A flag of the unknown type `float` with an empty `ConfigPath`. -/
def floatFlag : CommandFlag :=
  { Type_ := "float", Name := "ratio", Description := "", Shorthand := "", ConfigPath := "",
    DefaultValue := "", Required := false }

/-- An `Args` of the unknown type `float` with an empty `ConfigPath`. -/
def floatArgs : CommandArgs :=
  { Type_ := "float", Optional := false, ConfigPath := "" }

/-- A well-formed string flag. -/
def nameFlag : CommandFlag :=
  { Type_ := "string", Name := "name", Description := "", Shorthand := "n",
    ConfigPath := "spec.name", DefaultValue := "", Required := true }

/-- A group Definition: a name and descriptions, and an empty `uses`. -/
def toolsGroup : CommandExtension :=
  .mk ⟨"tools", "groups tools", "A group of tools."⟩ "" [] none [] []

/-- The error `validateWithPath` has accumulated for a node from its `uses`
and its metadata, before its arguments, flags and subdefinitions are visited. -/
def ownError {κ : Type} (path : String) (availableActions : Registry κ) (n : CommandExtension) :
    Option GoError :=
  let err : Option GoError :=
    if n.Uses ≠ "" ∧ (availableActions n.Uses).isNone then
      errorsJoin [none, some (.errorString
        ("wrong " ++ path ++ "uses: unsupported value '" ++ n.Uses ++ "'"))]
    else none
  match n.Metadata.Validate with
  | some metaErr =>
    errorsJoin [err, some (.errorString ("wrong " ++ path ++ "metadata: " ++ metaErr.Error))]
  | none => err

mutual
/-- The path-tagged messages for the name and `uses` violations of a tree
rooted at `path`: for each node its `uses` message, then its metadata message,
then the messages of its subdefinitions, the `i`-th under the path extended
by `subCommands[i].`. -/
def nameAndUsesMessages {κ : Type} (availableActions : Registry κ) (path : String) :
    CommandExtension → List GoError
  | .mk Metadata Uses _ _ _ SubCommands =>
    (if Uses ≠ "" ∧ (availableActions Uses).isNone then
        [GoError.errorString ("wrong " ++ path ++ "uses: unsupported value '" ++ Uses ++ "'")]
      else [])
    ++ (if Metadata.Name = "" then
        [GoError.errorString ("wrong " ++ path ++ "metadata: empty name")]
      else [])
    ++ nameAndUsesMessagesOfAll availableActions path SubCommands 0
/-- The messages of a list of subdefinitions, the first of which has index `i`. -/
def nameAndUsesMessagesOfAll {κ : Type} (availableActions : Registry κ) (path : String) :
    List CommandExtension → Nat → List GoError
  | [], _ => []
  | sub :: rest, i =>
    nameAndUsesMessages availableActions (path ++ "subCommands[" ++ toString i ++ "].") sub
    ++ nameAndUsesMessagesOfAll availableActions path rest (i + 1)
end

/-- A Definition with a registered action, a name, and one flag of an unknown
type with an empty `ConfigPath`. -/
def ratioExtension : CommandExtension :=
  .mk ⟨"scale", "scales things", ""⟩ "resource_get" [floatFlag] none [] []

/-- A Definition whose only subdefinition carries the ill-formed flag. -/
def nestedRatioExtension : CommandExtension :=
  .mk ⟨"ops", "", ""⟩ "" [] none [] [ratioExtension]

/-- A Definition with a registered action, a name, and an `Args` of an unknown
type with an empty `ConfigPath`. -/
def amountExtension : CommandExtension :=
  .mk ⟨"pay", "pays", ""⟩ "resource_create" [] (some floatArgs) [] []

/-- A Definition whose only subdefinition carries the ill-formed `Args`. -/
def nestedAmountExtension : CommandExtension :=
  .mk ⟨"ops", "", ""⟩ "" [] none [] [amountExtension]

/-- A tree with violations at several depths: the root uses an unregistered
action, its second child has an empty name, and that child has a child with
both an empty name and an unregistered action. -/
def faultyTree : CommandExtension :=
  .mk ⟨"root", "", ""⟩ "nonexistent" [] none []
    [ greetExtension,
      .mk ⟨"", "", ""⟩ "" [] none []
        [ .mk ⟨"", "", ""⟩ "missing_action" [] none [] [] ] ]

/-- A tree with a nameless child that also carries an ill-formed flag and an
ill-formed `Args`. -/
def mixedFaultTree : CommandExtension :=
  .mk ⟨"root", "", ""⟩ "" [] none []
    [ .mk ⟨"", "", ""⟩ "resource_get" [floatFlag] (some floatArgs) [] [] ]

/-- A valid tree: a group with two action children, one with a well-formed flag. -/
def validTree : CommandExtension :=
  .mk ⟨"ops", "", ""⟩ "" [] none []
    [ greetExtension,
      .mk ⟨"hello", "", ""⟩ "resource_create" [nameFlag] (some ⟨"string", true, "spec.who"⟩) [] [] ]

/-! ## Positional arguments, the execution gate and the warnings -/

/-- Source `setOptionalArg`. -/
def setOptionalArg (readFile : String → Except GoError String) (value : Value)
    (args : List String) : Except GoPanic (Value × Option GoError) :=
  if args.length > 1 then
    .ok (value, some (.errorString
      ("accepts at most one argument, received " ++ toString args.length)))
  else if args.length ≠ 0 then
    Value.Set readFile value (args.headD "")
  else .ok (value, none)

/-- Source `setRequiredArg`. -/
def setRequiredArg (readFile : String → Except GoError String) (value : Value)
    (args : List String) : Except GoPanic (Value × Option GoError) :=
  if args.length ≠ 1 then
    .ok (value, some (.errorString
      ("requires exactly one argument, received " ++ toString args.length)))
  else Value.Set readFile value (args.headD "")

/-- The closure assigned to `cmd.Args` by `buildExtensionCommand`, applied to
the positional values: the typed value after the call and the returned error. -/
def ArgsRule.run (readFile : String → Except GoError String) (rule : ArgsRule)
    (args : List String) : Except GoPanic (Value × Option GoError) :=
  if rule.Optional then setOptionalArg readFile rule.value args
  else setRequiredArg readFile rule.value args

/-- Whether an error is one of the two count errors of the argument rule, for
`n` positional values. -/
def isCountError (n : Nat) (err : Option GoError) : Bool :=
  match err with
  | some (.errorString s) =>
    decide (s = "accepts at most one argument, received " ++ toString n)
      || decide (s = "requires exactly one argument, received " ++ toString n)
  | _ => false

/-- The flag library's handling of a long flag written without a value and
followed by no further argument: a flag with a non-empty `NoOptDefVal` is set
from that text with `Value.Set`, any other flag is refused for want of a value. -/
def CmdFlag.supplyBare (readFile : String → Except GoError String) (flag : CmdFlag) :
    Except GoPanic (CmdFlag × Option GoError) :=
  if flag.NoOptDefVal ≠ "" then
    match Value.Set readFile flag.Value flag.NoOptDefVal with
    | .error p => .error p
    | .ok (value, err) => .ok ({ flag with Value := value }, err)
  else .ok (flag, some (.errorString ("flag needs an argument: --" ++ flag.Name)))

/-- Modelled from the spec: `flags.Validate(cmd.Flags(), flags.MarkRequired(requiredFlags...))`
of `internal/cmdcommon/flags`, which is not among the sources ("verify every
remembered required-flag name actually received a value; on any miss, fail with
one error listing all missing names"). `supplied` holds the names of the flags
that received a value on the command line. -/
def flagsValidateRequired (supplied requiredFlags : List String) : Option GoError :=
  match requiredFlags.filter (fun name => !supplied.contains name) with
  | [] => none
  | missing => some (.errorString ("missing required flags: " ++ ", ".intercalate missing))

/-- How a run of the `PreRun` gate ends: `clierror.Check` printed an error and
called `os.Exit(1)`, the binding panicked, or the gate returned with the config
blob as bound. -/
inductive GateOutcome where
  | exited (err : GoError)
  | panicked (p : GoPanic)
  | passed (config : CommandConfig)

/-- The closure assigned to `cmd.PreRun` by `buildExtensionCommand`: first
`clierror.Check` on the required-flag validation, then `clierror.Check` on
`parameters.Set(extension.Config, values)`; `clierror.Check` ends the process
on a non-nil error. `parametersSet` stands for `parameters.Set`, which is not
among the sources. -/
def PreRunGate.run
    (parametersSet : CommandConfig → List Value → Except GoPanic (CommandConfig × Option GoError))
    (supplied : List String) (gate : PreRunGate) : GateOutcome :=
  match flagsValidateRequired supplied gate.requiredFlags with
  | some err => .exited err
  | none =>
    match parametersSet gate.config gate.values with
    | .error p => .panicked p
    | .ok (_, some err) => .exited err
    | .ok (config, none) => .passed config

/-- The terse notice of `DisplayExtensionsErrors` and `DisplayWarnings`. -/
def terseWarning : String :=
  "Extensions Warning:\nfailed to fetch all extensions from the cluster. Use the '--show-extensions-error' flag to see more details.\n\n"

/-- The full warning of `DisplayExtensionsErrors` and `DisplayWarnings`. -/
def fullWarning (err : GoError) : String :=
  "Extensions Warning:\n" ++ err.Error ++ "\n\n"

/-- The body shared by `DisplayExtensionsErrors` and `DisplayWarnings`: the
texts written to the warning writer, in order. -/
def displayWarnings (extensionsError : Option GoError) (osArgs : List String) : List String :=
  if isSubRootCommandUsed osArgs ["help", "completion", "version"] then []
  else
    match extensionsError with
    | some err =>
      if getBoolFlagValue osArgs "--show-extensions-error" then [fullWarning err]
      else [terseWarning]
    | none => []

/-- Source `KymaExtensionsConfig.DisplayExtensionsErrors` of `internal/cmdcommon`. -/
def KymaExtensionsConfig.DisplayExtensionsErrors (kec : KymaExtensionsConfig)
    (osArgs : List String) : List String :=
  displayWarnings kec.extensionsError osArgs

/-- Source `KymaExtensionsConfig.DisplayWarnings` of `internal/extensions`. -/
def extensions.KymaExtensionsConfig.DisplayWarnings (kec : extensions.KymaExtensionsConfig)
    (osArgs : List String) : List String :=
  displayWarnings kec.extensionsError osArgs

/-! ## Vocabulary of the statements on the builder -/

/-- The typed value the flag loop registers for a flag. -/
def CommandFlag.typedValue (flag : CommandFlag) : Value :=
  match newTypedValue flag.Type_ flag.ConfigPath flag.DefaultValue with
  | .ok (value, _) => value
  | .error _ => NewTyped flag.Type_ flag.ConfigPath

/-- The flag the flag loop registers on the command for a flag of a Definition. -/
def CommandFlag.registered (flag : CommandFlag) : CmdFlag :=
  { Name := flag.Name, Shorthand := flag.Shorthand, Usage := flag.Description,
    Value := flag.typedValue,
    NoOptDefVal := if flag.Type_ = BoolCustomType then "true" else "" }

/-- The flag has a non-empty default that the code refuses: it is of kind
`int` and not a decimal 64-bit integer, or of kind `bool` and not boolean text. -/
def CommandFlag.defaultRejected (flag : CommandFlag) : Bool :=
  decide (flag.DefaultValue ≠ "") &&
    ((decide (flag.Type_ = IntCustomType) && (strconvParseInt flag.DefaultValue).toOption.isNone)
      || (decide (flag.Type_ = BoolCustomType) && (strconvParseBool flag.DefaultValue).isNone))

/-- The flag is of kind `bool` with a non-empty default that is boolean text:
storing the parsed default goes through the nil pointer of the fresh value. -/
def CommandFlag.defaultPanics (flag : CommandFlag) : Bool :=
  decide (flag.DefaultValue ≠ "") && decide (flag.Type_ = BoolCustomType)
    && (strconvParseBool flag.DefaultValue).isSome

/-- Whether a non-empty default fails to parse for the declared kind, in the
words of the specification: text of kind `string` never fails, kind `int`
fails on non-numeric text, kind `bool` fails on non-boolean text, and kind
`path` fails when the file named by the text cannot be read. -/
def CommandFlag.defaultFailsToParse (readFile : String → Except GoError String)
    (flag : CommandFlag) : Bool :=
  decide (flag.DefaultValue ≠ "") &&
    (if flag.Type_ = PathCustomType then (readFile flag.DefaultValue).toOption.isNone
     else if flag.Type_ = IntCustomType then (strconvParseInt flag.DefaultValue).toOption.isNone
     else if flag.Type_ = BoolCustomType then (strconvParseBool flag.DefaultValue).isNone
     else false)

/-- The build outcome reduced to what the statements compare: the `Use` names
of the children of the built node and whether a build error came with it;
`none` when the build panicked. -/
def builtChildren (r : Except GoPanic (Command × Option GoError)) :
    Option (List String × Bool) :=
  match r with
  | .ok (cmd, err) => some (cmd.commands.map Command.Use, err.isSome)
  | .error _ => none

/-- The flag can be registered on a flag set holding `formal`: it is not of
kind `bool`, its name is not registered yet, and its shorthand is empty or is
one byte that is not registered yet. -/
def CommandFlag.registers (formal : List CmdFlag) (flag : CommandFlag) : Bool :=
  decide (flag.Type_ ≠ BoolCustomType)
    && !formal.any (fun g => g.Name = flag.Name)
    && (decide (flag.Shorthand = "")
        || (decide (flag.Shorthand.utf8ByteSize ≤ 1)
            && !formal.any (fun g => g.Shorthand = flag.Shorthand)))

/-- The flags can be registered one after the other on a flag set holding
`formal`: none is of kind `bool`, no name and no non-empty shorthand is
registered twice, and no shorthand is longer than one byte. -/
def flagsRegister : List CmdFlag → List CommandFlag → Bool
  | _, [] => true
  | formal, flag :: rest =>
    flag.registers formal && flagsRegister (formal ++ [flag.registered]) rest

/-- A node can be built without a panic: its action is a key of the registry
and its flags can be registered on the flag set of the command the action
constructor returns. -/
def nodeBuilds (kymaConfig : KymaConfig) (availableActions : UsesMap)
    (n : CommandExtension) : Prop :=
  (availableActions n.Uses).map
    (fun construct => flagsRegister (construct kymaConfig n.Config).Flags n.Flags) = some true

instance nodeBuilds.decidable (kymaConfig : KymaConfig) (availableActions : UsesMap)
    (n : CommandExtension) : Decidable (nodeBuilds kymaConfig availableActions n) :=
  inferInstanceAs (Decidable ((availableActions n.Uses).map
    (fun construct => flagsRegister (construct kymaConfig n.Config).Flags n.Flags) = some true))

/-- The command `BuildExtensions` returns for a loaded Definition: the built
node when the Definition validates and its build returns no error. -/
def builtFor (kymaConfig : KymaConfig) (availableActions : UsesMap)
    (cmExt : ConfigmapCommandExtension) : Option Command :=
  match cmExt.Extension.Validate availableActions with
  | some _ => none
  | none =>
    match buildExtensionCommand kymaConfig availableActions cmExt.Extension with
    | .ok (command, none) => some command
    | _ => none

/-- The texts of the errors held by the extensions error after a build call;
`none` when the call panicked. -/
def recordedErrors (r : Except GoPanic (List Command × KymaExtensionsConfig)) :
    Option (List String) :=
  match r with
  | .ok (_, kec) => some ((heldErrors kec.extensionsError).map GoError.Error)
  | .error _ => none

/-- The typed values of the flags registered on the built node; `none` when
the build panicked. -/
def builtFlagValues (r : Except GoPanic (Command × Option GoError)) : Option (List Value) :=
  match r with
  | .ok (cmd, _) => some (cmd.Flags.map (fun f => f.Value))
  | .error _ => none

/-- Whether a build error came with the built node; `none` when the build
panicked. -/
def builtWithError (r : Except GoPanic (Command × Option GoError)) : Option Bool :=
  match r with
  | .ok (_, err) => some err.isSome
  | .error _ => none

/-! ## Sample data for the builder -/

/-- A file system with one readable file, `/etc/motd`, holding `hello`. -/
def sampleFiles (path : String) : Except GoError String :=
  if path = "/etc/motd" then .ok "hello"
  else .error (.errorString ("open " ++ path ++ ": no such file or directory"))

/-- An `int` flag whose default is not a number. -/
def countFlag : CommandFlag :=
  { Type_ := "int", Name := "count", Description := "how many", Shorthand := "c",
    ConfigPath := "spec.count", DefaultValue := "abc", Required := false }

/-- An `int` flag with a numeric default. -/
def replicasFlag : CommandFlag :=
  { Type_ := "int", Name := "replicas", Description := "", Shorthand := "",
    ConfigPath := "spec.replicas", DefaultValue := "3", Required := false }

/-- A `path` flag whose default names the readable file. -/
def motdFlag : CommandFlag :=
  { Type_ := "path", Name := "motd", Description := "", Shorthand := "",
    ConfigPath := "spec.motd", DefaultValue := "/etc/motd", Required := false }

/-- A `path` flag whose default names a file that cannot be read. -/
def missingFileFlag : CommandFlag :=
  { Type_ := "path", Name := "values", Description := "", Shorthand := "",
    ConfigPath := "spec.values", DefaultValue := "/no/such/file", Required := false }

/-- A `bool` flag without a default. -/
def forceFlag : CommandFlag :=
  { Type_ := "bool", Name := "force", Description := "", Shorthand := "f",
    ConfigPath := "spec.force", DefaultValue := "", Required := false }

/-- A Definition with the `int` flag of the ill-formed default. -/
def scaleExtension : CommandExtension :=
  .mk ⟨"scale", "scales things", ""⟩ "resource_get" [countFlag] none [] []

/-- A Definition with three subdefinitions, the second of which builds with an error. -/
def deployExtension : CommandExtension :=
  .mk ⟨"deploy", "deploys things", ""⟩ "resource_create" [replicasFlag] none []
    [greetExtension, scaleExtension, listExtension]

/-- A Definition with the `path` flag whose default names the readable file. -/
def motdExtension : CommandExtension :=
  .mk ⟨"motd", "", ""⟩ "resource_get" [motdFlag] none [] []

/-- A Definition with the `path` flag whose default names an unreadable file. -/
def archiveExtension : CommandExtension :=
  .mk ⟨"archive", "", ""⟩ "resource_create" [missingFileFlag] none [] []

/-- A Definition with a `bool` flag and a required string flag. -/
def pruneExtension : CommandExtension :=
  .mk ⟨"prune", "", ""⟩ "resource_delete" [forceFlag, nameFlag] none [] []

/-- A Definition with a required string flag. -/
def welcomeExtension : CommandExtension :=
  .mk ⟨"welcome", "", ""⟩ "resource_get" [nameFlag] none [] []

/-- A Definition with a required positional argument of kind `bool`. -/
def confirmExtension : CommandExtension :=
  .mk ⟨"confirm", "", ""⟩ "resource_delete" [] (some ⟨"bool", false, "spec.confirm"⟩) [] []

/-- A Definition with a required positional argument of kind `string`. -/
def describeExtension : CommandExtension :=
  .mk ⟨"describe", "", ""⟩ "resource_get" [] (some ⟨"string", false, "spec.name"⟩) [] []

/-- A Definition with an optional positional argument of kind `path`. -/
def applyExtension : CommandExtension :=
  .mk ⟨"apply", "", ""⟩ "resource_create" [] (some ⟨"path", true, "spec.manifest"⟩) [] []

/-- A Definition bound to an action that is not in the registry. -/
def bogusExtension : CommandExtension :=
  .mk ⟨"bogus", "", ""⟩ "nonexistent" [] none [] []

/-- A stand-in for `yaml.Unmarshal` that also decodes the documents of
`bogusExtension` and `toolsGroup`. -/
def catalogUnmarshal (text : String) : Except GoError CommandExtension :=
  if text = "metadata:\n  name: bogus\nuses: nonexistent\n" then .ok bogusExtension
  else if text
      = "metadata:\n  name: tools\n  description: groups tools\n  descriptionLong: A group of tools.\n"
    then .ok toolsGroup
  else sampleUnmarshal text

/-- A record holding the `bogus` document. -/
def bogusRecord : ConfigMap :=
  ⟨"default", "bogus-cm", [(ExtensionCMDataKey, "metadata:\n  name: bogus\nuses: nonexistent\n")]⟩

/-- A record holding the `tools` document. -/
def toolsRecord : ConfigMap :=
  ⟨"default", "tools-cm",
    [(ExtensionCMDataKey,
      "metadata:\n  name: tools\n  description: groups tools\n  descriptionLong: A group of tools.\n")]⟩

/-- A binder that stores nothing: it returns the config blob as given. -/
def keepConfig (config : CommandConfig) (_values : List Value) :
    Except GoPanic (CommandConfig × Option GoError) :=
  .ok (config, none)

/-! ## The config path binder -/

/-- The segments of a dotted path, cut at every `.`; `cur` holds the
characters of the segment being read, in reverse. -/
def splitDotsFrom (cur : List Char) : List Char → List String
  | [] => [String.mk cur.reverse]
  | c :: rest =>
    if c = '.' then String.mk cur.reverse :: splitDotsFrom [] rest
    else splitDotsFrom (c :: cur) rest

/-- The segments of a dotted path: `a.b.c` has the segments `a`, `b`, `c`. -/
def pathSegments (path : String) : List String :=
  splitDotsFrom [] path.toList

/-- Setting a key of a mapping: the first entry with the key is replaced, and
a key that is absent is added. -/
def setKey (key : String) (node : ConfigNode) :
    List (String × ConfigNode) → List (String × ConfigNode)
  | [] => [(key, node)]
  | (k, n) :: rest =>
    if k = key then (key, node) :: rest else (k, n) :: setKey key node rest

/-- The structural-conflict error of the binder. -/
def structuralConflict (segment : String) : GoError :=
  .errorString ("value cannot be set because '" ++ segment ++ "' is not a mapping")

/-- Modelled from the spec: the path-set operation of `parameters.Set`, which
is not among the sources ("writes a scalar at the addressed leaf, creating
intermediate mappings for path segments that do not yet exist. Overwrites an
existing leaf at that exact path. If an intermediate segment already holds a
scalar (not a mapping), binding fails with a structural-conflict error").
`cur` is the node found where the remaining segments start, `none` when there
is none yet; the result is the node that takes its place. -/
def setNode (v : Scalar) : List String → Option ConfigNode → Except GoError ConfigNode
  | [], _ => .ok (.scalar v)
  | key :: _, some (.scalar _) => .error (structuralConflict key)
  | key :: rest, some (.mapping entries) =>
    match setNode v rest (entries.lookup key) with
    | .ok node => .ok (.mapping (setKey key node entries))
    | .error err => .error err
  | key :: rest, none =>
    match setNode v rest none with
    | .ok node => .ok (.mapping [(key, node)])
    | .error err => .error err

/-- Modelled from the spec: binding one scalar into the config blob at a path
given by its segments (the root of the blob is a mapping). -/
def bindAt (config : CommandConfig) (segments : List String) (v : Scalar) :
    Except GoError CommandConfig :=
  match setNode v segments (some (.mapping config)) with
  | .ok (.mapping entries) => .ok entries
  | .ok (.scalar _) => .error (.errorString "empty config path")
  | .error err => .error err

/-- The node reached from a node along the segments of a path. -/
def nodeAt : List String → ConfigNode → Option ConfigNode
  | [], node => some node
  | _ :: _, .scalar _ => none
  | key :: rest, .mapping entries =>
    match entries.lookup key with
    | some child => nodeAt rest child
    | none => none

/-- The scalar a node holds at a path, when there is a leaf at that path. -/
def leafAt (segments : List String) (cur : Option ConfigNode) : Option Scalar :=
  match cur with
  | none => none
  | some node =>
    match nodeAt segments node with
    | some (.scalar v) => some v
    | _ => none

/-- The scalar the config blob holds at a dotted path. -/
def CommandConfig.leaf (config : CommandConfig) (path : String) : Option Scalar :=
  leafAt (pathSegments path) (some (.mapping config))

/-- Modelled from the spec: `parameters.Set(extension.Config, values)`, which is
not among the sources ("bind every Typed Value (flags, then the positional
value if present) into the shared config blob via §4.4, skipping unset ones").
The values are bound in order; the first failure ends the binding with its
error. -/
def parametersSet : CommandConfig → List Value →
    Except GoPanic (CommandConfig × Option GoError)
  | config, [] => .ok (config, none)
  | config, value :: rest =>
    match value.GetValue with
    | .error p => .error p
    | .ok none => parametersSet config rest
    | .ok (some v) =>
      match bindAt config (pathSegments value.GetPath) v with
      | .error err =>
        .ok (config, some (pkgerrorsWrapf err
          ("failed to set value for path " ++ value.GetPath)))
      | .ok config' => parametersSet config' rest

/-! ## Deleting modules (`internal/cmd/module/delete.go`) -/

namespace moduleCmd

/-- Source `deleteConfig`; of the embedded `KymaConfig` only the outcome of
`GetKubeClientWithClierr` is kept. -/
structure deleteConfig where
  GetKubeClientWithClierr : Except GoError KubeClient
  autoApprove : Bool
  community : Bool
  modules : List String
  modulePaths : List String

/-- Source `deleteConfig.complete`. -/
def deleteConfig.complete (c : deleteConfig) : List String → deleteConfig
  | [] => c
  | arg :: rest =>
    if stringsContains arg "/" then
      deleteConfig.complete { c with modulePaths := c.modulePaths ++ [arg] } rest
    else
      deleteConfig.complete { c with modules := c.modules ++ [arg] } rest

/-- What `runDelete` does that can be observed: a call of `disableModule` for
a core module, a call of `uninstallCommunityModule` for a module path, and the
empty line of `out.Msgln("")`. -/
inductive DeleteEvent where
  | coreModule (name : String)
  | communityModule (path : String)
  | emptyLine
  deriving DecidableEq, Repr

/-- The loop of `runDelete` over `cfg.modules`, at index `i` with the modules
from `i` on still to do; `total` is `len(cfg.modules)` and `paths` is
`len(cfg.modulePaths)`. It returns the events and the error it ends with. -/
def coreLoop (disableModule : String → Option GoError) (total paths : Nat) :
    List String → Nat → List DeleteEvent → List DeleteEvent × Option GoError
  | [], _, events => (events, none)
  | module :: rest, i, events =>
    match disableModule module with
    | some clierr =>
      (events ++ [.coreModule module],
        some (.withMessage clierr ("failed to delete module '" ++ module ++ "'")))
    | none =>
      if (i : Int) < (total : Int) - 1 ∨ paths > 0 then
        coreLoop disableModule total paths rest (i + 1)
          (events ++ [.coreModule module, .emptyLine])
      else
        coreLoop disableModule total paths rest (i + 1) (events ++ [.coreModule module])

/-- The loop of `runDelete` over `cfg.modulePaths`, at index `i`; `total` is
`len(cfg.modulePaths)`. -/
def communityLoop (uninstallCommunityModule : String → Option GoError) (total : Nat) :
    List String → Nat → List DeleteEvent → List DeleteEvent × Option GoError
  | [], _, events => (events, none)
  | modulePath :: rest, i, events =>
    match uninstallCommunityModule modulePath with
    | some clierr =>
      (events ++ [.communityModule modulePath],
        some (.withMessage clierr
          ("failed to delete community module '" ++ modulePath ++ "'")))
    | none =>
      if (i : Int) < (total : Int) - 1 then
        communityLoop uninstallCommunityModule total rest (i + 1)
          (events ++ [.communityModule modulePath, .emptyLine])
      else
        communityLoop uninstallCommunityModule total rest (i + 1)
          (events ++ [.communityModule modulePath])

/-- Source `runDelete` of `internal/cmd/module`. The two deletion routines,
with their prompts and cluster calls, are parameters: each returns nil or an
error for a module. -/
def runDelete (disableModule uninstallCommunityModule : String → Option GoError)
    (cfg : deleteConfig) : List DeleteEvent × Option GoError :=
  match cfg.GetKubeClientWithClierr with
  | .error clierr => ([], some clierr)
  | .ok _ =>
    match coreLoop disableModule cfg.modules.length cfg.modulePaths.length cfg.modules 0 [] with
    | (events, some clierr) => (events, some clierr)
    | (events, none) =>
      communityLoop uninstallCommunityModule cfg.modulePaths.length cfg.modulePaths 0 events

/-- A config with two core modules and two community module paths. -/
def sampleDelete : deleteConfig :=
  { GetKubeClientWithClierr := .ok { ListConfigMaps := fun _ => .ok [] },
    autoApprove := true, community := false,
    modules := ["serverless", "istio"],
    modulePaths := ["default/cluster-ip", "kyma-system/docker-registry"] }

/-- The same config on a machine where the cluster client cannot be obtained. -/
def offlineDelete : deleteConfig :=
  { sampleDelete with GetKubeClientWithClierr := .error (.errorString "no kubeconfig") }

/-- A deletion routine that succeeds for every module. -/
def alwaysDeleted : String → Option GoError := fun _ => none

end moduleCmd

/-! ## Deleting a Hana instance (`internal/cmd/hana/delete.go`) -/

namespace hana

/-- The two resource kinds the command deletes (`operator.GVRServiceInstance`,
`operator.GVRServiceBinding`). -/
inductive GVR where
  | ServiceInstance
  | ServiceBinding
  deriving DecidableEq, Repr

/-- Source `hanaDeleteConfig`; `Delete` is the call
`KubeClient.Dynamic().Resource(gvr).Namespace(namespace).Delete(ctx, name, …)`,
which returns nil or an error. -/
structure hanaDeleteConfig where
  name : String
  namespace_ : String
  Delete : GVR → String → String → Option GoError

/-- The collaborators of the package that are not among the sources:
`errors.IsNotFound` of the cluster library, `clierror.Wrap` and
`hanaBindingUrlName`. -/
structure Collaborators where
  IsNotFound : GoError → Bool
  Wrap : GoError → String → GoError
  hanaBindingUrlName : String → String

/-- What the command does that can be observed: a line printed and a delete
call sent to the cluster. -/
inductive Event where
  | printed (line : String)
  | deleteCall (gvr : GVR) (namespace_ name : String)
  deriving DecidableEq, Repr

/-- Source `handleDeleteResponse`: the lines printed and the returned error. -/
def handleDeleteResponse (c : Collaborators) (err : Option GoError)
    (printedName namespace_ name : String) : List Event × Option GoError :=
  match err with
  | none =>
    ([.printed ("Deleted " ++ printedName ++ " (" ++ namespace_ ++ "/" ++ name ++ ").\n")], none)
  | some e =>
    if c.IsNotFound e then
      ([.printed (printedName ++ " (" ++ namespace_ ++ "/" ++ name ++ ") not found.\n")], none)
    else ([], some (c.Wrap e "failed to delete Hana resource."))

/-- Source `deleteHanaInstance`. -/
def deleteHanaInstance (c : Collaborators) (config : hanaDeleteConfig) :
    List Event × Option GoError :=
  let err := config.Delete .ServiceInstance config.namespace_ config.name
  let r := handleDeleteResponse c err "Hana instance" config.namespace_ config.name
  (.deleteCall .ServiceInstance config.namespace_ config.name :: r.1, r.2)

/-- Source `deleteHanaBinding`. -/
def deleteHanaBinding (c : Collaborators) (config : hanaDeleteConfig) :
    List Event × Option GoError :=
  let err := config.Delete .ServiceBinding config.namespace_ config.name
  let r := handleDeleteResponse c err "Hana binding" config.namespace_ config.name
  (.deleteCall .ServiceBinding config.namespace_ config.name :: r.1, r.2)

/-- Source `deleteHanaBindingUrl`. -/
def deleteHanaBindingUrl (c : Collaborators) (config : hanaDeleteConfig) :
    List Event × Option GoError :=
  let urlName := c.hanaBindingUrlName config.name
  let err := config.Delete .ServiceBinding config.namespace_ urlName
  let r := handleDeleteResponse c err "Hana URL binding" config.namespace_ urlName
  (.deleteCall .ServiceBinding config.namespace_ urlName :: r.1, r.2)

/-- Source `deleteCommands`. -/
def deleteCommands (c : Collaborators) :
    List (hanaDeleteConfig → List Event × Option GoError) :=
  [deleteHanaBinding c, deleteHanaBindingUrl c, deleteHanaInstance c]

/-- The loop of `runDelete` over the delete commands. -/
def runCommands (config : hanaDeleteConfig) :
    List (hanaDeleteConfig → List Event × Option GoError) → List Event →
      List Event × Option GoError
  | [], events => (events ++ [.printed "Operation completed.\n"], none)
  | command :: rest, events =>
    match command config with
    | (printed, some err) => (events ++ printed, some err)
    | (printed, none) => runCommands config rest (events ++ printed)

/-- Source `runDelete` of `internal/cmd/hana`. -/
def runDelete (c : Collaborators) (config : hanaDeleteConfig) : List Event × Option GoError :=
  runCommands config (deleteCommands c)
    [.printed ("Deleting Hana (" ++ config.namespace_ ++ "/" ++ config.name ++ ").\n")]

/-- Sample collaborators: an error is a not-found error when its text ends in
`not found`, wrapping puts the message in front, and the URL binding of a
Hana is named after it with the suffix `-url`. -/
def sampleCollaborators : Collaborators :=
  { IsNotFound := fun e => "not found".toList.isSuffixOf e.Error.toList,
    Wrap := fun e msg => .withMessage e msg,
    hanaBindingUrlName := fun name => name ++ "-url" }

/-- A Hana of which nothing is left on the cluster. -/
def absentHana : hanaDeleteConfig :=
  { name := "db", namespace_ := "default",
    Delete := fun _ _ name => some (.errorString ("\"" ++ name ++ "\" not found")) }

/-- A Hana whose binding is gone and whose URL binding cannot be deleted. -/
def lockedHana : hanaDeleteConfig :=
  { name := "db", namespace_ := "default",
    Delete := fun gvr _ name =>
      if gvr = .ServiceBinding ∧ name = "db-url" then some (.errorString "forbidden")
      else if gvr = .ServiceBinding then some (.errorString ("\"" ++ name ++ "\" not found"))
      else none }

end hana

/-! ## Sample data for the binder -/

/-- A string value bound to `spec.name` and holding `Ada`. -/
def adaValue : Value := .stringValue ⟨some "Ada"⟩ "spec.name"

/-- The gate of a command with the required flag `name` and an empty config blob. -/
def greetGate : PreRunGate := ⟨["name"], [], [adaValue]⟩

/-- The blob `a: b: 1`, in which the path `a` holds a mapping. -/
def nestedBlob : CommandConfig := [("a", .mapping [("b", .scalar (.int 1))])]

/-! # Theorems -/

/-! ## Lemmas on the loader -/

theorem heldErrors_errorsJoin_pair (p : Option GoError) (e : GoError) :
    heldErrors (errorsJoin [p, some e]) = heldErrors p ++ e.flatten := by
  cases p <;> simp [errorsJoin, heldErrors, GoError.flatten, GoError.flattenAll]

theorem errorsJoin_pair_isSome (p : Option GoError) (e : GoError) :
    (errorsJoin [p, some e]).isSome = true := by
  cases p <;> simp [errorsJoin]

theorem loadRecords_snoc (u : String → Except GoError CommandExtension) (pre : List ConfigMap)
    (cm : ConfigMap) :
    loadRecords u (pre ++ [cm]) = loadStep u (loadRecords u pre) cm := by
  simp [loadRecords, List.foldl_append]

theorem malformed_iff_decoded_none (u : String → Except GoError CommandExtension) (cm : ConfigMap) :
    malformed u cm = true ↔ decoded u cm = none := by
  unfold malformed decoded parseRequiredField
  cases h : cm.Data.lookup ExtensionCMDataKey with
  | none => simp
  | some text => cases h2 : u text <;> simp [h2]

theorem parseFailure_isSome (u : String → Except GoError CommandExtension) (cm : ConfigMap) :
    (parseFailure u cm).isSome = malformed u cm := by
  unfold malformed parseFailure parseRequiredField
  cases h : cm.Data.lookup ExtensionCMDataKey with
  | none => simp
  | some text => cases h2 : u text <;> simp [h2]

/-- The names accepted so far are exactly the names of the decodable records seen so far. -/
theorem loadRecords_names (u : String → Except GoError CommandExtension) (cms : List ConfigMap)
    (name : String) :
    (∃ e ∈ (loadRecords u cms).1, e.Extension.Metadata.Name = name) ↔
      (∃ d ∈ cms.filterMap (decoded u), d.Extension.Metadata.Name = name) := by
  induction cms using List.reverseRecOn with
  | nil => simp [loadRecords]
  | append_singleton pre cm ih =>
    rw [loadRecords_snoc, List.filterMap_append]
    unfold loadStep
    cases hd : parseRequiredField u cm.Data ExtensionCMDataKey with
    | error err =>
      simp only [List.filterMap_cons, List.filterMap_nil, decoded, hd, List.append_nil]
      exact ih
    | ok ext =>
      simp only [List.filterMap_cons, List.filterMap_nil, decoded, hd]
      by_cases hany : (loadRecords u pre).1.any
          (fun e => e.Extension.Metadata.Name = ext.Metadata.Name) = true
      · rw [if_pos hany]
        simp only [List.mem_append, List.mem_singleton]
        constructor
        · rintro ⟨e, he, hn⟩
          obtain ⟨d, hd', hdn⟩ := ih.mp ⟨e, he, hn⟩
          exact ⟨d, Or.inl hd', hdn⟩
        · rintro ⟨d, hd' | hd', hdn⟩
          · exact ih.mpr ⟨d, hd', hdn⟩
          · subst hd'
            simp only [List.any_eq_true, decide_eq_true_eq] at hany
            obtain ⟨e, he, hen⟩ := hany
            exact ⟨e, he, hen.trans hdn⟩
      · rw [if_neg hany]
        simp only [List.mem_append, List.mem_singleton]
        constructor
        · rintro ⟨e, he | he, hn⟩
          · obtain ⟨d, hd', hdn⟩ := ih.mp ⟨e, he, hn⟩
            exact ⟨d, Or.inl hd', hdn⟩
          · exact ⟨e, Or.inr he, hn⟩
        · rintro ⟨d, hd' | hd', hdn⟩
          · obtain ⟨e, he, hen⟩ := ih.mpr ⟨d, hd', hdn⟩
            exact ⟨e, Or.inl he, hen⟩
          · exact ⟨d, Or.inr hd', hdn⟩

theorem loadRecords_any_iff (u : String → Except GoError CommandExtension) (pre : List ConfigMap)
    (name : String) :
    (loadRecords u pre).1.any (fun e => e.Extension.Metadata.Name = name) = true ↔
      ∃ d ∈ pre.filterMap (decoded u), d.Extension.Metadata.Name = name := by
  rw [← loadRecords_names]
  simp [List.any_eq_true]

theorem loadRecords_any_eq (u : String → Except GoError CommandExtension) (pre : List ConfigMap)
    (name : String) :
    (loadRecords u pre).1.any (fun e => e.Extension.Metadata.Name = name) =
      (pre.filterMap (decoded u)).any (fun d => d.Extension.Metadata.Name = name) := by
  rw [Bool.eq_iff_iff, loadRecords_any_iff]
  simp only [List.any_eq_true, decide_eq_true_eq]

theorem loadRecords_nodup (u : String → Except GoError CommandExtension) (cms : List ConfigMap) :
    ((loadRecords u cms).1.map (fun e => e.Extension.Metadata.Name)).Nodup := by
  induction cms using List.reverseRecOn with
  | nil => simp [loadRecords]
  | append_singleton pre cm ih =>
    rw [loadRecords_snoc]
    unfold loadStep
    cases hd : parseRequiredField u cm.Data ExtensionCMDataKey with
    | error err => exact ih
    | ok ext =>
      simp only
      by_cases hany : (loadRecords u pre).1.any
          (fun e => e.Extension.Metadata.Name = ext.Metadata.Name) = true
      · rw [if_pos hany]; exact ih
      · rw [if_neg hany]
        simp only [List.map_append, List.map_cons, List.map_nil]
        rw [List.nodup_append]
        refine ⟨ih, List.nodup_singleton _, ?_⟩
        simp only [List.any_eq_true, decide_eq_true_eq, not_exists, not_and] at hany
        intro a ha hb
        simp only [List.mem_singleton] at hb
        simp only [List.mem_map] at ha
        obtain ⟨e, he, hen⟩ := ha
        exact hany e he (hen.trans hb)

theorem parseErrorOf_flatten (cm : ConfigMap) (err : GoError) :
    (parseErrorOf cm err).flatten = [parseErrorOf cm err] := by
  simp [parseErrorOf, pkgerrorsWrapf, GoError.flatten]

theorem duplicateErrorOf_flatten (cm : ConfigMap) (ext : CommandExtension) :
    (duplicateErrorOf cm ext).flatten = [duplicateErrorOf cm ext] := by
  simp [duplicateErrorOf, GoError.flatten]

/-- With pairwise-distinct decodable names the loader keeps every decodable
record and records one parse error per other record. -/
theorem loadRecords_distinct (u : String → Except GoError CommandExtension) (cms : List ConfigMap)
    (hdistinct : ((cms.filterMap (decoded u)).map (fun d => d.Extension.Metadata.Name)).Nodup) :
    (loadRecords u cms).1 = cms.filterMap (decoded u) ∧
      heldErrors (loadRecords u cms).2 = cms.filterMap (parseFailure u) := by
  induction cms using List.reverseRecOn with
  | nil => simp [loadRecords, heldErrors]
  | append_singleton pre cm ih =>
    rw [List.filterMap_append, List.map_append, List.nodup_append] at hdistinct
    obtain ⟨hpre, -, hdisj⟩ := hdistinct
    obtain ⟨ih1, ih2⟩ := ih hpre
    rw [loadRecords_snoc, List.filterMap_append, List.filterMap_append]
    unfold loadStep
    cases hd : parseRequiredField u cm.Data ExtensionCMDataKey with
    | error err =>
      simp only [List.filterMap_cons, List.filterMap_nil, decoded, parseFailure, hd,
        List.append_nil, heldErrors_errorsJoin_pair, parseErrorOf_flatten]
      exact ⟨ih1, by rw [ih2]⟩
    | ok ext =>
      have hany : ¬ (loadRecords u pre).1.any
          (fun e => e.Extension.Metadata.Name = ext.Metadata.Name) = true := by
        rw [loadRecords_any_iff]
        rintro ⟨d, hdm, hdn⟩
        refine hdisj (a := ext.Metadata.Name) ?_ ?_
        · exact List.mem_map.mpr ⟨d, hdm, hdn⟩
        · simp [decoded, hd]
      simp only [if_neg hany]
      simp only [List.filterMap_cons, List.filterMap_nil, decoded, parseFailure, hd,
        List.append_nil]
      exact ⟨by rw [ih1], ih2⟩

theorem decoded_length (u : String → Except GoError CommandExtension) (cms : List ConfigMap) :
    (cms.filterMap (decoded u)).length + (cms.filter (malformed u)).length = cms.length := by
  induction cms with
  | nil => simp
  | cons cm rest ih =>
    by_cases hm : malformed u cm = true
    · have hn : decoded u cm = none := (malformed_iff_decoded_none u cm).mp hm
      simp [List.filterMap_cons, hn, List.filter_cons, hm]
      omega
    · have hn : decoded u cm ≠ none := fun h => hm ((malformed_iff_decoded_none u cm).mpr h)
      obtain ⟨d, hd⟩ := Option.ne_none_iff_exists'.mp hn
      simp [List.filterMap_cons, hd, List.filter_cons, hm]
      omega

theorem parseFailure_length (u : String → Except GoError CommandExtension) (cms : List ConfigMap) :
    (cms.filterMap (parseFailure u)).length = (cms.filter (malformed u)).length := by
  induction cms with
  | nil => simp
  | cons cm rest ih =>
    have h := parseFailure_isSome u cm
    by_cases hm : malformed u cm = true
    · rw [hm] at h
      obtain ⟨e, he⟩ := Option.isSome_iff_exists.mp h
      simp [List.filterMap_cons, he, List.filter_cons, hm, ih]
    · simp only [Bool.not_eq_true] at hm
      rw [hm] at h
      have he : parseFailure u cm = none := by
        cases hp : parseFailure u cm with
        | none => rfl
        | some e => rw [hp] at h; simp at h
      simp [List.filterMap_cons, he, List.filter_cons, hm, ih]

/-- Every record is either accepted or adds exactly one held error, and a
non-nil error holds at least one error. -/
theorem loadRecords_count (u : String → Except GoError CommandExtension) (cms : List ConfigMap) :
    (loadRecords u cms).1.length + (heldErrors (loadRecords u cms).2).length = cms.length ∧
      ((loadRecords u cms).2.isSome = true → heldErrors (loadRecords u cms).2 ≠ []) := by
  induction cms using List.reverseRecOn with
  | nil => simp [loadRecords, heldErrors]
  | append_singleton pre cm ih =>
    obtain ⟨ih1, ih2⟩ := ih
    rw [loadRecords_snoc]
    unfold loadStep
    cases hd : parseRequiredField u cm.Data ExtensionCMDataKey with
    | error err =>
      simp only [heldErrors_errorsJoin_pair, parseErrorOf_flatten, List.length_append,
        List.length_singleton]
      refine ⟨by omega, fun _ => by simp⟩
    | ok ext =>
      simp only
      by_cases hany : (loadRecords u pre).1.any
          (fun e => e.Extension.Metadata.Name = ext.Metadata.Name) = true
      · simp only [if_pos hany, heldErrors_errorsJoin_pair, duplicateErrorOf_flatten,
          List.length_append, List.length_singleton]
        refine ⟨by omega, fun _ => by simp⟩
      · simp only [if_neg hany, List.length_append, List.length_singleton]
        refine ⟨by omega, ih2⟩

theorem loadRecords_prefix (u : String → Except GoError CommandExtension)
    (pre post : List ConfigMap) :
    (loadRecords u pre).1 <+: (loadRecords u (pre ++ post)).1 ∧
      heldErrors (loadRecords u pre).2 <+: heldErrors (loadRecords u (pre ++ post)).2 := by
  induction post using List.reverseRecOn with
  | nil => simp
  | append_singleton post cm ih =>
    obtain ⟨ih1, ih2⟩ := ih
    rw [← List.append_assoc, loadRecords_snoc]
    unfold loadStep
    cases hd : parseRequiredField u cm.Data ExtensionCMDataKey with
    | error err =>
      simp only [heldErrors_errorsJoin_pair]
      exact ⟨ih1, ih2.trans (List.prefix_append _ _)⟩
    | ok ext =>
      simp only
      by_cases hany : (loadRecords u (pre ++ post)).1.any
          (fun e => e.Extension.Metadata.Name = ext.Metadata.Name) = true
      · simp only [if_pos hany, heldErrors_errorsJoin_pair]
        exact ⟨ih1, ih2.trans (List.prefix_append _ _)⟩
      · simp only [if_neg hany]
        exact ⟨ih1.trans (List.prefix_append _ _), ih2⟩

theorem loadRecords_sublist (u : String → Except GoError CommandExtension) (cms : List ConfigMap) :
    (loadRecords u cms).1.Sublist (cms.filterMap (decoded u)) := by
  induction cms using List.reverseRecOn with
  | nil => simp [loadRecords]
  | append_singleton pre cm ih =>
    rw [loadRecords_snoc, List.filterMap_append]
    unfold loadStep
    cases hd : parseRequiredField u cm.Data ExtensionCMDataKey with
    | error err =>
      simp only [List.filterMap_cons, List.filterMap_nil, decoded, hd, List.append_nil]
      exact ih
    | ok ext =>
      simp only [List.filterMap_cons, List.filterMap_nil, decoded, hd]
      split
      · exact ih.trans (List.sublist_append_left _ _)
      · exact List.Sublist.append ih (List.Sublist.refl _)

theorem loadRecords_length_lt_iff (u : String → Except GoError CommandExtension)
    (cms : List ConfigMap) :
    (loadRecords u cms).1.length < cms.length ↔
      ((∃ cm ∈ cms, malformed u cm = true) ∨
        ¬ ((cms.filterMap (decoded u)).map (fun d => d.Extension.Metadata.Name)).Nodup) := by
  have hsub := loadRecords_sublist u cms
  have hlen := decoded_length u cms
  constructor
  · intro hlt
    by_contra hcon
    push_neg at hcon
    obtain ⟨hgood, hnodup⟩ := hcon
    have h1 := (loadRecords_distinct u cms hnodup).1
    have hnone : (cms.filter (malformed u)).length = 0 := by
      rw [List.length_eq_zero, List.filter_eq_nil_iff]
      intro cm hcm
      exact hgood cm hcm
    rw [h1] at hlt
    omega
  · rintro (⟨cm, hcm, hbad⟩ | hdup)
    · have hpos : 0 < (cms.filter (malformed u)).length :=
        List.length_pos.mpr (List.ne_nil_of_mem (List.mem_filter.mpr ⟨hcm, hbad⟩))
      have := hsub.length_le
      omega
    · have hle := hsub.length_le
      have hne : (loadRecords u cms).1.length ≠ (cms.filterMap (decoded u)).length := by
        intro heq
        have := hsub.eq_of_length heq
        apply hdup
        rw [← this]
        exact loadRecords_nodup u cms
      omega

/-! ## Lemmas on the validator -/

theorem CommandFlag_Validate_none (f : CommandFlag) : f.Validate = none := rfl
theorem CommandArgs_Validate_none (a : CommandArgs) : a.Validate = none := rfl

theorem validateFlags_eq (path : String) (flags : List CommandFlag) (err : Option GoError) :
    validateFlags path flags err = err := by
  induction flags generalizing err with
  | nil => rfl
  | cons f rest ih => simp [validateFlags, CommandFlag_Validate_none, ih]

theorem validateWithPath_mk {κ : Type} (path : String) (reg : Registry κ)
    (m : CommandMetadata) (u : String) (f : List CommandFlag) (a : Option CommandArgs)
    (c : CommandConfig) (s : List CommandExtension) :
    CommandExtension.validateWithPath path reg (.mk m u f a c s) =
      (let err : Option GoError := none
       let err :=
         if u ≠ "" ∧ (reg u).isNone then
           errorsJoin [err, some (.errorString
             ("wrong " ++ path ++ "uses: unsupported value '" ++ u ++ "'"))]
         else err
       let err :=
         match m.Validate with
         | some metaErr =>
           errorsJoin [err, some (.errorString ("wrong " ++ path ++ "metadata: " ++ metaErr.Error))]
         | none => err
       let err :=
         match a with
         | some a =>
           match a.Validate with
           | some argsErr =>
             errorsJoin [err, some (.errorString
               ("wrong " ++ argsErr.Error ++ "args: %!s(MISSING)"))]
           | none => err
         | none => err
       let err := validateFlags path f err
       validateSubCommands path reg s 0 err) := rfl

theorem validateWithPath_eq {κ : Type} (path : String) (reg : Registry κ) (e : CommandExtension) :
    e.validateWithPath path reg = validateSubCommands path reg e.SubCommands 0 (ownError path reg e) := by
  cases e with
  | mk m u f a c s =>
    rw [validateWithPath_mk]
    simp only [validateFlags_eq, CommandArgs_Validate_none, ownError, CommandExtension.Uses,
      CommandExtension.Metadata, CommandExtension.SubCommands]
    cases a <;> rfl

theorem ownError_isSome_iff {κ : Type} (path : String) (reg : Registry κ) (n : CommandExtension) :
    (ownError path reg n).isSome = true ↔ n.nameOrUsesViolation reg := by
  unfold ownError CommandExtension.nameOrUsesViolation CommandMetadata.Validate
  by_cases hn : n.Metadata.Name = ""
  · simp [hn, errorsJoin_pair_isSome]
  · by_cases hu : n.Uses ≠ "" ∧ (reg n.Uses).isNone = true
    · simp only [hn, if_false, if_pos hu, errorsJoin_pair_isSome, false_or, true_iff]
      exact ⟨hu.1, Option.isNone_iff_eq_none.mp hu.2⟩
    · simp only [hn, if_false, if_neg hu, false_or]
      simp only [Option.isSome_none, Bool.false_eq_true, false_iff]
      rintro ⟨h1, h2⟩
      exact hu ⟨h1, Option.isNone_iff_eq_none.mpr h2⟩

mutual
theorem validateWithPath_isSome_iff {κ : Type} (reg : Registry κ) :
    ∀ (e : CommandExtension) (path : String),
      (e.validateWithPath path reg).isSome = true ↔ ∃ n ∈ e.nodes, n.nameOrUsesViolation reg
  | .mk m u f a c s, path => by
    rw [validateWithPath_eq, CommandExtension.nodes]
    simp only [CommandExtension.SubCommands]
    rw [validateSubCommands_isSome_iff reg s path 0, ownError_isSome_iff]
    simp only [List.mem_cons, exists_eq_or_imp]
theorem validateSubCommands_isSome_iff {κ : Type} (reg : Registry κ) :
    ∀ (subs : List CommandExtension) (path : String) (i : Nat) (err : Option GoError),
      (validateSubCommands path reg subs i err).isSome = true ↔
        (err.isSome = true ∨ ∃ n ∈ CommandExtension.nodesOfAll subs, n.nameOrUsesViolation reg)
  | [], path, i, err => by
    simp [validateSubCommands, CommandExtension.nodesOfAll]
  | sub :: rest, path, i, err => by
    rw [validateSubCommands, CommandExtension.nodesOfAll]
    have hsub := validateWithPath_isSome_iff reg sub (path ++ "subCommands[" ++ toString i ++ "].")
    cases hv : CommandExtension.validateWithPath
        (path ++ "subCommands[" ++ toString i ++ "].") reg sub with
    | none =>
      rw [hv] at hsub
      simp only [Option.isSome_none, Bool.false_eq_true, false_iff, not_exists, not_and] at hsub
      simp only
      rw [validateSubCommands_isSome_iff reg rest path (i + 1) err]
      simp only [List.mem_append]
      constructor
      · rintro (h | ⟨n, hn, hb⟩)
        · exact Or.inl h
        · exact Or.inr ⟨n, Or.inr hn, hb⟩
      · rintro (h | ⟨n, hn | hn, hb⟩)
        · exact Or.inl h
        · exact absurd hb (hsub n hn)
        · exact Or.inr ⟨n, hn, hb⟩
    | some subCmdErr =>
      rw [hv] at hsub
      simp only [Option.isSome_some, true_iff] at hsub
      obtain ⟨n, hn, hb⟩ := hsub
      simp only
      rw [validateSubCommands_isSome_iff reg rest path (i + 1) _]
      simp only [errorsJoin_pair_isSome, true_or, true_iff]
      exact Or.inr ⟨n, List.mem_append.mpr (Or.inl hn), hb⟩
end

theorem heldErrors_errorsJoin_some (p : Option GoError) (e : GoError) :
    heldErrors (errorsJoin [p, some e]) = heldErrors p ++ heldErrors (some e) :=
  heldErrors_errorsJoin_pair p e

theorem metadata_message (path : String) :
    "wrong " ++ path ++ "metadata: " ++ (GoError.errorString "empty name").Error
      = "wrong " ++ path ++ "metadata: empty name" := by
  have h : "metadata: " ++ (GoError.errorString "empty name").Error = "metadata: empty name" := by
    decide
  rw [String.append_assoc, h]

theorem heldErrors_ownError {κ : Type} (path : String) (reg : Registry κ) (n : CommandExtension) :
    heldErrors (ownError path reg n) =
      (if n.Uses ≠ "" ∧ (reg n.Uses).isNone then
          [GoError.errorString ("wrong " ++ path ++ "uses: unsupported value '" ++ n.Uses ++ "'")]
        else [])
      ++ (if n.Metadata.Name = "" then
          [GoError.errorString ("wrong " ++ path ++ "metadata: empty name")]
        else []) := by
  unfold ownError CommandMetadata.Validate
  by_cases hu : n.Uses ≠ "" ∧ (reg n.Uses).isNone = true
  · by_cases hn : n.Metadata.Name = ""
    · simp only [if_pos hu, if_pos hn, heldErrors_errorsJoin_pair, metadata_message]
      rfl
    · simp only [if_pos hu, if_neg hn, heldErrors_errorsJoin_pair]
      rfl
  · by_cases hn : n.Metadata.Name = ""
    · simp only [if_neg hu, if_pos hn, heldErrors_errorsJoin_pair, metadata_message]
      rfl
    · simp only [if_neg hu, if_neg hn]
      rfl

mutual
theorem heldErrors_validateWithPath {κ : Type} (reg : Registry κ) :
    ∀ (e : CommandExtension) (path : String),
      heldErrors (e.validateWithPath path reg) = nameAndUsesMessages reg path e
  | .mk m u f a c s, path => by
    rw [validateWithPath_eq, nameAndUsesMessages]
    simp only [CommandExtension.SubCommands]
    rw [heldErrors_validateSubCommands reg s path 0, heldErrors_ownError]
    simp only [CommandExtension.Uses, CommandExtension.Metadata]
theorem heldErrors_validateSubCommands {κ : Type} (reg : Registry κ) :
    ∀ (subs : List CommandExtension) (path : String) (i : Nat) (err : Option GoError),
      heldErrors (validateSubCommands path reg subs i err) =
        heldErrors err ++ nameAndUsesMessagesOfAll reg path subs i
  | [], path, i, err => by
    simp [validateSubCommands, nameAndUsesMessagesOfAll]
  | sub :: rest, path, i, err => by
    rw [validateSubCommands, nameAndUsesMessagesOfAll]
    have hsub := heldErrors_validateWithPath reg sub (path ++ "subCommands[" ++ toString i ++ "].")
    cases hv : CommandExtension.validateWithPath
        (path ++ "subCommands[" ++ toString i ++ "].") reg sub with
    | none =>
      rw [hv] at hsub
      simp only
      rw [heldErrors_validateSubCommands reg rest path (i + 1) err, ← hsub]
      simp [heldErrors]
    | some subCmdErr =>
      rw [hv] at hsub
      simp only
      rw [heldErrors_validateSubCommands reg rest path (i + 1) _, heldErrors_errorsJoin_some,
        hsub, List.append_assoc]
end

/-! ## The loader and `Build` (C1 to C5) -/

/-- C1 (code bug): per-record load errors should not disable unrelated
extensions, yet `BuildExtensions` and `Build` return no command at all once the
loader reports any error. The record `greetRecord` alone yields the command
`greet`; next to a record without the key, next to a record that does not
decode, or followed by a duplicate-named record, it yields nothing, and the
same holds for `Build` of `internal/extensions` whatever its collaborators. -/
theorem BuildExtensions_record_error_disables_all :
    returnedNames ((newExtensionsConfig ⟨clusterWith [greetRecord]⟩).BuildExtensions
        ["kyma", "alpha"] sampleUnmarshal alphaActions) = some ["greet"]
    ∧ returnedNames ((newExtensionsConfig ⟨clusterWith [greetRecord, keylessRecord]⟩).BuildExtensions
        ["kyma", "alpha"] sampleUnmarshal alphaActions) = some []
    ∧ returnedNames ((newExtensionsConfig ⟨clusterWith [greetRecord, brokenRecord]⟩).BuildExtensions
        ["kyma", "alpha"] sampleUnmarshal alphaActions) = some []
    ∧ returnedNames ((newExtensionsConfig ⟨clusterWith [greetRecord, greetAgainRecord]⟩).BuildExtensions
        ["kyma", "alpha"] sampleUnmarshal alphaActions) = some []
    ∧ (loadCommandExtensionsFromCluster sampleUnmarshal
        (clusterWith [greetRecord, keylessRecord])).1.map
          (fun e => e.Extension.Metadata.Name) = ["greet"]
    ∧ ∀ (κ : Type) (c : extensions.Collaborators κ) (availableActions : Registry κ),
        returnedNames (extensions.NewBuilder.Build c ["kyma", "alpha"] sampleUnmarshal
          ⟨clusterWith [greetRecord, keylessRecord]⟩ availableActions) = some [] :=
  ⟨rfl, rfl, rfl, rfl, rfl, fun _ _ _ => rfl⟩

/-- C2: when the listing yields `cms`, of which the malformed records (key
absent or value not decodable) number `k` and the others decode to Definitions
with pairwise-distinct names, the loader returns the decodable records in
record order, each tagged with its record's name and namespace, `N - k` in
number, and the joined error holds exactly the `k` parse errors of the
malformed records, in record order. -/
theorem loadCommandExtensionsFromCluster_skips_malformed
    (yamlUnmarshal : String → Except GoError CommandExtension)
    (clientConfig : KubeClientConfig) (cms : List ConfigMap)
    (hfetch : listCommandExtenionConfigMaps clientConfig = .ok cms)
    (hdistinct : ((cms.filterMap (decoded yamlUnmarshal)).map
      (fun d => d.Extension.Metadata.Name)).Nodup) :
    (loadCommandExtensionsFromCluster yamlUnmarshal clientConfig).1
        = cms.filterMap (decoded yamlUnmarshal)
    ∧ (loadCommandExtensionsFromCluster yamlUnmarshal clientConfig).1.length
        = cms.length - (cms.filter (malformed yamlUnmarshal)).length
    ∧ heldErrors (loadCommandExtensionsFromCluster yamlUnmarshal clientConfig).2
        = cms.filterMap (parseFailure yamlUnmarshal)
    ∧ (heldErrors (loadCommandExtensionsFromCluster yamlUnmarshal clientConfig).2).length
        = (cms.filter (malformed yamlUnmarshal)).length := by
  have hload : loadCommandExtensionsFromCluster yamlUnmarshal clientConfig
      = loadRecords yamlUnmarshal cms := by
    simp [loadCommandExtensionsFromCluster, hfetch]
  obtain ⟨h1, h2⟩ := loadRecords_distinct yamlUnmarshal cms hdistinct
  have hlen := decoded_length yamlUnmarshal cms
  rw [hload, h1, h2, parseFailure_length]
  exact ⟨rfl, by omega, rfl, rfl⟩

/-- Witness of C2: four records, two of them malformed. -/
theorem loadCommandExtensionsFromCluster_skips_malformed_witness :
    (loadCommandExtensionsFromCluster sampleUnmarshal
        (clusterWith [greetRecord, keylessRecord, listRecord, brokenRecord])).1
      = [⟨"greet-cm", "kyma-system", greetExtension⟩, ⟨"list-cm", "default", listExtension⟩]
    ∧ (heldErrors (loadCommandExtensionsFromCluster sampleUnmarshal
        (clusterWith [greetRecord, keylessRecord, listRecord, brokenRecord])).2).length = 2 := by
  have h := loadCommandExtensionsFromCluster_skips_malformed sampleUnmarshal
    (clusterWith [greetRecord, keylessRecord, listRecord, brokenRecord])
    [greetRecord, keylessRecord, listRecord, brokenRecord] rfl (by decide)
  exact ⟨h.1, h.2.2.2⟩

/-- C3: the names of the accepted Definitions are pairwise distinct, and for
every decodable record `cm` of the list, standing after the records `pre`:
it is appended to the accepted Definitions exactly when no decodable record of
`pre` has its name; otherwise the accepted Definitions stay as they were and
the joined error gains exactly one duplicate-name error; and what has been
accepted and recorded up to `cm` is kept, in place, in the final result. -/
theorem loadCommandExtensionsFromCluster_first_seen_wins
    (yamlUnmarshal : String → Except GoError CommandExtension)
    (clientConfig : KubeClientConfig) (cms pre post : List ConfigMap) (cm : ConfigMap)
    (ext : CommandExtension)
    (hfetch : listCommandExtenionConfigMaps clientConfig = .ok cms)
    (hsplit : cms = pre ++ cm :: post)
    (hdecodes : parseRequiredField yamlUnmarshal cm.Data ExtensionCMDataKey = .ok ext) :
    ((loadCommandExtensionsFromCluster yamlUnmarshal clientConfig).1.map
        (fun e => e.Extension.Metadata.Name)).Nodup
    ∧ (loadRecords yamlUnmarshal (pre ++ [cm])).1
        = (if (pre.filterMap (decoded yamlUnmarshal)).any
              (fun d => d.Extension.Metadata.Name = ext.Metadata.Name)
           then (loadRecords yamlUnmarshal pre).1
           else (loadRecords yamlUnmarshal pre).1 ++ [⟨cm.Name, cm.Namespace, ext⟩])
    ∧ heldErrors (loadRecords yamlUnmarshal (pre ++ [cm])).2
        = heldErrors (loadRecords yamlUnmarshal pre).2
          ++ (if (pre.filterMap (decoded yamlUnmarshal)).any
                (fun d => d.Extension.Metadata.Name = ext.Metadata.Name)
              then [duplicateErrorOf cm ext] else [])
    ∧ (loadRecords yamlUnmarshal (pre ++ [cm])).1
        <+: (loadCommandExtensionsFromCluster yamlUnmarshal clientConfig).1
    ∧ heldErrors (loadRecords yamlUnmarshal (pre ++ [cm])).2
        <+: heldErrors (loadCommandExtensionsFromCluster yamlUnmarshal clientConfig).2 := by
  have hload : loadCommandExtensionsFromCluster yamlUnmarshal clientConfig
      = loadRecords yamlUnmarshal cms := by
    simp [loadCommandExtensionsFromCluster, hfetch]
  have hcms : cms = (pre ++ [cm]) ++ post := by simp [hsplit]
  have hpre := loadRecords_prefix yamlUnmarshal (pre ++ [cm]) post
  rw [← hcms] at hpre
  rw [hload]
  refine ⟨loadRecords_nodup yamlUnmarshal cms, ?_, ?_, hpre.1, hpre.2⟩
  · rw [loadRecords_snoc]
    unfold loadStep
    rw [hdecodes]
    simp only [loadRecords_any_eq]
    split <;> rfl
  · rw [loadRecords_snoc]
    unfold loadStep
    rw [hdecodes]
    simp only [loadRecords_any_eq]
    split
    · simp only [heldErrors_errorsJoin_pair, duplicateErrorOf_flatten]
    · simp only [List.append_nil]

/-- Witness of C3: the second `greet` record, after a first one and a
malformed record, is discarded with one duplicate-name error. -/
theorem loadCommandExtensionsFromCluster_first_seen_wins_witness :
    (loadRecords sampleUnmarshal [greetRecord, keylessRecord, greetAgainRecord]).1
      = (loadRecords sampleUnmarshal [greetRecord, keylessRecord]).1
    ∧ heldErrors (loadRecords sampleUnmarshal [greetRecord, keylessRecord, greetAgainRecord]).2
      = heldErrors (loadRecords sampleUnmarshal [greetRecord, keylessRecord]).2
        ++ [duplicateErrorOf greetAgainRecord greetAgainExtension] := by
  have h := loadCommandExtensionsFromCluster_first_seen_wins sampleUnmarshal
    (clusterWith [greetRecord, keylessRecord, greetAgainRecord, listRecord])
    [greetRecord, keylessRecord, greetAgainRecord, listRecord]
    [greetRecord, keylessRecord] [listRecord] greetAgainRecord greetAgainExtension rfl rfl rfl
  exact ⟨h.2.1, h.2.2.1⟩

/-- C4: when the listing succeeds with `cms`, the loader's error is non-nil
exactly when fewer Definitions were accepted than there are records (some
record was skipped), which is exactly when some record is malformed or two
decodable records share a name; and when no record is malformed and the names
are pairwise distinct, the error is nil and every record is accepted, in order. -/
theorem loadCommandExtensionsFromCluster_error_iff_skipped
    (yamlUnmarshal : String → Except GoError CommandExtension)
    (clientConfig : KubeClientConfig) (cms : List ConfigMap)
    (hfetch : listCommandExtenionConfigMaps clientConfig = .ok cms) :
    ((loadCommandExtensionsFromCluster yamlUnmarshal clientConfig).2.isSome = true
        ↔ (loadCommandExtensionsFromCluster yamlUnmarshal clientConfig).1.length < cms.length)
    ∧ ((loadCommandExtensionsFromCluster yamlUnmarshal clientConfig).2.isSome = true
        ↔ ((∃ cm ∈ cms, malformed yamlUnmarshal cm = true)
            ∨ ¬ ((cms.filterMap (decoded yamlUnmarshal)).map
                (fun d => d.Extension.Metadata.Name)).Nodup))
    ∧ ((∀ cm ∈ cms, malformed yamlUnmarshal cm = false) →
        ((cms.filterMap (decoded yamlUnmarshal)).map
          (fun d => d.Extension.Metadata.Name)).Nodup →
        (loadCommandExtensionsFromCluster yamlUnmarshal clientConfig).2 = none
        ∧ (loadCommandExtensionsFromCluster yamlUnmarshal clientConfig).1
            = cms.filterMap (decoded yamlUnmarshal)
        ∧ (loadCommandExtensionsFromCluster yamlUnmarshal clientConfig).1.length
            = cms.length) := by
  have hload : loadCommandExtensionsFromCluster yamlUnmarshal clientConfig
      = loadRecords yamlUnmarshal cms := by
    simp [loadCommandExtensionsFromCluster, hfetch]
  rw [hload]
  obtain ⟨hcount, hsome⟩ := loadRecords_count yamlUnmarshal cms
  have hiff : (loadRecords yamlUnmarshal cms).2.isSome = true
      ↔ (loadRecords yamlUnmarshal cms).1.length < cms.length := by
    constructor
    · intro h
      have hne := hsome h
      have hpos : 0 < (heldErrors (loadRecords yamlUnmarshal cms).2).length :=
        List.length_pos.mpr hne
      omega
    · intro h
      cases herr : (loadRecords yamlUnmarshal cms).2 with
      | some e => rfl
      | none =>
        rw [herr] at hcount
        simp only [heldErrors, List.length_nil] at hcount
        omega
  refine ⟨hiff, hiff.trans (loadRecords_length_lt_iff yamlUnmarshal cms), ?_⟩
  intro hgood hdistinct
  obtain ⟨h1, -⟩ := loadRecords_distinct yamlUnmarshal cms hdistinct
  have hlen := decoded_length yamlUnmarshal cms
  have hnone : (cms.filter (malformed yamlUnmarshal)).length = 0 := by
    rw [List.length_eq_zero, List.filter_eq_nil_iff]
    intro cm hcm
    simp [hgood cm hcm]
  have hfull : (loadRecords yamlUnmarshal cms).1.length = cms.length := by
    rw [h1]; omega
  refine ⟨?_, h1, hfull⟩
  cases herr : (loadRecords yamlUnmarshal cms).2 with
  | none => rfl
  | some e =>
    have := hiff.mp (by rw [herr]; rfl)
    omega

/-- Witness of C4: a list with a skipped record has a non-nil error, and a
list of two well-formed records with distinct names has none. -/
theorem loadCommandExtensionsFromCluster_error_iff_skipped_witness :
    (loadCommandExtensionsFromCluster sampleUnmarshal
        (clusterWith [greetRecord, greetAgainRecord])).2.isSome = true
    ∧ (loadCommandExtensionsFromCluster sampleUnmarshal
        (clusterWith [greetRecord, listRecord])).2 = none
    ∧ (loadCommandExtensionsFromCluster sampleUnmarshal
        (clusterWith [greetRecord, listRecord])).1.length = 2 := by
  have h1 := loadCommandExtensionsFromCluster_error_iff_skipped sampleUnmarshal
    (clusterWith [greetRecord, greetAgainRecord]) [greetRecord, greetAgainRecord] rfl
  have h2 := loadCommandExtensionsFromCluster_error_iff_skipped sampleUnmarshal
    (clusterWith [greetRecord, listRecord]) [greetRecord, listRecord] rfl
  have h3 := h2.2.2 (by decide) (by decide)
  exact ⟨h1.1.mpr (by decide), h3.1, h3.2.2⟩

/-- C5: when listing the records fails with `fetchErr`, the loader returns that
error alone and no Definition, whatever the decoder; `BuildExtensions` and
`Build` return no command, for every argument vector, and, unless extensions
are skipped altogether, leave `fetchErr` recorded as the extensions error. -/
theorem fetch_failure_disables_extensions
    (yamlUnmarshal : String → Except GoError CommandExtension)
    (kec : KymaExtensionsConfig) (osArgs : List String) (availableActions : UsesMap)
    (fetchErr : GoError)
    (hfetch : listCommandExtenionConfigMaps kec.kymaConfig.KubeClientConfig = .error fetchErr) :
    loadCommandExtensionsFromCluster yamlUnmarshal kec.kymaConfig.KubeClientConfig
        = ([], some fetchErr)
    ∧ returnedNames (kec.BuildExtensions osArgs yamlUnmarshal availableActions) = some []
    ∧ (getBoolFlagValue osArgs "--skip-extensions" = false →
        kec.BuildExtensions osArgs yamlUnmarshal availableActions
          = .ok ([], { kec with extensionsError := some fetchErr }))
    ∧ ∀ (κ : Type) (c : extensions.Collaborators κ) (builder : extensions.KymaExtensionsConfig)
        (actions : Registry κ),
        returnedNames (builder.Build c osArgs yamlUnmarshal kec.kymaConfig actions) = some []
        ∧ (getBoolFlagValue osArgs "--skip-extensions" = false →
            builder.Build c osArgs yamlUnmarshal kec.kymaConfig actions
              = .ok ([], { extensionsError := some fetchErr })) := by
  have hload : loadCommandExtensionsFromCluster yamlUnmarshal kec.kymaConfig.KubeClientConfig
      = ([], some fetchErr) := by
    simp [loadCommandExtensionsFromCluster, hfetch]
  refine ⟨hload, ?_, ?_, ?_⟩
  · unfold KymaExtensionsConfig.BuildExtensions
    by_cases hskip : getBoolFlagValue osArgs "--skip-extensions" = true
    · simp [hskip, returnedNames]
    · simp [hskip, hload, returnedNames]
  · intro hskip
    unfold KymaExtensionsConfig.BuildExtensions
    simp [hskip, hload]
  · intro κ c builder actions
    constructor
    · unfold extensions.KymaExtensionsConfig.Build
      by_cases hskip : getBoolFlagValue osArgs "--skip-extensions" = true
      · simp [hskip, returnedNames]
      · simp [hskip, hload, returnedNames]
    · intro hskip
      unfold extensions.KymaExtensionsConfig.Build
      simp [hskip, hload]

/-- Witness of C5: a cluster for which no client can be made, and one whose
listing is refused. -/
theorem fetch_failure_disables_extensions_witness :
    returnedNames ((newExtensionsConfig ⟨unreachableCluster⟩).BuildExtensions
        ["kyma", "alpha"] sampleUnmarshal alphaActions) = some []
    ∧ ((newExtensionsConfig ⟨forbiddenCluster⟩).BuildExtensions
        ["kyma", "alpha"] sampleUnmarshal alphaActions).toOption.map
          (fun r => r.2.extensionsError.map GoError.Error)
        = some (some
            "failed to load ConfigMaps from cluster with label kyma-cli/extension==commands: forbidden") := by
  have h1 := fetch_failure_disables_extensions sampleUnmarshal
    (newExtensionsConfig ⟨unreachableCluster⟩) ["kyma", "alpha"] alphaActions
    (.errorString "failed to create cluster connection") rfl
  have h2 := fetch_failure_disables_extensions sampleUnmarshal
    (newExtensionsConfig ⟨forbiddenCluster⟩) ["kyma", "alpha"] alphaActions
    (pkgerrorsWrapf (.errorString "forbidden")
      "failed to load ConfigMaps from cluster with label kyma-cli/extension==commands") rfl
  refine ⟨h1.2.1, ?_⟩
  rw [h2.2.2.1 (by decide)]
  rfl

/-! ## The validator (C6 to C9) -/

/-- C6 (code bug): a flag of unknown type or with an empty `ConfigPath` should
make validation fail, yet `CommandFlag.Validate` returns nil for every flag
(the results of its `errors.Join` calls are dropped), so a Definition holding
the flag `floatFlag`, at the root or in a subdefinition, validates with a nil
error. -/
theorem CommandFlag_Validate_reports_nothing :
    ¬ floatFlag.wellFormed
    ∧ floatFlag.Validate = none
    ∧ (∀ f : CommandFlag, f.Validate = none)
    ∧ ratioExtension.Validate alphaActions = none
    ∧ nestedRatioExtension.Validate alphaActions = none :=
  ⟨by decide, rfl, fun _ => rfl, rfl, rfl⟩

/-- C7 (code bug): an `Args` of unknown type or with an empty `ConfigPath`
should make validation fail, yet `CommandArgs.Validate` returns nil for every
`Args` (the results of its `errors.Join` calls are dropped), so a Definition
holding the `Args` `floatArgs`, at the root or in a subdefinition, validates
with a nil error. -/
theorem CommandArgs_Validate_reports_nothing :
    ¬ floatArgs.wellFormed
    ∧ floatArgs.Validate = none
    ∧ (∀ a : CommandArgs, a.Validate = none)
    ∧ amountExtension.Validate alphaActions = none
    ∧ nestedAmountExtension.Validate alphaActions = none :=
  ⟨by decide, rfl, fun _ => rfl, rfl, rfl⟩

/-- C8: for every Definition tree and registry, `Validate` returns a non-nil
error whenever some node, at any depth, has an empty name or a non-empty
`uses` that is not a key of the registry (and only then); and a tree whose
every node has a non-empty name, an empty or registered `uses`, well-formed
flags and well-formed `Args` validates with a nil error, so that an empty
`uses` is no violation. -/
theorem Validate_name_and_uses {κ : Type} (e : CommandExtension)
    (availableActions : Registry κ) :
    ((∃ n ∈ e.nodes, n.Metadata.Name = "" ∨ (n.Uses ≠ "" ∧ availableActions n.Uses = none)) →
        (e.Validate availableActions).isSome = true)
    ∧ ((e.Validate availableActions).isSome = true →
        ∃ n ∈ e.nodes, n.Metadata.Name = "" ∨ (n.Uses ≠ "" ∧ availableActions n.Uses = none))
    ∧ ((∀ n ∈ e.nodes, n.Metadata.Name ≠ ""
          ∧ (n.Uses = "" ∨ (availableActions n.Uses).isSome = true)
          ∧ (∀ f ∈ n.Flags, f.wellFormed) ∧ (∀ a ∈ n.Args, a.wellFormed)) →
        e.Validate availableActions = none) := by
  have hiff := validateWithPath_isSome_iff availableActions e "."
  refine ⟨hiff.mpr, hiff.mp, ?_⟩
  intro hgood
  cases hv : e.Validate availableActions with
  | none => rfl
  | some err =>
    have hsome : (e.validateWithPath "." availableActions).isSome = true := by
      have : e.validateWithPath "." availableActions = some err := hv
      rw [this]; rfl
    obtain ⟨n, hn, hbad⟩ := hiff.mp hsome
    obtain ⟨hname, huses, -, -⟩ := hgood n hn
    rcases hbad with hbad | ⟨hne, hnone⟩
    · exact absurd hbad hname
    · rcases huses with huses | huses
      · exact absurd huses hne
      · rw [hnone] at huses
        simp at huses

/-- Witness of C8: a tree with a nameless grandchild bound to an unregistered
action is rejected, and a well-formed tree headed by a group node is accepted. -/
theorem Validate_name_and_uses_witness :
    (faultyTree.Validate alphaActions).isSome = true
    ∧ validTree.Validate alphaActions = none := by
  refine ⟨(Validate_name_and_uses faultyTree alphaActions).1
      ⟨.mk ⟨"", "", ""⟩ "missing_action" [] none [] [], ?_, Or.inl rfl⟩,
    (Validate_name_and_uses validTree alphaActions).2.2 ?_⟩
  · simp [faultyTree, greetExtension, CommandExtension.nodes, CommandExtension.nodesOfAll]
  · intro n hn
    simp only [validTree, greetExtension, CommandExtension.nodes, CommandExtension.nodesOfAll,
      List.mem_cons, List.append_nil, List.cons_append, List.nil_append, List.mem_singleton,
      List.not_mem_nil, or_false] at hn
    rcases hn with rfl | rfl | rfl
    · refine ⟨by decide, Or.inl rfl, ?_, ?_⟩ <;>
        simp [CommandExtension.Flags, CommandExtension.Args]
    · refine ⟨by decide, Or.inr rfl, ?_, ?_⟩ <;>
        simp [CommandExtension.Flags, CommandExtension.Args]
    · refine ⟨by decide, Or.inr rfl, ?_, ?_⟩
      · intro f hf
        simp only [CommandExtension.Flags, List.mem_singleton] at hf
        subst hf
        exact ⟨by decide, by decide⟩
      · intro a ha
        simp only [CommandExtension.Args, Option.mem_def, Option.some.injEq] at ha
        subst ha
        exact ⟨by decide, by decide⟩

/-- C9 (code bug): the error of `Validate` should carry one path-tagged message
per violation in the tree. It holds exactly the messages of the name and
`uses` violations, each tagged with the path of its node; the violations of
flags and of `Args` get no message (the defect of C6 and C7). In
`mixedFaultTree` the child breaks five checks and the error holds one message,
and for `nestedRatioExtension` the error is nil. -/
theorem Validate_omits_flag_and_args_messages :
    (∀ (κ : Type) (availableActions : Registry κ) (e : CommandExtension),
        heldErrors (e.Validate availableActions) = nameAndUsesMessages availableActions "." e)
    ∧ (heldErrors (mixedFaultTree.Validate alphaActions)).map GoError.Error
        = ["wrong .subCommands[0].metadata: empty name"]
    ∧ (heldErrors (faultyTree.Validate alphaActions)).map GoError.Error
        = ["wrong .uses: unsupported value 'nonexistent'",
           "wrong .subCommands[1].metadata: empty name",
           "wrong .subCommands[1].subCommands[0].uses: unsupported value 'missing_action'",
           "wrong .subCommands[1].subCommands[0].metadata: empty name"]
    ∧ heldErrors (nestedRatioExtension.Validate alphaActions) = []
    ∧ heldErrors (nestedAmountExtension.Validate alphaActions) = [] :=
  ⟨fun _ availableActions e => heldErrors_validateWithPath availableActions e ".",
    by decide, by decide, rfl, rfl⟩

/-! ## The builder (C10) -/

/-- C10 (code bug): a group Definition (empty `uses`) that passes `Validate`
should build into a bare group node. `buildExtensionCommand` instead calls the
constructor found in the registry under the empty key: with the registry of
`NewAlphaCMD`, which has no such key, it calls a nil function and panics, for
`toolsGroup` and for every other Definition with an empty `uses`, and
`BuildExtensions` panics with it. -/
theorem buildExtensionCommand_group_node_panics :
    toolsGroup.Validate alphaActions = none
    ∧ (∀ kymaConfig : KymaConfig,
        buildExtensionCommand kymaConfig alphaActions toolsGroup = .error .nilFunctionCall)
    ∧ (∀ (kymaConfig : KymaConfig) (m : CommandMetadata) (f : List CommandFlag)
        (a : Option CommandArgs) (c : CommandConfig) (s : List CommandExtension),
        buildExtensionCommand kymaConfig alphaActions (.mk m "" f a c s)
          = .error .nilFunctionCall)
    ∧ returnedNames ((newExtensionsConfig
          ⟨clusterWith [⟨"default", "tools-cm", [(ExtensionCMDataKey, "tools")]⟩]⟩).BuildExtensions
        ["kyma", "alpha"] (fun _ => .ok toolsGroup) alphaActions) = none :=
  ⟨rfl, fun _ => rfl, fun _ _ _ _ _ _ => rfl, rfl⟩

/-! ## Lemmas on the builder -/

theorem newTypedValue_empty (t : ConfigFieldType) (p : String) :
    newTypedValue t p "" = .ok (NewTyped t p, none) := by
  simp [newTypedValue]

theorem newTypedValue_path (p d : String) (hd : d ≠ "") :
    newTypedValue PathCustomType p d = .ok (.pathValue ⟨some d⟩ p, none) := by
  simp [newTypedValue, hd, NewTyped, Value.SetValue, NullableString.Set]

theorem newTypedValue_int (p d : String) (hd : d ≠ "") :
    newTypedValue IntCustomType p d =
      match strconvParseInt d with
      | .ok v => .ok (.int64Value ⟨some v⟩ p, none)
      | .error e => .ok (.int64Value ⟨none⟩ p,
          some (pkgerrorsWrapf e ("failed to set default value '" ++ d ++ "'"))) := by
  have h1 : IntCustomType ≠ PathCustomType := by decide
  cases h : strconvParseInt d <;>
    simp [newTypedValue, hd, NewTyped, Value.SetValue, NullableInt64.Set, h, h1]

theorem newTypedValue_bool (p d : String) (hd : d ≠ "") :
    newTypedValue BoolCustomType p d =
      match strconvParseBool d with
      | some _ => .error .nilPointerDereference
      | none => .ok (.boolValue none p,
          some (pkgerrorsWrapf
            (.errorString ("strconv.ParseBool: parsing \"" ++ d ++ "\": invalid syntax"))
            ("failed to set default value '" ++ d ++ "'"))) := by
  have h1 : BoolCustomType ≠ PathCustomType := by decide
  have h2 : BoolCustomType ≠ IntCustomType := by decide
  cases h : strconvParseBool d <;>
    simp [newTypedValue, hd, NewTyped, Value.SetValue, NullableBool.Set, h, h1, h2]

theorem newTypedValue_other (t : ConfigFieldType) (p d : String) (hd : d ≠ "")
    (h1 : t ≠ PathCustomType) (h2 : t ≠ IntCustomType) (h3 : t ≠ BoolCustomType) :
    newTypedValue t p d = .ok (.stringValue ⟨some d⟩ p, none) := by
  simp [newTypedValue, hd, NewTyped, Value.SetValue, NullableString.Set, h1, h2, h3]

theorem newTypedValue_cases (flag : CommandFlag) :
    (flag.defaultPanics = true ∧
        newTypedValue flag.Type_ flag.ConfigPath flag.DefaultValue = .error .nilPointerDereference)
    ∨ (flag.defaultPanics = false ∧
        ∃ err, newTypedValue flag.Type_ flag.ConfigPath flag.DefaultValue
            = .ok (flag.typedValue, err)
          ∧ (err.isSome = flag.defaultRejected)) := by
  unfold CommandFlag.typedValue
  by_cases hd : flag.DefaultValue = ""
  · right
    rw [hd, newTypedValue_empty]
    simp [CommandFlag.defaultPanics, CommandFlag.defaultRejected, hd]
  · by_cases hp : flag.Type_ = PathCustomType
    · right
      have h1 : ¬ PathCustomType = IntCustomType := by decide
      have h2 : ¬ PathCustomType = BoolCustomType := by decide
      rw [hp, newTypedValue_path _ _ hd]
      simp [CommandFlag.defaultPanics, CommandFlag.defaultRejected, hd, hp, h1, h2]
    · by_cases hi : flag.Type_ = IntCustomType
      · right
        have h2 : ¬ IntCustomType = BoolCustomType := by decide
        rw [hi, newTypedValue_int _ _ hd]
        cases h : strconvParseInt flag.DefaultValue <;>
          simp [CommandFlag.defaultPanics, CommandFlag.defaultRejected, hd, hi, h2, h,
            Except.toOption]
      · by_cases hb : flag.Type_ = BoolCustomType
        · have h2 : ¬ BoolCustomType = IntCustomType := by decide
          rw [hb, newTypedValue_bool _ _ hd]
          cases h : strconvParseBool flag.DefaultValue with
          | none =>
            right
            simp [CommandFlag.defaultPanics, CommandFlag.defaultRejected, hd, hb, h2, h]
          | some b =>
            left
            simp [CommandFlag.defaultPanics, hd, hb, h]
        · right
          rw [newTypedValue_other _ _ _ hd hp hi hb]
          simp [CommandFlag.defaultPanics, CommandFlag.defaultRejected, hd, hi, hb]

theorem typedValue_String (flag : CommandFlag) (hb : flag.Type_ ≠ BoolCustomType) :
    flag.typedValue.String = .ok () := by
  unfold CommandFlag.typedValue
  by_cases hd : flag.DefaultValue = ""
  · rw [hd, newTypedValue_empty]
    simp only [NewTyped, hb, if_false]
    split_ifs <;> rfl
  · by_cases hp : flag.Type_ = PathCustomType
    · rw [hp, newTypedValue_path _ _ hd]
      rfl
    · by_cases hi : flag.Type_ = IntCustomType
      · rw [hi, newTypedValue_int _ _ hd]
        cases h : strconvParseInt flag.DefaultValue <;> rfl
      · rw [newTypedValue_other _ _ _ hd hp hi hb]
        rfl

theorem newTypedValue_bool_String (flag : CommandFlag) (hb : flag.Type_ = BoolCustomType) :
    (∃ p, newTypedValue flag.Type_ flag.ConfigPath flag.DefaultValue = .error p)
    ∨ ∃ err, newTypedValue flag.Type_ flag.ConfigPath flag.DefaultValue
        = .ok (.boolValue none flag.ConfigPath, err) := by
  have h1 : BoolCustomType ≠ PathCustomType := by decide
  have h2 : BoolCustomType ≠ IntCustomType := by decide
  by_cases hd : flag.DefaultValue = ""
  · right
    rw [hd, newTypedValue_empty, hb]
    exact ⟨none, by simp [NewTyped, h1, h2]⟩
  · rw [hb, newTypedValue_bool _ _ hd]
    cases h : strconvParseBool flag.DefaultValue with
    | none => exact Or.inr ⟨_, rfl⟩
    | some b => exact Or.inl ⟨_, rfl⟩

theorem defaultPanics_of_not_bool (flag : CommandFlag) (hb : flag.Type_ ≠ BoolCustomType) :
    flag.defaultPanics = false := by
  simp [CommandFlag.defaultPanics, hb]

theorem VarPF_registers (formal : List CmdFlag) (flag : CommandFlag)
    (h : flag.registers formal = true) :
    VarPF formal flag.typedValue flag.Name flag.Shorthand flag.Description
      = .ok { Name := flag.Name, Shorthand := flag.Shorthand, Usage := flag.Description,
              Value := flag.typedValue, NoOptDefVal := "" } := by
  simp only [CommandFlag.registers, Bool.and_eq_true, decide_eq_true_eq, Bool.not_eq_true',
    Bool.or_eq_true] at h
  obtain ⟨⟨hb, hname⟩, hshort⟩ := h
  unfold VarPF
  rw [typedValue_String flag hb]
  simp only [hname, Bool.false_eq_true, if_false]
  rcases hshort with hs | ⟨hlen, hs⟩
  · simp [hs]
  · by_cases he : flag.Shorthand = ""
    · simp [he]
    · have hlen' : ¬ flag.Shorthand.utf8ByteSize > 1 := by omega
      simp [he, hlen', hs]

theorem VarPF_refused (formal : List CmdFlag) (flag : CommandFlag) (value : Value)
    (hvalue : flag.Type_ = BoolCustomType → value = .boolValue none flag.ConfigPath)
    (h : flag.registers formal = false) :
    ∃ p, VarPF formal value flag.Name flag.Shorthand flag.Description = .error p := by
  unfold VarPF
  by_cases hb : flag.Type_ = BoolCustomType
  · rw [hvalue hb]
    exact ⟨_, rfl⟩
  · cases hs : value.String with
    | error p => exact ⟨p, rfl⟩
    | ok u =>
      simp only
      cases hname : formal.any (fun g => g.Name = flag.Name) with
      | true => exact ⟨.flagRedefined flag.Name, by simp⟩
      | false =>
        by_cases he : flag.Shorthand = ""
        · simp [CommandFlag.registers, hb, hname, he] at h
        · by_cases hlen : flag.Shorthand.utf8ByteSize > 1
          · exact ⟨.shorthandTooLong flag.Shorthand, by simp [he, hlen]⟩
          · cases hshort : formal.any (fun g => g.Shorthand = flag.Shorthand) with
            | true => exact ⟨.shorthandRedefined flag.Shorthand, by simp [he, hlen]⟩
            | false =>
              have hlen' : flag.Shorthand.utf8ByteSize ≤ 1 := by omega
              simp [CommandFlag.registers, hb, hname, he, hlen', hshort] at h

theorem registers_not_bool (formal : List CmdFlag) (flag : CommandFlag)
    (h : flag.registers formal = true) : flag.Type_ ≠ BoolCustomType := by
  simp only [CommandFlag.registers, Bool.and_eq_true, decide_eq_true_eq] at h
  exact h.1.1

/-- The step of the flag loop for a flag that can be registered. -/
theorem buildFlags_cons_registers (name : String) (flag : CommandFlag)
    (rest : List CommandFlag) (st : FlagLoop) (h : flag.registers st.cmdFlags = true) :
    ∃ buildError : Option GoError,
      buildError.isSome = (st.buildError.isSome || flag.defaultRejected)
      ∧ buildFlags name (flag :: rest) st =
        buildFlags name rest
          { cmdFlags := st.cmdFlags ++ [flag.registered],
            values := st.values ++ [flag.typedValue],
            requiredFlags :=
              if flag.Required then st.requiredFlags ++ [flag.Name] else st.requiredFlags,
            buildError := buildError } := by
  have hb := registers_not_bool _ _ h
  have hreg : flag.registered
      = { Name := flag.Name, Shorthand := flag.Shorthand, Usage := flag.Description,
          Value := flag.typedValue, NoOptDefVal := "" } := by
    simp [CommandFlag.registered, hb]
  rcases newTypedValue_cases flag with ⟨hp, -⟩ | ⟨-, err, hok, herr⟩
  · rw [defaultPanics_of_not_bool flag hb] at hp
    cases hp
  · cases err with
    | none =>
      refine ⟨st.buildError, by simp [← herr], ?_⟩
      simp only [buildFlags, hok, VarPF_registers _ _ h, hb, if_false, hreg]
    | some e =>
      refine ⟨errorsJoin [st.buildError, some (.errorString
          ("failed to build flag for '" ++ name ++ "' command: " ++ e.Error))], ?_, ?_⟩
      · simp [errorsJoin_pair_isSome, ← herr]
      · simp only [buildFlags, hok, VarPF_registers _ _ h, hb, if_false, hreg]

/-- The flag loop panics at a flag that cannot be registered. -/
theorem buildFlags_cons_refused (name : String) (flag : CommandFlag)
    (rest : List CommandFlag) (st : FlagLoop) (h : flag.registers st.cmdFlags = false) :
    ∃ p, buildFlags name (flag :: rest) st = .error p := by
  by_cases hb : flag.Type_ = BoolCustomType
  · rcases newTypedValue_bool_String flag hb with ⟨p, hp⟩ | ⟨err, hok⟩
    · exact ⟨p, by simp only [buildFlags, hp]⟩
    · exact ⟨.nilPointerDereference, by simp only [buildFlags, hok, VarPF, Value.String]⟩
  · rcases newTypedValue_cases flag with ⟨hp, -⟩ | ⟨-, err, hok, -⟩
    · rw [defaultPanics_of_not_bool flag hb] at hp
      cases hp
    · obtain ⟨p, hp⟩ := VarPF_refused st.cmdFlags flag flag.typedValue
        (fun hb' => absurd hb' hb) h
      exact ⟨p, by simp only [buildFlags, hok, hp]⟩

theorem buildFlags_ok (name : String) (flags : List CommandFlag) (st st' : FlagLoop)
    (h : buildFlags name flags st = .ok st') :
    st'.cmdFlags = st.cmdFlags ++ flags.map CommandFlag.registered
    ∧ st'.values = st.values ++ flags.map CommandFlag.typedValue
    ∧ st'.requiredFlags
        = st.requiredFlags ++ (flags.filter (fun f => f.Required)).map (fun f => f.Name)
    ∧ st'.buildError.isSome = (st.buildError.isSome || flags.any CommandFlag.defaultRejected)
    ∧ flagsRegister st.cmdFlags flags = true := by
  induction flags generalizing st with
  | nil =>
    simp only [buildFlags, Except.ok.injEq] at h
    subst h
    simp [flagsRegister]
  | cons flag rest ih =>
    cases hr : flag.registers st.cmdFlags with
    | false =>
      obtain ⟨p, hp⟩ := buildFlags_cons_refused name flag rest st hr
      rw [hp] at h
      cases h
    | true =>
      obtain ⟨buildError, hbe, hstep⟩ := buildFlags_cons_registers name flag rest st hr
      rw [hstep] at h
      obtain ⟨h1, h2, h3, h4, h5⟩ := ih _ h
      refine ⟨?_, ?_, ?_, ?_, ?_⟩
      · rw [h1]
        simp
      · rw [h2]; simp
      · rw [h3]
        by_cases hreq : flag.Required = true
        · simp [hreq, List.filter_cons]
        · simp [hreq, List.filter_cons]
      · rw [h4, List.any_cons]
        simp only [hbe, Bool.or_assoc]
      · simp only [flagsRegister, hr, Bool.true_and]
        exact h5

theorem buildFlags_returns (name : String) (flags : List CommandFlag) (st : FlagLoop)
    (h : flagsRegister st.cmdFlags flags = true) :
    ∃ st', buildFlags name flags st = .ok st' := by
  induction flags generalizing st with
  | nil => exact ⟨st, rfl⟩
  | cons flag rest ih =>
    simp only [flagsRegister, Bool.and_eq_true] at h
    obtain ⟨buildError, -, hstep⟩ := buildFlags_cons_registers name flag rest st h.1
    rw [hstep]
    exact ih _ h.2

theorem flagsRegister_not_bool (formal : List CmdFlag) (flags : List CommandFlag)
    (h : flagsRegister formal flags = true) : ∀ f ∈ flags, f.Type_ ≠ BoolCustomType := by
  induction flags generalizing formal with
  | nil => intro f hf; cases hf
  | cons flag rest ih =>
    simp only [flagsRegister, Bool.and_eq_true] at h
    intro f hf
    rcases List.mem_cons.mp hf with rfl | hf
    · exact registers_not_bool _ _ h.1
    · exact ih _ h.2 f hf

/-- A flag of kind `bool` stops the flag loop with a panic, wherever it stands. -/
theorem buildFlags_bool_panics (name : String) (flags : List CommandFlag) (st : FlagLoop)
    (h : ∃ f ∈ flags, f.Type_ = BoolCustomType) :
    ∃ p, buildFlags name flags st = .error p := by
  cases hb : buildFlags name flags st with
  | error p => exact ⟨p, rfl⟩
  | ok st' =>
    obtain ⟨-, -, -, -, hreg⟩ := buildFlags_ok _ _ _ _ hb
    obtain ⟨f, hf, hbool⟩ := h
    exact absurd hbool (flagsRegister_not_bool _ _ hreg f hf)

theorem buildExtensionCommand_mk (kymaConfig : KymaConfig) (availableActions : UsesMap)
    (m : CommandMetadata) (u : String) (f : List CommandFlag) (a : Option CommandArgs)
    (c : CommandConfig) (s : List CommandExtension) :
    buildExtensionCommand kymaConfig availableActions (.mk m u f a c s) =
      (match availableActions u with
      | none => .error .nilFunctionCall
      | some construct =>
        let cmd := construct kymaConfig c
        match buildFlags m.Name f ⟨cmd.Flags, [], [], none⟩ with
        | .error p => .error p
        | .ok st =>
          let argValue : Option Value := a.map (fun a => NewTyped a.Type_ a.ConfigPath)
          let values := st.values ++ argValue.toList
          let cmdArgs : Option ArgsRule :=
            match a with
            | some a => some ⟨a.Optional, NewTyped a.Type_ a.ConfigPath⟩
            | none => cmd.Args
          match buildSubCommands kymaConfig availableActions s (cmd.commands, st.buildError) with
          | .error p => .error p
          | .ok (commands, buildError) =>
            .ok (.mk m.Name m.Description m.DescriptionLong
                  st.cmdFlags cmdArgs (some ⟨st.requiredFlags, c, values⟩) cmd.Run commands,
                 buildError)) := rfl

theorem buildSubCommands_nil (kymaConfig : KymaConfig) (availableActions : UsesMap)
    (st : List Command × Option GoError) :
    buildSubCommands kymaConfig availableActions [] st = .ok st := rfl

theorem buildSubCommands_cons (kymaConfig : KymaConfig) (availableActions : UsesMap)
    (subCommand : CommandExtension) (rest : List CommandExtension)
    (st : List Command × Option GoError) :
    buildSubCommands kymaConfig availableActions (subCommand :: rest) st =
      (match buildExtensionCommand kymaConfig availableActions subCommand with
      | .error p => .error p
      | .ok (subCmd, subErr) =>
        let buildError :=
          match subErr with
          | some e =>
            errorsJoin [st.2, some (.errorString
              ("failed to build sub-command '" ++ subCommand.Metadata.Name ++ "': " ++ e.Error))]
          | none => st.2
        buildSubCommands kymaConfig availableActions rest (st.1 ++ [subCmd], buildError)) := rfl

/-- What a completed build of one node installs on the command. -/
theorem buildExtensionCommand_installs (kymaConfig : KymaConfig) (availableActions : UsesMap)
    (m : CommandMetadata) (u : String) (f : List CommandFlag) (a : Option CommandArgs)
    (c : CommandConfig) (s : List CommandExtension) (cmd : Command) (err : Option GoError)
    (h : buildExtensionCommand kymaConfig availableActions (.mk m u f a c s) = .ok (cmd, err)) :
    ∃ construct, availableActions u = some construct
      ∧ cmd.Use = m.Name ∧ cmd.Short = m.Description ∧ cmd.Long = m.DescriptionLong
      ∧ cmd.Flags = (construct kymaConfig c).Flags ++ f.map CommandFlag.registered
      ∧ (∀ args, a = some args →
          cmd.Args = some ⟨args.Optional, NewTyped args.Type_ args.ConfigPath⟩)
      ∧ (a = none → cmd.Args = (construct kymaConfig c).Args)
      ∧ cmd.PreRun = some ⟨(f.filter (fun x => x.Required)).map (fun x => x.Name), c,
          f.map CommandFlag.typedValue
            ++ (a.map (fun a => NewTyped a.Type_ a.ConfigPath)).toList⟩
      ∧ cmd.Run = (construct kymaConfig c).Run := by
  rw [buildExtensionCommand_mk] at h
  cases hu : availableActions u with
  | none => rw [hu] at h; cases h
  | some construct =>
    rw [hu] at h
    simp only at h
    cases hf : buildFlags m.Name f ⟨(construct kymaConfig c).Flags, [], [], none⟩ with
    | error p => rw [hf] at h; cases h
    | ok st =>
      rw [hf] at h
      simp only at h
      obtain ⟨h1, h2, h3, -, -⟩ := buildFlags_ok _ _ _ _ hf
      cases hs : buildSubCommands kymaConfig availableActions s
          ((construct kymaConfig c).commands, st.buildError) with
      | error p => rw [hs] at h; cases h
      | ok r =>
        obtain ⟨commands, buildError⟩ := r
        rw [hs] at h
        simp only [Except.ok.injEq, Prod.mk.injEq] at h
        obtain ⟨hcmd, -⟩ := h
        subst hcmd
        refine ⟨construct, rfl, rfl, rfl, rfl, ?_, ?_, ?_, ?_, rfl⟩
        · simp only [Command.Flags, h1]
        · intro args ha
          subst ha
          rfl
        · intro ha
          subst ha
          rfl
        · simp only [Command.PreRun, h2, h3, List.nil_append]

/-- Every subdefinition whose build returns gets its node attached, in order,
whatever error came with it. -/
theorem buildSubCommands_attaches_all (kymaConfig : KymaConfig) (availableActions : UsesMap)
    (subs : List CommandExtension) (st : List Command × Option GoError)
    (cs : List Command) (err : Option GoError)
    (h : buildSubCommands kymaConfig availableActions subs st = .ok (cs, err)) :
    ∃ built, cs = st.1 ++ built
      ∧ List.Forall₂ (fun sub cmd =>
          ∃ e, buildExtensionCommand kymaConfig availableActions sub = .ok (cmd, e)) subs built := by
  induction subs generalizing st with
  | nil =>
    rw [buildSubCommands_nil] at h
    cases h
    exact ⟨[], by simp, List.Forall₂.nil⟩
  | cons sub rest ih =>
    rw [buildSubCommands_cons] at h
    cases hb : buildExtensionCommand kymaConfig availableActions sub with
    | error p => rw [hb] at h; cases h
    | ok r =>
      obtain ⟨subCmd, subErr⟩ := r
      rw [hb] at h
      simp only at h
      obtain ⟨built, hcs, hall⟩ := ih _ h
      refine ⟨subCmd :: built, ?_, List.Forall₂.cons ⟨subErr, hb⟩ hall⟩
      rw [hcs]
      simp

theorem buildExtensionCommand_children (kymaConfig : KymaConfig) (availableActions : UsesMap)
    (m : CommandMetadata) (u : String) (f : List CommandFlag) (a : Option CommandArgs)
    (c : CommandConfig) (s : List CommandExtension) (cmd : Command) (err : Option GoError)
    (h : buildExtensionCommand kymaConfig availableActions (.mk m u f a c s) = .ok (cmd, err)) :
    ∃ construct built, availableActions u = some construct
      ∧ cmd.commands = (construct kymaConfig c).commands ++ built
      ∧ List.Forall₂ (fun sub child =>
          ∃ e, buildExtensionCommand kymaConfig availableActions sub = .ok (child, e)) s built := by
  rw [buildExtensionCommand_mk] at h
  cases hu : availableActions u with
  | none => rw [hu] at h; cases h
  | some construct =>
    rw [hu] at h
    simp only at h
    cases hf : buildFlags m.Name f ⟨(construct kymaConfig c).Flags, [], [], none⟩ with
    | error p => rw [hf] at h; cases h
    | ok st =>
      rw [hf] at h
      simp only at h
      cases hs : buildSubCommands kymaConfig availableActions s
          ((construct kymaConfig c).commands, st.buildError) with
      | error p => rw [hs] at h; cases h
      | ok r =>
        obtain ⟨commands, buildError⟩ := r
        rw [hs] at h
        simp only [Except.ok.injEq, Prod.mk.injEq] at h
        obtain ⟨hcmd, -⟩ := h
        subst hcmd
        obtain ⟨built, hcs, hall⟩ := buildSubCommands_attaches_all _ _ _ _ _ _ hs
        exact ⟨construct, built, rfl, hcs, hall⟩

mutual
theorem buildExtensionCommand_total (kymaConfig : KymaConfig) (availableActions : UsesMap) :
    ∀ (e : CommandExtension), (∀ n ∈ e.nodes, nodeBuilds kymaConfig availableActions n) →
      ∃ cmd err, buildExtensionCommand kymaConfig availableActions e = .ok (cmd, err)
        ∧ (err.isSome = true ↔ ∃ n ∈ e.nodes, ∃ f ∈ n.Flags, f.defaultRejected = true)
  | .mk m u f a c s, hall => by
    rw [CommandExtension.nodes] at hall
    have hnode := hall _ (List.mem_cons_self _ _)
    simp only [nodeBuilds, CommandExtension.Uses, CommandExtension.Flags,
      CommandExtension.Config] at hnode
    obtain ⟨construct, hu, hflags⟩ := Option.map_eq_some'.mp hnode
    obtain ⟨st, hf⟩ := buildFlags_returns m.Name f
      ⟨(construct kymaConfig c).Flags, [], [], none⟩ hflags
    obtain ⟨-, -, -, hferr, -⟩ := buildFlags_ok _ _ _ _ hf
    obtain ⟨cs, err, hs, herr⟩ := buildSubCommands_total kymaConfig availableActions s
      ((construct kymaConfig c).commands, st.buildError)
      (fun n hn => hall n (List.mem_cons_of_mem _ hn))
    rw [buildExtensionCommand_mk, hu]
    simp only [hf, hs]
    refine ⟨_, err, rfl, ?_⟩
    rw [herr, CommandExtension.nodes]
    simp only [hferr, Option.isSome_none, Bool.false_or, List.any_eq_true, List.mem_cons,
      exists_eq_or_imp, CommandExtension.Flags]
theorem buildSubCommands_total (kymaConfig : KymaConfig) (availableActions : UsesMap) :
    ∀ (subs : List CommandExtension) (st : List Command × Option GoError),
      (∀ n ∈ CommandExtension.nodesOfAll subs, nodeBuilds kymaConfig availableActions n) →
      ∃ cs err, buildSubCommands kymaConfig availableActions subs st = .ok (cs, err)
        ∧ (err.isSome = true ↔ (st.2.isSome = true
            ∨ ∃ n ∈ CommandExtension.nodesOfAll subs, ∃ f ∈ n.Flags, f.defaultRejected = true))
  | [], st, _ => by
    refine ⟨st.1, st.2, rfl, ?_⟩
    simp [CommandExtension.nodesOfAll]
  | sub :: rest, st, hall => by
    rw [CommandExtension.nodesOfAll] at hall
    obtain ⟨subCmd, subErr, hb, hsub⟩ := buildExtensionCommand_total kymaConfig availableActions
      sub (fun n hn => hall n (List.mem_append.mpr (Or.inl hn)))
    rw [buildSubCommands_cons, hb]
    simp only
    cases subErr with
    | none =>
      obtain ⟨cs, err, hs, herr⟩ := buildSubCommands_total kymaConfig availableActions rest
        (st.1 ++ [subCmd], st.2) (fun n hn => hall n (List.mem_append.mpr (Or.inr hn)))
      refine ⟨cs, err, hs, ?_⟩
      rw [herr, CommandExtension.nodesOfAll]
      simp only [List.mem_append]
      simp only [Option.isSome_none, Bool.false_eq_true, false_iff, not_exists, not_and] at hsub
      constructor
      · rintro (h | ⟨n, hn, hr⟩)
        · exact Or.inl h
        · exact Or.inr ⟨n, Or.inr hn, hr⟩
      · rintro (h | ⟨n, hn | hn, f, hf, hr⟩)
        · exact Or.inl h
        · exact absurd hr (hsub n hn f hf)
        · exact Or.inr ⟨n, hn, f, hf, hr⟩
    | some e =>
      obtain ⟨cs, err, hs, herr⟩ := buildSubCommands_total kymaConfig availableActions rest
        (st.1 ++ [subCmd], errorsJoin [st.2, some (.errorString
          ("failed to build sub-command '" ++ sub.Metadata.Name ++ "': " ++ e.Error))])
        (fun n hn => hall n (List.mem_append.mpr (Or.inr hn)))
      refine ⟨cs, err, hs, ?_⟩
      rw [herr, CommandExtension.nodesOfAll]
      simp only [List.mem_append]
      simp only [Option.isSome_some, true_iff] at hsub
      obtain ⟨n, hn, hr⟩ := hsub
      simp only [errorsJoin_pair_isSome, true_or, true_iff]
      exact Or.inr ⟨n, Or.inl hn, hr⟩
end

/-- When every loaded Definition that validates has a build that returns, the
loop of `BuildExtensions` returns, in load order, the commands of the
Definitions that validate and build without error. -/
theorem buildExtensionsLoop_returns (kymaConfig : KymaConfig) (availableActions : UsesMap)
    (loaded : List ConfigmapCommandExtension) (st : List Command × Option GoError)
    (h : ∀ cmExt ∈ loaded, cmExt.Extension.Validate availableActions = none →
      ∃ r, buildExtensionCommand kymaConfig availableActions cmExt.Extension = .ok r) :
    ∃ err, buildExtensionsLoop kymaConfig availableActions loaded st
      = .ok (st.1 ++ loaded.filterMap (builtFor kymaConfig availableActions), err) := by
  induction loaded generalizing st with
  | nil => exact ⟨st.2, by simp [buildExtensionsLoop]⟩
  | cons cmExt rest ih =>
    have hrest : ∀ x ∈ rest, x.Extension.Validate availableActions = none →
        ∃ r, buildExtensionCommand kymaConfig availableActions x.Extension = .ok r :=
      fun x hx => h x (List.mem_cons_of_mem _ hx)
    cases hv : cmExt.Extension.Validate availableActions with
    | some err =>
      obtain ⟨e, he⟩ := ih (st.1, errorsJoin [st.2, some (pkgerrorsWrapf err
          ("failed to validate extension from configmap '" ++ cmExt.ConfigMapName ++ "/"
            ++ cmExt.ConfigMapNamespace ++ "'"))]) hrest
      refine ⟨e, ?_⟩
      simp only [buildExtensionsLoop, hv, List.filterMap_cons, builtFor]
      exact he
    | none =>
      obtain ⟨⟨command, berr⟩, hb⟩ := h cmExt (List.mem_cons_self _ _) hv
      cases berr with
      | some err =>
        obtain ⟨e, he⟩ := ih (st.1, errorsJoin [st.2, some (pkgerrorsWrapf err
            ("failed to build extension from configmap '" ++ cmExt.ConfigMapName ++ "/"
              ++ cmExt.ConfigMapNamespace ++ "'"))]) hrest
        refine ⟨e, ?_⟩
        simp only [buildExtensionsLoop, hv, hb, List.filterMap_cons, builtFor]
        exact he
      | none =>
        obtain ⟨e, he⟩ := ih (st.1 ++ [command], st.2) hrest
        refine ⟨e, ?_⟩
        simp only [buildExtensionsLoop, hv, hb, List.filterMap_cons, builtFor]
        rw [he]
        simp

theorem flagsValidateRequired_missing (supplied requiredFlags : List String) (name : String)
    (hreq : name ∈ requiredFlags) (hmiss : name ∉ supplied) :
    ∃ e, flagsValidateRequired supplied requiredFlags = some e := by
  unfold flagsValidateRequired
  cases hf : requiredFlags.filter (fun name => !supplied.contains name) with
  | nil =>
    have hmem : name ∈ requiredFlags.filter (fun name => !supplied.contains name) := by
      rw [List.mem_filter]
      exact ⟨hreq, by simpa using hmiss⟩
    rw [hf] at hmem
    cases hmem
  | cons x xs => exact ⟨_, rfl⟩

/-- The error of the sub-command loop is non-nil exactly when it was already
so or some subdefinition's build came with an error. -/
theorem buildSubCommands_error_iff (kymaConfig : KymaConfig) (availableActions : UsesMap)
    (subs : List CommandExtension) (st : List Command × Option GoError)
    (cs : List Command) (err : Option GoError)
    (h : buildSubCommands kymaConfig availableActions subs st = .ok (cs, err)) :
    err.isSome = true ↔ (st.2.isSome = true ∨ ∃ sub ∈ subs, ∃ child e,
      buildExtensionCommand kymaConfig availableActions sub = .ok (child, some e)) := by
  induction subs generalizing st with
  | nil =>
    rw [buildSubCommands_nil] at h
    cases h
    simp
  | cons sub rest ih =>
    rw [buildSubCommands_cons] at h
    cases hb : buildExtensionCommand kymaConfig availableActions sub with
    | error p => rw [hb] at h; cases h
    | ok r =>
      obtain ⟨subCmd, subErr⟩ := r
      rw [hb] at h
      simp only at h
      rw [ih _ h]
      cases subErr with
      | none =>
        constructor
        · rintro (h1 | ⟨x, hx, child, e, hxe⟩)
          · exact Or.inl h1
          · exact Or.inr ⟨x, List.mem_cons_of_mem _ hx, child, e, hxe⟩
        · rintro (h1 | ⟨x, hx, child, e, hxe⟩)
          · exact Or.inl h1
          · rcases List.mem_cons.mp hx with rfl | hx
            · rw [hb] at hxe
              cases hxe
            · exact Or.inr ⟨x, hx, child, e, hxe⟩
      | some e =>
        simp only [errorsJoin_pair_isSome, true_or, true_iff]
        exact Or.inr ⟨sub, List.mem_cons_self _ _, subCmd, e, hb⟩

mutual
/-- A build that returns went through nodes that can all be built. -/
theorem buildExtensionCommand_nodeBuilds (kymaConfig : KymaConfig)
    (availableActions : UsesMap) :
    ∀ (e : CommandExtension) (r : Command × Option GoError),
      buildExtensionCommand kymaConfig availableActions e = .ok r →
      ∀ n ∈ e.nodes, nodeBuilds kymaConfig availableActions n
  | .mk m u f a c s, r, h => by
    rw [buildExtensionCommand_mk] at h
    cases hu : availableActions u with
    | none => rw [hu] at h; cases h
    | some construct =>
      rw [hu] at h
      simp only at h
      cases hf : buildFlags m.Name f ⟨(construct kymaConfig c).Flags, [], [], none⟩ with
      | error p => rw [hf] at h; cases h
      | ok st =>
        rw [hf] at h
        simp only at h
        obtain ⟨-, -, -, -, hreg⟩ := buildFlags_ok _ _ _ _ hf
        cases hs : buildSubCommands kymaConfig availableActions s
            ((construct kymaConfig c).commands, st.buildError) with
        | error p => rw [hs] at h; cases h
        | ok r' =>
          intro n hn
          rw [CommandExtension.nodes] at hn
          rcases List.mem_cons.mp hn with rfl | hn
          · simp only [nodeBuilds, CommandExtension.Uses, CommandExtension.Flags,
              CommandExtension.Config, hu, Option.map_some']
            exact congrArg some hreg
          · exact buildSubCommands_nodeBuilds kymaConfig availableActions s _ r' hs n hn
theorem buildSubCommands_nodeBuilds (kymaConfig : KymaConfig) (availableActions : UsesMap) :
    ∀ (subs : List CommandExtension) (st r : List Command × Option GoError),
      buildSubCommands kymaConfig availableActions subs st = .ok r →
      ∀ n ∈ CommandExtension.nodesOfAll subs, nodeBuilds kymaConfig availableActions n
  | [], _, _, _ => by
    intro n hn
    simp [CommandExtension.nodesOfAll] at hn
  | sub :: rest, st, r, h => by
    rw [buildSubCommands_cons] at h
    cases hb : buildExtensionCommand kymaConfig availableActions sub with
    | error p => rw [hb] at h; cases h
    | ok r' =>
      rw [hb] at h
      simp only at h
      intro n hn
      rw [CommandExtension.nodesOfAll] at hn
      rcases List.mem_append.mp hn with hn | hn
      · exact buildExtensionCommand_nodeBuilds kymaConfig availableActions sub r' hb n hn
      · exact buildSubCommands_nodeBuilds kymaConfig availableActions rest _ r h n hn
end

/-- A flag of kind `bool` anywhere in the tree makes the build panic. -/
theorem buildExtensionCommand_bool_panics (kymaConfig : KymaConfig)
    (availableActions : UsesMap) (e : CommandExtension)
    (h : ∃ n ∈ e.nodes, ∃ x ∈ n.Flags, x.Type_ = BoolCustomType) :
    ∃ p, buildExtensionCommand kymaConfig availableActions e = .error p := by
  cases hb : buildExtensionCommand kymaConfig availableActions e with
  | error p => exact ⟨p, rfl⟩
  | ok r =>
    obtain ⟨n, hn, x, hx, hbool⟩ := h
    obtain ⟨construct, -, hreg⟩ := Option.map_eq_some'.mp
      (buildExtensionCommand_nodeBuilds kymaConfig availableActions e r hb n hn)
    exact absurd hbool (flagsRegister_not_bool _ _ hreg x hx)

/-- On a node that can be built a default is refused only for the kind `int`. -/
theorem defaultRejected_iff_int (kymaConfig : KymaConfig) (availableActions : UsesMap)
    (n : CommandExtension) (hn : nodeBuilds kymaConfig availableActions n)
    (f : CommandFlag) (hf : f ∈ n.Flags) :
    f.defaultRejected = true ↔ (f.Type_ = IntCustomType ∧ f.DefaultValue ≠ ""
      ∧ (strconvParseInt f.DefaultValue).toOption = none) := by
  obtain ⟨construct, -, hreg⟩ := Option.map_eq_some'.mp hn
  have hb := flagsRegister_not_bool _ _ hreg f hf
  simp only [CommandFlag.defaultRejected, hb, decide_False, Bool.false_and, Bool.or_false,
    Bool.and_eq_true, decide_eq_true_eq, Option.isNone_iff_eq_none]
  constructor
  · rintro ⟨h1, h2, h3⟩
    exact ⟨h2, h1, h3⟩
  · rintro ⟨h1, h2, h3⟩
    exact ⟨h2, h1, h3⟩

/-! ## The builder (C11 to C13) -/

/-- C11, the claim as stated, fails: the second subdefinition of
`deployExtension` builds with an error (its `int` flag has the default `abc`),
and the children of the built node are not `greet` and `list` alone: the node
of `scale` is attached between them. -/
theorem failed_child_attached_counterexample :
    builtChildren (buildExtensionCommand ⟨clusterWith []⟩ alphaActions scaleExtension)
        = some ([], true)
    ∧ ¬ (builtChildren (buildExtensionCommand ⟨clusterWith []⟩ alphaActions deployExtension)
          = some (["greet", "list"], true))
    ∧ builtChildren (buildExtensionCommand ⟨clusterWith []⟩ alphaActions deployExtension)
        = some (["greet", "scale", "list"], true) := by
  refine ⟨rfl, ?_, rfl⟩
  have h : builtChildren
      (buildExtensionCommand ⟨clusterWith []⟩ alphaActions deployExtension)
      = some (["greet", "scale", "list"], true) := rfl
  rw [h]
  decide

/-- C11 (amended): for a Definition all of whose nodes can be built (each uses
a registered action, and its flags register on the command of the action
constructor: none is of kind `bool`, no name and no shorthand is registered
twice, no shorthand is longer than one byte), `buildExtensionCommand` returns
a node whose children are those the action constructor attached followed by
the nodes of all its subdefinitions, in declaration order, each being what the
recursive build of that subdefinition returned, with or without an error; and
the build error of the node is non-nil whenever the build of a subdefinition
returned an error. -/
theorem buildExtensionCommand_attaches_every_child
    (kymaConfig : KymaConfig) (availableActions : UsesMap)
    (m : CommandMetadata) (u : String) (f : List CommandFlag) (a : Option CommandArgs)
    (c : CommandConfig) (s : List CommandExtension)
    (hbuilds : ∀ n ∈ (CommandExtension.mk m u f a c s).nodes,
      nodeBuilds kymaConfig availableActions n) :
    ∃ cmd err construct built,
      buildExtensionCommand kymaConfig availableActions (.mk m u f a c s) = .ok (cmd, err)
      ∧ availableActions u = some construct
      ∧ cmd.commands = (construct kymaConfig c).commands ++ built
      ∧ List.Forall₂ (fun sub child =>
          ∃ e, buildExtensionCommand kymaConfig availableActions sub = .ok (child, e)) s built
      ∧ ((∃ sub ∈ s, ∃ child e,
            buildExtensionCommand kymaConfig availableActions sub = .ok (child, some e)) →
          err.isSome = true) := by
  obtain ⟨cmd, err, hok, -⟩ := buildExtensionCommand_total kymaConfig availableActions _ hbuilds
  obtain ⟨construct, built, hu, hcs, hall⟩ :=
    buildExtensionCommand_children _ _ _ _ _ _ _ _ _ _ hok
  refine ⟨cmd, err, construct, built, hok, hu, hcs, hall, ?_⟩
  intro hsub
  have h := hok
  rw [buildExtensionCommand_mk, hu] at h
  simp only at h
  cases hf : buildFlags m.Name f ⟨(construct kymaConfig c).Flags, [], [], none⟩ with
  | error p => rw [hf] at h; cases h
  | ok st =>
    rw [hf] at h
    simp only at h
    cases hs : buildSubCommands kymaConfig availableActions s
        ((construct kymaConfig c).commands, st.buildError) with
    | error p => rw [hs] at h; cases h
    | ok r =>
      obtain ⟨commands, buildError⟩ := r
      rw [hs] at h
      simp only [Except.ok.injEq, Prod.mk.injEq] at h
      obtain ⟨-, herr⟩ := h
      subst herr
      exact (buildSubCommands_error_iff _ _ _ _ _ _ hs).mpr (Or.inr hsub)

/-- Witness of C11: the node built from `deployExtension` has three children
and a non-nil build error. -/
theorem buildExtensionCommand_attaches_every_child_witness :
    ∃ cmd err, buildExtensionCommand ⟨clusterWith []⟩ alphaActions deployExtension
        = .ok (cmd, err)
      ∧ cmd.commands.length = 3 ∧ err.isSome = true := by
  obtain ⟨cmd, err, construct, built, hok, hu, hcs, hall, herr⟩ :=
    buildExtensionCommand_attaches_every_child ⟨clusterWith []⟩ alphaActions
      ⟨"deploy", "deploys things", ""⟩ "resource_create" [replicasFlag] none []
      [greetExtension, scaleExtension, listExtension] (by decide)
  refine ⟨cmd, err, hok, ?_, ?_⟩
  · have hlen := hall.length_eq
    have hbase : construct = fun _ _ => .mk "" "" "" [] none none (some "resource_create") [] := by
      have h2 : alphaActions "resource_create"
          = some (fun _ _ => .mk "" "" "" [] none none (some "resource_create") []) := rfl
      rw [h2] at hu
      exact (Option.some.inj hu).symm
    rw [hcs, hbase]
    simp only [Command.commands, List.nil_append]
    rw [← hlen]
    rfl
  · apply herr
    obtain ⟨child, e, hchild, he⟩ : ∃ child e,
        buildExtensionCommand ⟨clusterWith []⟩ alphaActions scaleExtension = .ok (child, e)
          ∧ e.isSome = true := by
      obtain ⟨child, e, h1, h2⟩ := buildExtensionCommand_total ⟨clusterWith []⟩ alphaActions
        scaleExtension (by decide)
      refine ⟨child, e, h1, h2.mpr ⟨scaleExtension, ?_, countFlag, ?_, rfl⟩⟩
      · simp [scaleExtension, CommandExtension.nodes, CommandExtension.nodesOfAll]
      · simp [scaleExtension, CommandExtension.Flags]
    obtain ⟨e', he'⟩ := Option.isSome_iff_exists.mp he
    subst he'
    exact ⟨scaleExtension, by simp, child, e', hchild⟩

/-- C12, the claim as stated, fails: the `path` flag of `archiveExtension` has
a non-empty default naming a file that cannot be read, which fails to parse
for the kind `path`, and the build returns a nil error. -/
theorem path_default_build_error_counterexample :
    ¬ (builtWithError (buildExtensionCommand ⟨clusterWith []⟩ alphaActions archiveExtension)
          = some true
        ↔ ∃ n ∈ archiveExtension.nodes, ∃ f ∈ n.Flags,
            f.defaultFailsToParse sampleFiles = true) := by
  intro h
  have hrhs : ∃ n ∈ archiveExtension.nodes, ∃ f ∈ n.Flags,
      f.defaultFailsToParse sampleFiles = true :=
    ⟨archiveExtension, by simp [archiveExtension, CommandExtension.nodes],
      missingFileFlag, by simp [archiveExtension, CommandExtension.Flags], rfl⟩
  have hlhs := h.mpr hrhs
  have hval : builtWithError
      (buildExtensionCommand ⟨clusterWith []⟩ alphaActions archiveExtension) = some false := rfl
  rw [hval] at hlhs
  cases hlhs

/-- C12 (amended): for a Definition all of whose nodes can be built (each uses
a registered action, and its flags register on the command of the action
constructor: none is of kind `bool`, no name and no shorthand is registered
twice, no shorthand is longer than one byte), `buildExtensionCommand` returns
the node together with its build error, and the error is non-nil exactly when
some flag of the node or of a descendant is of kind `int` with a non-empty
default that is not a decimal 64-bit integer. An empty default is never parsed,
and a non-empty default of kind `path` is stored as text without any error. -/
theorem buildExtensionCommand_error_iff_int_default_rejected
    (kymaConfig : KymaConfig) (availableActions : UsesMap) (e : CommandExtension)
    (hbuilds : ∀ n ∈ e.nodes, nodeBuilds kymaConfig availableActions n) :
    (∃ cmd err, buildExtensionCommand kymaConfig availableActions e = .ok (cmd, err)
        ∧ (err.isSome = true ↔ ∃ n ∈ e.nodes, ∃ f ∈ n.Flags,
            f.Type_ = IntCustomType ∧ f.DefaultValue ≠ ""
              ∧ (strconvParseInt f.DefaultValue).toOption = none))
    ∧ (∀ t p, newTypedValue t p "" = .ok (NewTyped t p, none))
    ∧ (∀ p d, d ≠ "" → newTypedValue PathCustomType p d = .ok (.pathValue ⟨some d⟩ p, none)) := by
  refine ⟨?_, newTypedValue_empty, newTypedValue_path⟩
  obtain ⟨cmd, err, hok, herr⟩ :=
    buildExtensionCommand_total kymaConfig availableActions e hbuilds
  refine ⟨cmd, err, hok, ?_⟩
  rw [herr]
  constructor
  · rintro ⟨n, hn, f, hf, hr⟩
    exact ⟨n, hn, f, hf, (defaultRejected_iff_int _ _ n (hbuilds n hn) f hf).mp hr⟩
  · rintro ⟨n, hn, f, hf, hr⟩
    exact ⟨n, hn, f, hf, (defaultRejected_iff_int _ _ n (hbuilds n hn) f hf).mpr hr⟩

/-- Witness of C12: the build of `deployExtension` returns with a non-nil
error, since a flag of its second subdefinition has the default `abc`. -/
theorem buildExtensionCommand_error_iff_int_default_rejected_witness :
    ∃ cmd err, buildExtensionCommand ⟨clusterWith []⟩ alphaActions deployExtension
        = .ok (cmd, err) ∧ err.isSome = true := by
  obtain ⟨⟨cmd, err, hok, herr⟩, -, -⟩ :=
    buildExtensionCommand_error_iff_int_default_rejected ⟨clusterWith []⟩ alphaActions
      deployExtension (by decide)
  refine ⟨cmd, err, hok, herr.mpr ?_⟩
  refine ⟨scaleExtension, ?_, countFlag, ?_, rfl, by decide, rfl⟩
  · simp [deployExtension, scaleExtension, greetExtension, listExtension,
      CommandExtension.nodes, CommandExtension.nodesOfAll]
  · simp [scaleExtension, CommandExtension.Flags]

/-- C13 (code bug): with a load that reports no error, every valid sibling
should still be built and returned. For the records `greet`, `bogus` (an
unregistered action) and `list`, `BuildExtensions` returns `greet` and `list`
and records the validation error of `bogus` with its configmap; but with the
valid group Definition `tools` (empty `uses`) in place of `bogus`, the build of
`tools` calls a nil function (the defect of C10) and `BuildExtensions` panics,
returning neither `greet` nor `list`. -/
theorem BuildExtensions_valid_sibling_lost_to_panic :
    (loadCommandExtensionsFromCluster catalogUnmarshal
        (clusterWith [greetRecord, toolsRecord, listRecord])).2 = none
    ∧ toolsGroup.Validate alphaActions = none
    ∧ returnedNames ((newExtensionsConfig
          ⟨clusterWith [greetRecord, toolsRecord, listRecord]⟩).BuildExtensions
        ["kyma", "alpha"] catalogUnmarshal alphaActions) = none
    ∧ returnedNames ((newExtensionsConfig
          ⟨clusterWith [greetRecord, bogusRecord, listRecord]⟩).BuildExtensions
        ["kyma", "alpha"] catalogUnmarshal alphaActions) = some ["greet", "list"]
    ∧ recordedErrors ((newExtensionsConfig
          ⟨clusterWith [greetRecord, bogusRecord, listRecord]⟩).BuildExtensions
        ["kyma", "alpha"] catalogUnmarshal alphaActions)
        = some ["failed to validate extension from configmap 'bogus-cm/default': wrong .uses: unsupported value 'nonexistent'"] :=
  ⟨rfl, rfl, rfl, rfl, by decide⟩

/-! ## Typed values (C14 to C17) -/

/-- C14 (code bug): a fresh typed value should report "unset" without failing.
For the kinds `string`, `path` and `int` it does, and `GetPath` returns the
path for all four kinds; for the kind `bool`, `NewTyped` leaves the embedded
`*NullableBool` nil and `GetValue` dereferences it. -/
theorem NewTyped_bool_GetValue_panics :
    ∀ p : String,
      (NewTyped StringCustomType p).GetValue = .ok none
      ∧ (NewTyped PathCustomType p).GetValue = .ok none
      ∧ (NewTyped IntCustomType p).GetValue = .ok none
      ∧ (NewTyped BoolCustomType p).GetValue = .error .nilPointerDereference
      ∧ (NewTyped StringCustomType p).GetPath = p
      ∧ (NewTyped PathCustomType p).GetPath = p
      ∧ (NewTyped IntCustomType p).GetPath = p
      ∧ (NewTyped BoolCustomType p).GetPath = p :=
  fun _ => ⟨rfl, rfl, rfl, rfl, rfl, rfl, rfl, rfl⟩

/-- C15 (code bug): a bare `bool` flag should end up holding `true`. A
Definition with a flag of kind `bool` cannot even be built: the typed value
made for the flag is the fresh `boolValue` with a nil embedded pointer (the
defect of C14), registering it renders its default through that pointer and
panics, so the build of `pruneExtension`, and of every Definition with a `bool`
flag on one of its nodes, panics. The value itself can never hold `true`: setting
it from `true` panics, no `Set` makes the pointer non-nil, and `GetValue` on it
panics. Flags of the other kinds do get no no-value text: the flag `name` of
the built `welcomeExtension` has none, and supplied bare it is refused. -/
theorem bare_bool_flag_never_reads_true :
    buildExtensionCommand ⟨clusterWith []⟩ alphaActions pruneExtension
        = .error .nilPointerDereference
    ∧ (∀ (kymaConfig : KymaConfig) (availableActions : UsesMap) (e : CommandExtension),
        (∃ n ∈ e.nodes, ∃ x ∈ n.Flags, x.Type_ = BoolCustomType) →
        ∃ p, buildExtensionCommand kymaConfig availableActions e = .error p)
    ∧ (∀ (formal : List CmdFlag) (p name shorthand usage : String),
        VarPF formal (NewTyped BoolCustomType p) name shorthand usage
          = .error .nilPointerDereference)
    ∧ (∀ (readFile : String → Except GoError String) (p text : String),
        Value.Set readFile (.boolValue none p) text = .error .nilPointerDereference
        ∨ ∃ err, Value.Set readFile (.boolValue none p) text = .ok (.boolValue none p, err))
    ∧ Value.Set sampleFiles (NewTyped BoolCustomType "spec.force") "true"
        = .error .nilPointerDereference
    ∧ (∀ p : String, (Value.boolValue none p).GetValue = .error .nilPointerDereference)
    ∧ (∀ f : CommandFlag, f.Type_ ≠ BoolCustomType → f.registered.NoOptDefVal = "")
    ∧ (buildExtensionCommand ⟨clusterWith []⟩ alphaActions welcomeExtension).toOption.map
        (fun r => r.1.Flags) = some [nameFlag.registered]
    ∧ (CmdFlag.supplyBare sampleFiles nameFlag.registered).toOption.map
        (fun r => (r.1.Value, r.2.map GoError.Error))
        = some (.stringValue ⟨none⟩ "spec.name", some "flag needs an argument: --name") := by
  refine ⟨rfl, buildExtensionCommand_bool_panics, fun _ _ _ _ _ => rfl, ?_, rfl,
    fun _ => rfl, ?_, rfl, rfl⟩
  · intro readFile p text
    cases h : strconvParseBool text with
    | none =>
      right
      exact ⟨some (.errorString ("strconv.ParseBool: parsing \"" ++ text ++ "\": invalid syntax")),
        by simp [Value.Set, Value.SetValue, NullableBool.Set, h]⟩
    | some b => left; simp [Value.Set, Value.SetValue, NullableBool.Set, h]
  · intro f hf
    simp [CommandFlag.registered, hf]

/-- C16: for a `path` value, `Set` on a path whose file reads with content `c`
succeeds and makes `GetValue` return `c`, leaving the config path as it was;
`Set` on a path whose file cannot be read returns the read error and leaves the
value exactly as it was. -/
theorem pathValue_Set_reads_file (readFile : String → Except GoError String)
    (n : NullableString) (configPath p : String) :
    (∀ c, readFile p = .ok c →
        ∃ v, Value.Set readFile (.pathValue n configPath) p = .ok (v, none)
          ∧ v.GetValue = .ok (some (.str c)) ∧ v.GetPath = configPath)
    ∧ (∀ err, readFile p = .error err →
        Value.Set readFile (.pathValue n configPath) p
          = .ok (.pathValue n configPath, some err)) := by
  constructor
  · intro c hc
    exact ⟨.pathValue ⟨some c⟩ configPath,
      by simp [Value.Set, hc, Value.SetValue, NullableString.Set], rfl, rfl⟩
  · intro err herr
    simp [Value.Set, herr]

/-- Witness of C16: reading `/etc/motd` gives `hello`; an unreadable path
leaves a fresh value unset. -/
theorem pathValue_Set_reads_file_witness :
    (∃ v, Value.Set sampleFiles (NewTyped PathCustomType "spec.motd") "/etc/motd" = .ok (v, none)
        ∧ v.GetValue = .ok (some (.str "hello")) ∧ v.GetPath = "spec.motd")
    ∧ Value.Set sampleFiles (NewTyped PathCustomType "spec.motd") "/no/such/file"
        = .ok (NewTyped PathCustomType "spec.motd",
            some (.errorString "open /no/such/file: no such file or directory")) :=
  ⟨(pathValue_Set_reads_file sampleFiles ⟨none⟩ "spec.motd" "/etc/motd").1 "hello" rfl,
   (pathValue_Set_reads_file sampleFiles ⟨none⟩ "spec.motd" "/no/such/file").2 _ rfl⟩

/-- C17, the claim as stated, fails: the `path` flag of `motdExtension` has the
default `/etc/motd`, a file holding `hello`; after the build its typed value
does not hold `hello`. And the `path` flag of `archiveExtension` names a file
that cannot be read, yet no build error comes with the node. -/
theorem path_default_is_not_read_counterexample :
    sampleFiles motdFlag.DefaultValue = .ok "hello"
    ∧ ¬ (builtFlagValues (buildExtensionCommand ⟨clusterWith []⟩ alphaActions motdExtension)
          = some [.pathValue ⟨some "hello"⟩ "spec.motd"])
    ∧ (sampleFiles missingFileFlag.DefaultValue).toOption = none
    ∧ ¬ (builtWithError (buildExtensionCommand ⟨clusterWith []⟩ alphaActions archiveExtension)
          = some true) := by
  refine ⟨rfl, ?_, rfl, ?_⟩
  · have h : builtFlagValues
        (buildExtensionCommand ⟨clusterWith []⟩ alphaActions motdExtension)
        = some [.pathValue ⟨some "/etc/motd"⟩ "spec.motd"] := rfl
    rw [h]
    decide
  · have h : builtWithError
        (buildExtensionCommand ⟨clusterWith []⟩ alphaActions archiveExtension) = some false := rfl
    rw [h]
    decide

/-- C17 (amended): for every `path` flag with a non-empty default `d`, the typed
value made for it holds the text `d` itself, whatever the file system holds,
and comes without an error; the node built from a Definition with that flag
carries a flag registered with this value. -/
theorem path_default_stored_as_text (kymaConfig : KymaConfig) (availableActions : UsesMap)
    (m : CommandMetadata) (u : String) (f : List CommandFlag) (a : Option CommandArgs)
    (c : CommandConfig) (s : List CommandExtension) (cmd : Command) (err : Option GoError)
    (flag : CommandFlag)
    (hbuild : buildExtensionCommand kymaConfig availableActions (.mk m u f a c s)
      = .ok (cmd, err))
    (hmem : flag ∈ f) (hpath : flag.Type_ = PathCustomType) (hd : flag.DefaultValue ≠ "") :
    newTypedValue flag.Type_ flag.ConfigPath flag.DefaultValue
        = .ok (.pathValue ⟨some flag.DefaultValue⟩ flag.ConfigPath, none)
    ∧ (Value.pathValue ⟨some flag.DefaultValue⟩ flag.ConfigPath).GetValue
        = .ok (some (.str flag.DefaultValue))
    ∧ flag.defaultRejected = false
    ∧ ({ Name := flag.Name, Shorthand := flag.Shorthand, Usage := flag.Description,
         Value := .pathValue ⟨some flag.DefaultValue⟩ flag.ConfigPath,
         NoOptDefVal := "" } : CmdFlag) ∈ cmd.Flags := by
  have hnew : newTypedValue flag.Type_ flag.ConfigPath flag.DefaultValue
      = .ok (.pathValue ⟨some flag.DefaultValue⟩ flag.ConfigPath, none) := by
    rw [hpath]
    exact newTypedValue_path _ _ hd
  have h1 : ¬ PathCustomType = IntCustomType := by decide
  have h2 : ¬ PathCustomType = BoolCustomType := by decide
  refine ⟨hnew, rfl, ?_, ?_⟩
  · simp [CommandFlag.defaultRejected, hpath, h1, h2]
  · obtain ⟨construct, -, -, -, -, hflags, -⟩ :=
      buildExtensionCommand_installs _ _ _ _ _ _ _ _ _ _ hbuild
    rw [hflags]
    apply List.mem_append_right
    have hreg : flag.registered
        = { Name := flag.Name, Shorthand := flag.Shorthand, Usage := flag.Description,
            Value := .pathValue ⟨some flag.DefaultValue⟩ flag.ConfigPath,
            NoOptDefVal := "" } := by
      unfold CommandFlag.registered CommandFlag.typedValue
      rw [hnew]
      simp [hpath, h2]
    rw [← hreg]
    exact List.mem_map_of_mem _ hmem

/-- Witness of C17: the node built from `motdExtension` carries the flag `motd`
with the text `/etc/motd` as its value. -/
theorem path_default_stored_as_text_witness :
    ∃ cmd err, buildExtensionCommand ⟨clusterWith []⟩ alphaActions motdExtension
        = .ok (cmd, err)
      ∧ ({ Name := "motd", Shorthand := "", Usage := "",
           Value := .pathValue ⟨some "/etc/motd"⟩ "spec.motd", NoOptDefVal := "" } : CmdFlag)
          ∈ cmd.Flags := by
  obtain ⟨cmd, err, hok, -⟩ := buildExtensionCommand_total ⟨clusterWith []⟩ alphaActions
    motdExtension (by decide)
  exact ⟨cmd, err, hok,
    (path_default_stored_as_text ⟨clusterWith []⟩ alphaActions _ _ _ _ _ _ cmd err motdFlag
      hok (by simp) rfl (by decide)).2.2.2⟩

/-! ## Lemmas on the argument vector -/

theorem isSubRootCommandUsed_iff (osArgs args : List String) :
    isSubRootCommandUsed osArgs args = true ↔ ∃ a ∈ args, a ∈ osArgs := by
  simp [isSubRootCommandUsed, List.any_eq_true]

/-! ## Arguments, the execution gate and the warnings (C18 to C20) -/

/-- C18 (code bug): the rule installed for `Args` should refuse a wrong number
of positional values and otherwise parse the single value into the bound typed
value. The built node does carry the rule made of `Optional` and a fresh typed
value, the rule fails with a count error, leaving the value untouched, exactly
when `Optional` and `n > 1` or not `Optional` and `n ≠ 1`, an optional rule given
no value succeeds leaving the value unset, and a single value is parsed into
the value for the kinds `string`, `int` and `path`. For the kind `bool` the
fresh typed value has a nil embedded pointer (the defect of C14): the node of
`confirmExtension` is built, and its rule panics on the value `true`, as does
every rule of kind `bool` on every boolean text. -/
theorem argument_rule_panics_on_bool :
    (∀ (kymaConfig : KymaConfig) (availableActions : UsesMap) (m : CommandMetadata)
        (u : String) (f : List CommandFlag) (a : CommandArgs) (c : CommandConfig)
        (s : List CommandExtension) (cmd : Command) (err : Option GoError),
        buildExtensionCommand kymaConfig availableActions (.mk m u f (some a) c s)
          = .ok (cmd, err) →
        cmd.Args = some ⟨a.Optional, NewTyped a.Type_ a.ConfigPath⟩)
    ∧ (∀ (readFile : String → Except GoError String) (rule : ArgsRule) (args : List String),
        (((rule.Optional = true ∧ 1 < args.length)
            ∨ (rule.Optional = false ∧ args.length ≠ 1)) →
          ∃ e, rule.run readFile args = .ok (rule.value, e)
            ∧ isCountError args.length e = true)
        ∧ (¬ ((rule.Optional = true ∧ 1 < args.length)
              ∨ (rule.Optional = false ∧ args.length ≠ 1)) →
            (∃ x, args = [x]) ∨ (rule.Optional = true ∧ args = []))
        ∧ (rule.Optional = true → args = [] → rule.run readFile args = .ok (rule.value, none)))
    ∧ (∀ (readFile : String → Except GoError String) (optional : Bool) (p x : String),
        ArgsRule.run readFile ⟨optional, NewTyped StringCustomType p⟩ [x]
          = .ok (.stringValue ⟨some x⟩ p, none))
    ∧ (∀ (readFile : String → Except GoError String) (optional : Bool) (p x : String) (v : Int),
        strconvParseInt x = .ok v →
        ArgsRule.run readFile ⟨optional, NewTyped IntCustomType p⟩ [x]
          = .ok (.int64Value ⟨some v⟩ p, none))
    ∧ (∀ (readFile : String → Except GoError String) (optional : Bool) (p x content : String),
        readFile x = .ok content →
        ArgsRule.run readFile ⟨optional, NewTyped PathCustomType p⟩ [x]
          = .ok (.pathValue ⟨some content⟩ p, none))
    ∧ (∀ (readFile : String → Except GoError String) (optional : Bool) (p x : String) (b : Bool),
        strconvParseBool x = some b →
        ArgsRule.run readFile ⟨optional, NewTyped BoolCustomType p⟩ [x]
          = .error .nilPointerDereference)
    ∧ (buildExtensionCommand ⟨clusterWith []⟩ alphaActions confirmExtension).toOption.map
        (fun r => r.1.Args) = some (some ⟨false, .boolValue none "spec.confirm"⟩)
    ∧ ArgsRule.run sampleFiles ⟨false, .boolValue none "spec.confirm"⟩ ["true"]
        = .error .nilPointerDereference := by
  refine ⟨?_, ?_, ?_, ?_, ?_, ?_, rfl, rfl⟩
  · intro kymaConfig availableActions m u f a c s cmd err hbuild
    obtain ⟨construct, -, -, -, -, -, hargs, -⟩ :=
      buildExtensionCommand_installs _ _ _ _ _ _ _ _ _ _ hbuild
    exact hargs a rfl
  · intro readFile rule args
    refine ⟨?_, ?_, ?_⟩
    · rintro (⟨hopt, hlen⟩ | ⟨hopt, hlen⟩)
      · refine ⟨some (.errorString
            ("accepts at most one argument, received " ++ toString args.length)), ?_, ?_⟩
        · simp only [ArgsRule.run, hopt, if_true, setOptionalArg, gt_iff_lt, hlen]
        · simp [isCountError]
      · refine ⟨some (.errorString
            ("requires exactly one argument, received " ++ toString args.length)), ?_, ?_⟩
        · simp only [ArgsRule.run, hopt, Bool.false_eq_true, if_false, setRequiredArg, ne_eq,
            hlen, not_false_eq_true, if_true]
        · simp [isCountError]
    · intro hnot
      push_neg at hnot
      obtain ⟨h1, h2⟩ := hnot
      match args, h1, h2 with
      | [], h1, h2 =>
        right
        cases hopt : rule.Optional with
        | true => exact ⟨rfl, rfl⟩
        | false => exact absurd (h2 hopt) (by simp)
      | [x], _, _ => exact Or.inl ⟨x, rfl⟩
      | x :: y :: rest, h1, h2 =>
        cases hopt : rule.Optional with
        | true => exact absurd (h1 hopt) (by simp)
        | false => exact absurd (h2 hopt) (by simp)
    · intro hopt hargs0
      subst hargs0
      simp [ArgsRule.run, hopt, setOptionalArg]
  · intro readFile optional p x
    cases optional <;>
      simp [ArgsRule.run, setOptionalArg, setRequiredArg, NewTyped, StringCustomType,
        PathCustomType, IntCustomType, BoolCustomType, Value.Set, Value.SetValue,
        NullableString.Set]
  · intro readFile optional p x v hv
    have h1 : IntCustomType ≠ PathCustomType := by decide
    cases optional <;>
      simp [ArgsRule.run, setOptionalArg, setRequiredArg, NewTyped, h1, Value.Set,
        Value.SetValue, NullableInt64.Set, hv]
  · intro readFile optional p x content hc
    cases optional <;>
      simp [ArgsRule.run, setOptionalArg, setRequiredArg, NewTyped, Value.Set,
        Value.SetValue, NullableString.Set, hc]
  · intro readFile optional p x b hb
    have h1 : BoolCustomType ≠ PathCustomType := by decide
    have h2 : BoolCustomType ≠ IntCustomType := by decide
    cases optional <;>
      simp [ArgsRule.run, setOptionalArg, setRequiredArg, NewTyped, h1, h2, Value.Set,
        Value.SetValue, NullableBool.Set, hb]

/-- C19: the gate of a built node checks exactly the names of the flags
declared `Required`, in declaration order, and checks them before binding:
when some flag declared `Required` received no value, the gate ends the run
with the error of the check whatever the binding would do, so nothing is bound
and the action is not reached. -/
theorem required_flag_gate_precedes_binding (kymaConfig : KymaConfig)
    (availableActions : UsesMap) (m : CommandMetadata) (u : String) (f : List CommandFlag)
    (a : Option CommandArgs) (c : CommandConfig) (s : List CommandExtension) (cmd : Command)
    (err : Option GoError) (supplied : List String)
    (hbuild : buildExtensionCommand kymaConfig availableActions (.mk m u f a c s)
      = .ok (cmd, err))
    (hmiss : ∃ flag ∈ f, flag.Required = true ∧ flag.Name ∉ supplied) :
    ∃ gate checkErr, cmd.PreRun = some gate
      ∧ gate.requiredFlags = (f.filter (fun x => x.Required)).map (fun x => x.Name)
      ∧ gate.config = c
      ∧ flagsValidateRequired supplied gate.requiredFlags = some checkErr
      ∧ ∀ parametersSet, gate.run parametersSet supplied = .exited checkErr := by
  obtain ⟨construct, -, -, -, -, -, -, -, hgate, -⟩ :=
    buildExtensionCommand_installs _ _ _ _ _ _ _ _ _ _ hbuild
  obtain ⟨flag, hmem, hreq, hnot⟩ := hmiss
  have hname : flag.Name ∈ (f.filter (fun x => x.Required)).map (fun x => x.Name) :=
    List.mem_map.mpr ⟨flag, List.mem_filter.mpr ⟨hmem, hreq⟩, rfl⟩
  obtain ⟨checkErr, hcheck⟩ := flagsValidateRequired_missing supplied _ _ hname hnot
  refine ⟨_, checkErr, hgate, rfl, rfl, hcheck, ?_⟩
  intro parametersSet
  simp only [PreRunGate.run, hcheck]

/-- Witness of C19: `welcome` run without the required `--name` ends at the
check, naming the missing flag. -/
theorem required_flag_gate_precedes_binding_witness :
    ∃ cmd err gate, buildExtensionCommand ⟨clusterWith []⟩ alphaActions welcomeExtension
        = .ok (cmd, err)
      ∧ cmd.PreRun = some gate
      ∧ gate.requiredFlags = ["name"]
      ∧ gate.run keepConfig []
          = .exited (.errorString "missing required flags: name") := by
  obtain ⟨cmd, err, hok, -⟩ := buildExtensionCommand_total ⟨clusterWith []⟩ alphaActions
    welcomeExtension (by decide)
  obtain ⟨gate, checkErr, hgate, hreq, -, hcheck, hrun⟩ :=
    required_flag_gate_precedes_binding ⟨clusterWith []⟩ alphaActions _ _ _ _ _ _ cmd err
      [] hok ⟨nameFlag, by simp, rfl, by decide⟩
  refine ⟨cmd, err, gate, hok, hgate, hreq, ?_⟩
  rw [hrun keepConfig]
  rw [hreq] at hcheck
  have hvalue : flagsValidateRequired []
      (List.map (fun x => x.Name) (List.filter (fun x => x.Required) [nameFlag]))
      = some (.errorString "missing required flags: name") := rfl
  rw [hvalue] at hcheck
  cases hcheck
  rfl

/-- C20, the claim as stated, fails: with an error recorded and the word `help`
in the argument vector nothing is written, where the claim has one warning;
and the terse notice written for an error whose text is `cluster` contains
that text. -/
theorem DisplayWarnings_counterexample :
    ¬ ((KymaExtensionsConfig.DisplayExtensionsErrors
          ⟨⟨unreachableCluster⟩, some (.errorString "failed to create cluster connection")⟩
          ["kyma", "help"]).length = 1)
    ∧ ¬ ((extensions.KymaExtensionsConfig.DisplayWarnings
          ⟨some (.errorString "failed to create cluster connection")⟩
          ["kyma", "help"]).length = 1)
    ∧ extensions.KymaExtensionsConfig.DisplayWarnings ⟨some (.errorString "cluster")⟩
        ["kyma", "alpha"] = [terseWarning]
    ∧ stringsContains terseWarning (GoError.errorString "cluster").Error = true := by
  refine ⟨by decide, by decide, by decide, by decide⟩

/-- C20 (amended): `DisplayExtensionsErrors` and `DisplayWarnings` write
nothing when no error is recorded, and nothing when the first sub-command (the
second element of the argument vector) is `help`, `completion` or `version`;
with an error recorded and none of these words in the argument vector they
write exactly one warning: the full error text when the switch
`--show-extensions-error` reads true, else the fixed terse notice, which names
the flag `'--show-extensions-error'` and is the same for every error. -/
theorem DisplayWarnings_writes (kymaConfig : KymaConfig) (osArgs : List String) :
    KymaExtensionsConfig.DisplayExtensionsErrors ⟨kymaConfig, none⟩ osArgs = []
    ∧ extensions.KymaExtensionsConfig.DisplayWarnings ⟨none⟩ osArgs = []
    ∧ (∀ err : GoError,
        KymaExtensionsConfig.DisplayExtensionsErrors ⟨kymaConfig, some err⟩ osArgs
          = extensions.KymaExtensionsConfig.DisplayWarnings ⟨some err⟩ osArgs
        ∧ ((∃ w ∈ ["help", "completion", "version"], osArgs[1]? = some w) →
            extensions.KymaExtensionsConfig.DisplayWarnings ⟨some err⟩ osArgs = [])
        ∧ ((∀ w ∈ ["help", "completion", "version"], w ∉ osArgs) →
            getBoolFlagValue osArgs "--show-extensions-error" = true →
            extensions.KymaExtensionsConfig.DisplayWarnings ⟨some err⟩ osArgs
              = ["Extensions Warning:\n" ++ err.Error ++ "\n\n"])
        ∧ ((∀ w ∈ ["help", "completion", "version"], w ∉ osArgs) →
            getBoolFlagValue osArgs "--show-extensions-error" = false →
            extensions.KymaExtensionsConfig.DisplayWarnings ⟨some err⟩ osArgs
              = [terseWarning]))
    ∧ stringsContains terseWarning "'--show-extensions-error'" = true := by
  refine ⟨?_, ?_, ?_, by decide⟩
  · simp only [KymaExtensionsConfig.DisplayExtensionsErrors, displayWarnings]
    split <;> rfl
  · simp only [extensions.KymaExtensionsConfig.DisplayWarnings, displayWarnings]
    split <;> rfl
  · intro err
    refine ⟨rfl, ?_, ?_, ?_⟩
    · rintro ⟨w, hw, hsecond⟩
      have h : isSubRootCommandUsed osArgs ["help", "completion", "version"] = true :=
        (isSubRootCommandUsed_iff _ _).mpr ⟨w, hw, List.getElem?_mem hsecond⟩
      simp [extensions.KymaExtensionsConfig.DisplayWarnings, displayWarnings, h]
    · intro habsent hshow
      have h : isSubRootCommandUsed osArgs ["help", "completion", "version"] = false := by
        rw [Bool.eq_false_iff]
        intro hused
        obtain ⟨w, hw, hmem⟩ := (isSubRootCommandUsed_iff _ _).mp hused
        exact habsent w hw hmem
      simp [extensions.KymaExtensionsConfig.DisplayWarnings, displayWarnings, h, hshow,
        fullWarning]
    · intro habsent hshow
      have h : isSubRootCommandUsed osArgs ["help", "completion", "version"] = false := by
        rw [Bool.eq_false_iff]
        intro hused
        obtain ⟨w, hw, hmem⟩ := (isSubRootCommandUsed_iff _ _).mp hused
        exact habsent w hw hmem
      simp [extensions.KymaExtensionsConfig.DisplayWarnings, displayWarnings, h, hshow]

/-- Witness of C20: with a recorded error, the plain run gets the terse notice,
the run with the switch gets the full text, and `kyma help` gets nothing. -/
theorem DisplayWarnings_writes_witness :
    extensions.KymaExtensionsConfig.DisplayWarnings ⟨some (.errorString "boom")⟩
        ["kyma", "alpha"] = [terseWarning]
    ∧ extensions.KymaExtensionsConfig.DisplayWarnings ⟨some (.errorString "boom")⟩
        ["kyma", "alpha", "--show-extensions-error"] = ["Extensions Warning:\nboom\n\n"]
    ∧ extensions.KymaExtensionsConfig.DisplayWarnings ⟨some (.errorString "boom")⟩
        ["kyma", "help"] = [] :=
  ⟨((DisplayWarnings_writes ⟨unreachableCluster⟩ ["kyma", "alpha"]).2.2.1
      (.errorString "boom")).2.2.2 (by decide) (by decide),
   ((DisplayWarnings_writes ⟨unreachableCluster⟩
      ["kyma", "alpha", "--show-extensions-error"]).2.2.1
      (.errorString "boom")).2.2.1 (by decide) (by decide),
   ((DisplayWarnings_writes ⟨unreachableCluster⟩ ["kyma", "help"]).2.2.1
      (.errorString "boom")).2.1 ⟨"help", by decide, rfl⟩⟩

/-! ## Lemmas on the config path binder -/

theorem lookup_setKey_same (key : String) (node : ConfigNode) (entries : List (String × ConfigNode)) :
    (setKey key node entries).lookup key = some node := by
  induction entries with
  | nil => simp [setKey, List.lookup]
  | cons kn rest ih =>
    obtain ⟨k, n⟩ := kn
    by_cases h : k = key
    · simp [setKey, h, List.lookup]
    · have h' : (key == k) = false := by simpa using fun hh => h hh.symm
      simp [setKey, h, List.lookup, h', ih]

theorem lookup_setKey_other (key key' : String) (node : ConfigNode)
    (entries : List (String × ConfigNode)) (hne : key' ≠ key) :
    (setKey key node entries).lookup key' = entries.lookup key' := by
  induction entries with
  | nil =>
    have h' : (key' == key) = false := by simpa using hne
    simp [setKey, List.lookup, h']
  | cons kn rest ih =>
    obtain ⟨k, n⟩ := kn
    by_cases h : k = key
    · subst h
      have h' : (key' == k) = false := by simpa using hne
      simp [setKey, List.lookup, h']
    · simp only [setKey, h, if_false, List.lookup]
      rw [ih]

theorem setNode_nil (v : Scalar) (cur : Option ConfigNode) :
    setNode v [] cur = .ok (.scalar v) := by
  cases cur <;> rfl

theorem leafAt_nil_mapping (entries : List (String × ConfigNode)) :
    leafAt [] (some (.mapping entries)) = none := rfl

/-- The binder on a node: when no proper prefix of the path holds a scalar, the
node is rewritten so that the path holds the scalar and every leaf at a path
that the path is not a prefix of is as before. -/
theorem setNode_spec (v : Scalar) (segments : List String) :
    ∀ (cur : Option ConfigNode),
      (∀ pre, pre <+: segments → pre ≠ segments → leafAt pre cur = none) →
      ∃ node, setNode v segments cur = .ok node
        ∧ nodeAt segments node = some (.scalar v)
        ∧ ∀ q, ¬ segments <+: q → leafAt q (some node) = leafAt q cur := by
  induction segments with
  | nil =>
    intro cur _
    exact ⟨.scalar v, setNode_nil v cur, rfl, fun q hq => absurd (List.nil_prefix) hq⟩
  | cons key rest ih =>
    intro cur hfree
    cases cur with
    | none =>
      obtain ⟨node, hset, hat, hframe⟩ := ih none (fun pre _ _ => rfl)
      refine ⟨.mapping [(key, node)], ?_, ?_, ?_⟩
      · simp only [setNode, hset]
      · simp [nodeAt, List.lookup, hat]
      · intro q hq
        cases q with
        | nil => rfl
        | cons k qs =>
          by_cases hk : k = key
          · subst hk
            have hqs : ¬ rest <+: qs := fun h => hq ((List.cons_prefix_cons).mpr ⟨rfl, h⟩)
            have := hframe qs hqs
            simp only [leafAt, nodeAt, List.lookup, beq_self_eq_true] at this ⊢
            exact this
          · have h' : (k == key) = false := by simpa using hk
            simp [leafAt, nodeAt, List.lookup, h']
    | some n =>
      cases n with
      | scalar s =>
        have := hfree [] List.nil_prefix (by simp)
        simp [leafAt, nodeAt] at this
      | mapping entries =>
        have hchild : ∀ pre, pre <+: rest → pre ≠ rest →
            leafAt pre (entries.lookup key) = none := by
          intro pre hpre hne
          have := hfree (key :: pre) ((List.cons_prefix_cons).mpr ⟨rfl, hpre⟩)
            (by simpa using hne)
          cases hl : entries.lookup key with
          | none => rfl
          | some child =>
            simp only [leafAt, nodeAt, hl] at this ⊢
            exact this
        obtain ⟨node, hset, hat, hframe⟩ := ih (entries.lookup key) hchild
        refine ⟨.mapping (setKey key node entries), ?_, ?_, ?_⟩
        · simp only [setNode, hset]
        · simp only [nodeAt, lookup_setKey_same, hat]
        · intro q hq
          cases q with
          | nil => rfl
          | cons k qs =>
            by_cases hk : k = key
            · subst hk
              have hqs : ¬ rest <+: qs := fun h => hq ((List.cons_prefix_cons).mpr ⟨rfl, h⟩)
              have := hframe qs hqs
              simp only [leafAt, nodeAt, lookup_setKey_same]
              cases hl : entries.lookup k with
              | none =>
                rw [hl] at this
                simp only [leafAt] at this
                exact this
              | some child =>
                rw [hl] at this
                simp only [leafAt] at this
                exact this
            · simp only [leafAt, nodeAt, lookup_setKey_other _ _ _ _ hk]

/-- The binder on a node fails with a structural conflict as soon as a proper
prefix of the path holds a scalar. -/
theorem setNode_conflict (v : Scalar) (segments : List String) :
    ∀ (cur : Option ConfigNode) (pre : List String) (s : Scalar),
      pre <+: segments → pre ≠ segments → leafAt pre cur = some s →
      ∃ segment, segment ∈ segments ∧ setNode v segments cur = .error (structuralConflict segment) := by
  induction segments with
  | nil =>
    intro cur pre s hpre hne _
    exact absurd (List.prefix_nil.mp hpre) hne
  | cons key rest ih =>
    intro cur pre s hpre hne hleaf
    cases cur with
    | none => simp [leafAt] at hleaf
    | some n =>
      cases n with
      | scalar s' => exact ⟨key, List.mem_cons_self _ _, rfl⟩
      | mapping entries =>
        cases pre with
        | nil => simp [leafAt, nodeAt] at hleaf
        | cons k pre' =>
          obtain ⟨hk, hpre'⟩ := (List.cons_prefix_cons).mp hpre
          subst hk
          have hne' : pre' ≠ rest := fun h => hne (by rw [h])
          have hleaf' : leafAt pre' (entries.lookup k) = some s := by
            cases hl : entries.lookup k with
            | none => simp [leafAt, nodeAt, hl] at hleaf
            | some child =>
              simp only [leafAt, nodeAt, hl] at hleaf ⊢
              exact hleaf
          obtain ⟨segment, hmem, herr⟩ := ih (entries.lookup k) pre' s hpre' hne' hleaf'
          refine ⟨segment, List.mem_cons_of_mem _ hmem, ?_⟩
          simp only [setNode, herr]

theorem nodeAt_prefix_mapping (pre rest : List String) (hrest : rest ≠ []) :
    ∀ (node x : ConfigNode), nodeAt (pre ++ rest) node = some x →
      ∃ entries, nodeAt pre node = some (.mapping entries) := by
  induction pre with
  | nil =>
    intro node x h
    cases rest with
    | nil => exact absurd rfl hrest
    | cons k ks =>
      cases node with
      | scalar s => simp [nodeAt] at h
      | mapping entries => exact ⟨entries, rfl⟩
  | cons k pre' ih =>
    intro node x h
    cases node with
    | scalar s => simp [nodeAt] at h
    | mapping entries =>
      cases hl : entries.lookup k with
      | none => simp [nodeAt, hl] at h
      | some child =>
        simp only [List.cons_append, nodeAt, hl] at h
        obtain ⟨sub, hsub⟩ := ih child x h
        exact ⟨sub, by simp only [nodeAt, hl, hsub]⟩

theorem splitDotsFrom_ne_nil (cur rest : List Char) : splitDotsFrom cur rest ≠ [] := by
  induction rest generalizing cur with
  | nil => simp [splitDotsFrom]
  | cons c rest ih =>
    by_cases h : c = '.'
    · simp [splitDotsFrom, h]
    · simp only [splitDotsFrom, h, if_false]
      exact ih _

theorem pathSegments_ne_nil (path : String) : pathSegments path ≠ [] :=
  splitDotsFrom_ne_nil [] path.toList

/-- The binder on the config blob, by segments. -/
theorem bindAt_spec (config : CommandConfig) (segments : List String) (v : Scalar)
    (hne : segments ≠ [])
    (hfree : ∀ pre, pre <+: segments → pre ≠ segments →
      leafAt pre (some (.mapping config)) = none) :
    ∃ config', bindAt config segments v = .ok config'
      ∧ leafAt segments (some (.mapping config')) = some v
      ∧ (∀ pre, pre <+: segments → pre ≠ segments →
          ∃ entries, nodeAt pre (.mapping config') = some (.mapping entries))
      ∧ ∀ q, ¬ segments <+: q →
          leafAt q (some (.mapping config')) = leafAt q (some (.mapping config)) := by
  obtain ⟨node, hset, hat, hframe⟩ := setNode_spec v segments (some (.mapping config)) hfree
  cases node with
  | scalar s =>
    cases segments with
    | nil => exact absurd rfl hne
    | cons k ks => simp [setNode] at hset; split at hset <;> cases hset
  | mapping entries =>
    refine ⟨entries, by simp only [bindAt, hset], by simp only [leafAt, hat], ?_, hframe⟩
    intro pre hpre hneq
    obtain ⟨rest, hrest⟩ := hpre
    have hr : rest ≠ [] := by
      intro h
      apply hneq
      rw [← hrest, h, List.append_nil]
    rw [← hrest] at hat
    exact nodeAt_prefix_mapping pre rest hr _ _ hat

theorem bindAt_conflict (config : CommandConfig) (segments pre : List String) (v s : Scalar)
    (hpre : pre <+: segments) (hne : pre ≠ segments)
    (hleaf : leafAt pre (some (.mapping config)) = some s) :
    ∃ segment, segment ∈ segments
      ∧ bindAt config segments v = .error (structuralConflict segment) := by
  obtain ⟨segment, hmem, herr⟩ :=
    setNode_conflict v segments (some (.mapping config)) pre s hpre hne hleaf
  exact ⟨segment, hmem, by simp only [bindAt, herr]⟩

theorem flagsValidateRequired_none (supplied requiredFlags : List String)
    (h : ∀ r ∈ requiredFlags, r ∈ supplied) :
    flagsValidateRequired supplied requiredFlags = none := by
  unfold flagsValidateRequired
  have hnil : requiredFlags.filter (fun name => !supplied.contains name) = [] := by
    rw [List.filter_eq_nil_iff]
    intro r hr
    simpa using h r hr
  rw [hnil]

theorem leafAt_empty (pre : List String) : leafAt pre (some (.mapping [])) = none := by
  cases pre with
  | nil => rfl
  | cons k ks => simp [leafAt, nodeAt, List.lookup]

/-- A path that runs on below a path holding no mapping holds no leaf. -/
theorem leafAt_below_none (segments rest : List String) (hrest : rest ≠ [])
    (node : ConfigNode)
    (h : ∀ entries, nodeAt segments node ≠ some (.mapping entries)) :
    leafAt (segments ++ rest) (some node) = none := by
  cases hat : nodeAt (segments ++ rest) node with
  | none => simp only [leafAt, hat]
  | some x =>
    obtain ⟨entries, he⟩ := nodeAt_prefix_mapping segments rest hrest node x hat
    exact absurd he (h entries)

/-! ## The config path binder (C21) -/

/-- C21, the claim as stated, fails: in the blob `a: b: 1` no proper prefix of
the path `a` holds a scalar, and `a.b` is a leaf that is not at `a`; binding
`V` at `a` gives the blob `a: V`, in which `a.b` holds nothing. No binder can
do otherwise: a blob in which `a` holds a scalar has no leaf at `a.b`. -/
theorem leaf_below_bound_path_counterexample :
    (∀ pre, pre <+: pathSegments "a" → pre ≠ pathSegments "a" →
        leafAt pre (some (.mapping nestedBlob)) = none)
    ∧ CommandConfig.leaf nestedBlob "a.b" = some (.int 1)
    ∧ bindAt nestedBlob (pathSegments "a") (.str "V") = .ok [("a", .scalar (.str "V"))]
    ∧ CommandConfig.leaf [("a", .scalar (.str "V"))] "a" = some (.str "V")
    ∧ CommandConfig.leaf [("a", .scalar (.str "V"))] "a.b" = none
    ∧ (∀ (config' : CommandConfig) (v : Scalar),
        CommandConfig.leaf config' "a" = some v → CommandConfig.leaf config' "a.b" = none) := by
  have ha : pathSegments "a" = ["a"] := by decide
  have hab : pathSegments "a.b" = ["a"] ++ ["b"] := by decide
  refine ⟨?_, rfl, rfl, rfl, rfl, ?_⟩
  · intro pre hpre hne
    rw [ha] at hpre hne
    match pre, hpre, hne with
    | [], _, _ => rfl
    | [x], h, hne =>
      obtain ⟨hx, -⟩ := (List.cons_prefix_cons).mp h
      subst hx
      exact absurd rfl hne
    | x :: y :: rest, h, _ =>
      have := h.length_le
      simp at this
  · intro config' v hleaf
    rw [CommandConfig.leaf, hab]
    apply leafAt_below_none _ _ (by simp)
    intro entries he
    rw [CommandConfig.leaf, ha, leafAt] at hleaf
    simp only [he] at hleaf
    cases hleaf

/-- C21 (amended): binding a scalar at a dotted path into a config blob in
which no proper prefix of the path holds a scalar and the path itself holds no
mapping succeeds; in the new blob the path holds the scalar, every proper
prefix of the path is a mapping, and at every other path the blob holds the
same leaf as before, or none as before; `parameters.Set` on a typed value that
holds the scalar and is bound to the path gives that blob, and so does the
execution gate once the required flags are supplied. Binding below a prefix
that holds a scalar fails with a structural-conflict error and the gate ends
the run. -/
theorem config_path_binder (config : CommandConfig) (p : String) (v : Scalar) :
    ((∀ pre, pre <+: pathSegments p → pre ≠ pathSegments p →
          leafAt pre (some (.mapping config)) = none) →
      (∀ entries, nodeAt (pathSegments p) (.mapping config) ≠ some (.mapping entries)) →
        ∃ config', bindAt config (pathSegments p) v = .ok config'
          ∧ CommandConfig.leaf config' p = some v
          ∧ (∀ pre, pre <+: pathSegments p → pre ≠ pathSegments p →
              ∃ entries, nodeAt pre (.mapping config') = some (.mapping entries))
          ∧ (∀ q, q ≠ pathSegments p →
              leafAt q (some (.mapping config')) = leafAt q (some (.mapping config)))
          ∧ ∀ value : Value, value.GetValue = .ok (some v) → value.GetPath = p →
              parametersSet config [value] = .ok (config', none)
              ∧ ∀ supplied requiredFlags, (∀ r ∈ requiredFlags, r ∈ supplied) →
                  PreRunGate.run parametersSet supplied ⟨requiredFlags, config, [value]⟩
                    = .passed config')
    ∧ ((∃ pre s, pre <+: pathSegments p ∧ pre ≠ pathSegments p
          ∧ leafAt pre (some (.mapping config)) = some s) →
        ∃ segment, segment ∈ pathSegments p
          ∧ bindAt config (pathSegments p) v = .error (structuralConflict segment)
          ∧ ∀ value : Value, value.GetValue = .ok (some v) → value.GetPath = p →
              ∀ supplied requiredFlags, (∀ r ∈ requiredFlags, r ∈ supplied) →
                  PreRunGate.run parametersSet supplied ⟨requiredFlags, config, [value]⟩
                    = .exited (pkgerrorsWrapf (structuralConflict segment)
                        ("failed to set value for path " ++ p))) := by
  constructor
  · intro hfree hnomap
    obtain ⟨config', hbind, hleaf, hmid, hframe⟩ :=
      bindAt_spec config (pathSegments p) v (pathSegments_ne_nil p) hfree
    have hfull : ∀ q, q ≠ pathSegments p →
        leafAt q (some (.mapping config')) = leafAt q (some (.mapping config)) := by
      intro q hq
      by_cases hpre : pathSegments p <+: q
      · obtain ⟨rest, hrest⟩ := hpre
        have hr : rest ≠ [] := by
          intro h
          apply hq
          rw [← hrest, h, List.append_nil]
        rw [← hrest, leafAt_below_none _ _ hr _ hnomap]
        apply leafAt_below_none _ _ hr
        intro entries he
        rw [leafAt] at hleaf
        simp only [he] at hleaf
        cases hleaf
      · exact hframe q hpre
    refine ⟨config', hbind, hleaf, hmid, hfull, ?_⟩
    intro value hget hpath
    have hset : parametersSet config [value] = .ok (config', none) := by
      simp only [parametersSet, hget, hpath, hbind]
    refine ⟨hset, ?_⟩
    intro supplied requiredFlags hall
    simp only [PreRunGate.run, flagsValidateRequired_none supplied requiredFlags hall, hset]
  · rintro ⟨pre, s, hpre, hne, hleaf⟩
    obtain ⟨segment, hmem, herr⟩ :=
      bindAt_conflict config (pathSegments p) pre v s hpre hne hleaf
    refine ⟨segment, hmem, herr, ?_⟩
    intro value hget hpath supplied requiredFlags hall
    have hset : parametersSet config [value]
        = .ok (config, some (pkgerrorsWrapf (structuralConflict segment)
            ("failed to set value for path " ++ p))) := by
      simp only [parametersSet, hget, hpath, herr]
    simp only [PreRunGate.run, flagsValidateRequired_none supplied requiredFlags hall, hset]

/-- Witness of C21: binding at `a.b.c` into the empty blob gives
`a: b: c: V`; a later bind at `a.b.d` keeps `c`; binding at `a.b.c.x` then
fails; and the gate of `greet --name Ada` passes the blob `spec: name: Ada`. -/
theorem config_path_binder_witness :
    bindAt [] (pathSegments "a.b.c") (.str "V")
        = .ok [("a", .mapping [("b", .mapping [("c", .scalar (.str "V"))])])]
    ∧ (∃ config', bindAt [("a", .mapping [("b", .mapping [("c", .scalar (.str "V"))])])]
            (pathSegments "a.b.d") (.int 2) = .ok config'
        ∧ CommandConfig.leaf config' "a.b.d" = some (.int 2)
        ∧ CommandConfig.leaf config' "a.b.c" = some (.str "V"))
    ∧ (∃ segment, bindAt [("a", .mapping [("b", .mapping [("c", .scalar (.str "V"))])])]
            (pathSegments "a.b.c.x") (.int 2) = .error (structuralConflict segment))
    ∧ greetGate.run parametersSet ["name"]
        = .passed [("spec", .mapping [("name", .scalar (.str "Ada"))])] := by
  refine ⟨rfl, ?_, ?_, ?_⟩
  · obtain ⟨config', hbind, hleaf, -, hframe, -⟩ :=
      (config_path_binder [("a", .mapping [("b", .mapping [("c", .scalar (.str "V"))])])]
        "a.b.d" (.int 2)).1 (by
          intro pre hpre hne
          have hseg : pathSegments "a.b.d" = ["a", "b", "d"] := by decide
          rw [hseg] at hpre hne
          match pre, hpre, hne with
          | [], _, _ => rfl
          | [x], h, _ =>
            obtain ⟨hx, -⟩ := (List.cons_prefix_cons).mp h
            subst hx
            rfl
          | [x, y], h, _ =>
            obtain ⟨hx, h2⟩ := (List.cons_prefix_cons).mp h
            obtain ⟨hy, -⟩ := (List.cons_prefix_cons).mp h2
            subst hx hy
            rfl
          | [x, y, z], h, hne =>
            obtain ⟨hx, h2⟩ := (List.cons_prefix_cons).mp h
            obtain ⟨hy, h3⟩ := (List.cons_prefix_cons).mp h2
            obtain ⟨hz, -⟩ := (List.cons_prefix_cons).mp h3
            subst hx hy hz
            exact absurd rfl hne
          | x :: y :: z :: w :: rest, h, _ =>
            have := h.length_le
            simp at this) (by
          intro entries he
          have hnone : nodeAt (pathSegments "a.b.d")
              (.mapping [("a", .mapping [("b", .mapping [("c", .scalar (.str "V"))])])])
              = none := rfl
          rw [hnone] at he
          cases he)
    refine ⟨config', hbind, hleaf, ?_⟩
    have hc := hframe ["a", "b", "c"] (by decide)
    have hseg : pathSegments "a.b.c" = ["a", "b", "c"] := by decide
    rw [CommandConfig.leaf, hseg, hc]
    rfl
  · obtain ⟨segment, -, herr, -⟩ :=
      (config_path_binder [("a", .mapping [("b", .mapping [("c", .scalar (.str "V"))])])]
        "a.b.c.x" (.int 2)).2 ⟨["a", "b", "c"], .str "V", by decide, by decide, rfl⟩
    exact ⟨segment, herr⟩
  · obtain ⟨config', hbind, -, -, -, hvalue⟩ :=
      (config_path_binder [] "spec.name" (.str "Ada")).1 (fun pre _ _ => leafAt_empty pre)
        (by
          intro entries he
          have hnone : nodeAt (pathSegments "spec.name") (.mapping []) = none := rfl
          rw [hnone] at he
          cases he)
    have hrun := (hvalue adaValue rfl rfl).2 ["name"] ["name"] (by simp)
    have hb : bindAt [] (pathSegments "spec.name") (.str "Ada")
        = .ok [("spec", .mapping [("name", .scalar (.str "Ada"))])] := rfl
    rw [hb] at hbind
    cases hbind
    exact hrun

/-! ## Lemmas on the delete commands -/

theorem complete_spec (args : List String) :
    ∀ c : moduleCmd.deleteConfig,
      (c.complete args).modules = c.modules ++ args.filter (fun a => !stringsContains a "/")
      ∧ (c.complete args).modulePaths
          = c.modulePaths ++ args.filter (fun a => stringsContains a "/")
      ∧ (c.complete args).autoApprove = c.autoApprove
      ∧ (c.complete args).community = c.community := by
  induction args with
  | nil => intro c; simp [moduleCmd.deleteConfig.complete]
  | cons arg rest ih =>
    intro c
    by_cases h : stringsContains arg "/" = true
    · obtain ⟨h1, h2, h3, h4⟩ := ih { c with modulePaths := c.modulePaths ++ [arg] }
      simp only [moduleCmd.deleteConfig.complete, h, if_true]
      refine ⟨?_, ?_, h3, h4⟩
      · rw [h1]; simp [List.filter_cons, h]
      · rw [h2]; simp [List.filter_cons, h]
    · have h' : stringsContains arg "/" = false := by simpa using h
      obtain ⟨h1, h2, h3, h4⟩ := ih { c with modules := c.modules ++ [arg] }
      simp only [moduleCmd.deleteConfig.complete, h', Bool.false_eq_true, if_false]
      refine ⟨?_, ?_, h3, h4⟩
      · rw [h1]; simp [List.filter_cons, h']
      · rw [h2]; simp [List.filter_cons, h']

/-- The events of the items still to do in one loop: each item, an empty line
after every item but the last, and one after the last when more follows. -/
theorem coreLoop_events (disableModule : String → Option GoError) (total paths : Nat) :
    ∀ (rest : List String) (i : Nat) (events : List moduleCmd.DeleteEvent),
      i + rest.length = total → (∀ m ∈ rest, disableModule m = none) →
      moduleCmd.coreLoop disableModule total paths rest i events
        = (events ++ (rest.map moduleCmd.DeleteEvent.coreModule).intersperse .emptyLine
            ++ (if rest ≠ [] ∧ paths > 0 then [.emptyLine] else []), none) := by
  intro rest
  induction rest with
  | nil => intro i events _ _; simp [moduleCmd.coreLoop]
  | cons m rest ih =>
    intro i events hlen hok
    have hm : disableModule m = none := hok m (List.mem_cons_self _ _)
    have hrest : ∀ x ∈ rest, disableModule x = none :=
      fun x hx => hok x (List.mem_cons_of_mem _ hx)
    have hlen' : (i + 1) + rest.length = total := by
      simp only [List.length_cons] at hlen; omega
    simp only [moduleCmd.coreLoop, hm]
    cases rest with
    | nil =>
      simp only [List.length_cons, List.length_nil] at hlen
      have hi : ¬ ((i : Int) < (total : Int) - 1) := by omega
      by_cases hp : paths > 0
      · simp [hi, hp, moduleCmd.coreLoop]
      · simp [hi, hp, moduleCmd.coreLoop]
    | cons m2 rest2 =>
      simp only [List.length_cons] at hlen
      have hi : (i : Int) < (total : Int) - 1 := by omega
      simp only [hi, true_or, if_true]
      rw [ih (i + 1) _ hlen' hrest]
      simp

theorem communityLoop_events (uninstall : String → Option GoError) (total : Nat) :
    ∀ (rest : List String) (i : Nat) (events : List moduleCmd.DeleteEvent),
      i + rest.length = total → (∀ m ∈ rest, uninstall m = none) →
      moduleCmd.communityLoop uninstall total rest i events
        = (events ++ (rest.map moduleCmd.DeleteEvent.communityModule).intersperse .emptyLine,
            none) := by
  intro rest
  induction rest with
  | nil => intro i events _ _; simp [moduleCmd.communityLoop]
  | cons m rest ih =>
    intro i events hlen hok
    have hm : uninstall m = none := hok m (List.mem_cons_self _ _)
    have hrest : ∀ x ∈ rest, uninstall x = none :=
      fun x hx => hok x (List.mem_cons_of_mem _ hx)
    have hlen' : (i + 1) + rest.length = total := by
      simp only [List.length_cons] at hlen; omega
    simp only [moduleCmd.communityLoop, hm]
    cases rest with
    | nil =>
      simp only [List.length_cons, List.length_nil] at hlen
      have hi : ¬ ((i : Int) < (total : Int) - 1) := by omega
      simp [hi, moduleCmd.communityLoop]
    | cons m2 rest2 =>
      simp only [List.length_cons] at hlen
      have hi : (i : Int) < (total : Int) - 1 := by omega
      simp only [hi, if_true]
      rw [ih (i + 1) _ hlen' hrest]
      simp

theorem intersperse_append_ne_nil {α : Type} (sep : α) (xs ys : List α)
    (hx : xs ≠ []) (hy : ys ≠ []) :
    (xs ++ ys).intersperse sep = xs.intersperse sep ++ sep :: ys.intersperse sep := by
  induction xs with
  | nil => exact absurd rfl hx
  | cons x rest ih =>
    cases rest with
    | nil =>
      cases ys with
      | nil => exact absurd rfl hy
      | cons y ys' => simp [List.intersperse]
    | cons x2 rest2 =>
      have := ih (by simp)
      simp only [List.cons_append] at this ⊢
      simp only [List.intersperse, List.cons_append, this]

theorem count_emptyLine_intersperse (items : List moduleCmd.DeleteEvent)
    (h : ∀ e ∈ items, e ≠ .emptyLine) :
    (items.intersperse moduleCmd.DeleteEvent.emptyLine).count .emptyLine = items.length - 1 := by
  induction items with
  | nil => rfl
  | cons x rest ih =>
    have hx : x ≠ .emptyLine := h x (List.mem_cons_self _ _)
    have hrest := ih (fun e he => h e (List.mem_cons_of_mem _ he))
    cases rest with
    | nil => simp [List.intersperse, List.count_cons, hx]
    | cons y rest2 =>
      simp only [List.intersperse, List.count_cons, List.length_cons] at hrest ⊢
      have hx' : (x == moduleCmd.DeleteEvent.emptyLine) = false := by simpa using hx
      simp only [hx', Bool.false_eq_true, if_false, beq_self_eq_true, if_true, hrest]
      omega

theorem filter_partition_length (p : String → Bool) (l : List String) :
    (l.filter (fun a => !p a)).length + (l.filter p).length = l.length := by
  induction l with
  | nil => rfl
  | cons a rest ih =>
    cases h : p a <;> simp [List.filter_cons, h] <;> omega

theorem getLast_intersperse_eq {α : Type} (sep : α) (l : List α) :
    (l.intersperse sep).getLast? = l.getLast? := by
  induction l with
  | nil => rfl
  | cons a rest ih =>
    cases rest with
    | nil => rfl
    | cons b rest2 =>
      rw [List.getLast?_cons_cons, ← ih]
      cases rest2 with
      | nil => rfl
      | cons c rest3 => rfl

theorem ne_of_first_char (a b : String) (h : a.data.head? ≠ b.data.head?) : a ≠ b :=
  fun hab => h (by rw [hab])

/-! ## The two switches read from the argument vector (C23, C24) -/

/-- C23 (code bug): `getBoolFlagValue` should return the value the user passed.
It does so for a bare flag, for a flag that is absent, for `flag V` with any
boolean text `V`, and for `flag=true` and `flag=false`; but in the form
`flag=V` it only looks for the substring `false`, so `flag=0`, `flag=f`,
`flag=F`, `flag=False` and `flag=FALSE`, which all denote false, read as true. -/
theorem getBoolFlagValue_misreads_equals_form :
    strconvParseBool "0" = some false
    ∧ getBoolFlagValue ["kyma", "alpha", "--skip-extensions=0"] "--skip-extensions" = true
    ∧ strconvParseBool "f" = some false
    ∧ getBoolFlagValue ["kyma", "alpha", "--skip-extensions=f"] "--skip-extensions" = true
    ∧ strconvParseBool "False" = some false
    ∧ getBoolFlagValue ["kyma", "alpha", "--skip-extensions=False"] "--skip-extensions" = true
    ∧ getBoolFlagValue ["kyma", "alpha", "--skip-extensions=F"] "--skip-extensions" = true
    ∧ getBoolFlagValue ["kyma", "alpha", "--skip-extensions=FALSE"] "--skip-extensions" = true
    ∧ getBoolFlagValue ["kyma", "alpha", "--skip-extensions=false"] "--skip-extensions" = false
    ∧ getBoolFlagValue ["kyma", "alpha", "--skip-extensions=true"] "--skip-extensions" = true
    ∧ getBoolFlagValue ["kyma", "alpha", "--skip-extensions", "0"] "--skip-extensions" = false
    ∧ getBoolFlagValue ["kyma", "alpha", "--skip-extensions", "False"] "--skip-extensions" = false
    ∧ getBoolFlagValue ["kyma", "alpha", "--skip-extensions", "T"] "--skip-extensions" = true
    ∧ getBoolFlagValue ["kyma", "alpha", "--skip-extensions"] "--skip-extensions" = true
    ∧ getBoolFlagValue ["kyma", "alpha"] "--skip-extensions" = false := by
  decide

/-- C24 (code bug): `isSubRootCommandUsed` should look at the second element of
the argument vector only, as its comment says. It returns true as soon as one
of the words occurs anywhere in the vector: with `help` as the value of a
flag of `kyma alpha hana` it returns true, although the second element is
`alpha`. -/
theorem isSubRootCommandUsed_looks_everywhere :
    (∀ osArgs args : List String,
        isSubRootCommandUsed osArgs args = true ↔ ∃ a ∈ args, a ∈ osArgs)
    ∧ ["kyma", "alpha", "hana", "--name", "help"].get? 1 = some "alpha"
    ∧ isSubRootCommandUsed ["kyma", "alpha", "hana", "--name", "help"]
        ["help", "completion", "version"] = true
    ∧ isSubRootCommandUsed ["kyma", "version"] ["help", "completion", "version"] = true
    ∧ isSubRootCommandUsed ["kyma", "alpha", "hana"] ["help", "completion", "version"]
        = false := by
  refine ⟨?_, by decide, by decide, by decide, by decide⟩
  intro osArgs args
  simp [isSubRootCommandUsed, List.any_eq_true]

/-! ## Deleting modules and Hana instances (C25 to C27) -/

/-- C25: `complete` applied to a config with no modules and no module paths
puts the arguments that contain `/` into `modulePaths` and the others into
`modules`, each in the order of the arguments, touching nothing else; every
argument lands in exactly one of the two lists, and the two lengths add up to
the number of arguments. -/
theorem complete_partitions_arguments (c : moduleCmd.deleteConfig) (args : List String) :
    (({ c with modules := [], modulePaths := [] } : moduleCmd.deleteConfig).complete
        args).modulePaths = args.filter (fun a => stringsContains a "/")
    ∧ (({ c with modules := [], modulePaths := [] } : moduleCmd.deleteConfig).complete
        args).modules = args.filter (fun a => !stringsContains a "/")
    ∧ (({ c with modules := [], modulePaths := [] } : moduleCmd.deleteConfig).complete
        args).modules.length
      + (({ c with modules := [], modulePaths := [] } : moduleCmd.deleteConfig).complete
        args).modulePaths.length = args.length
    ∧ (∀ a ∈ args,
        (a ∈ (({ c with modules := [], modulePaths := [] } : moduleCmd.deleteConfig).complete
              args).modulePaths
          ∧ a ∉ (({ c with modules := [], modulePaths := [] } : moduleCmd.deleteConfig).complete
              args).modules)
        ∨ (a ∈ (({ c with modules := [], modulePaths := [] } : moduleCmd.deleteConfig).complete
              args).modules
          ∧ a ∉ (({ c with modules := [], modulePaths := [] } : moduleCmd.deleteConfig).complete
              args).modulePaths))
    ∧ (({ c with modules := [], modulePaths := [] } : moduleCmd.deleteConfig).complete
        args).autoApprove = c.autoApprove := by
  obtain ⟨h1, h2, h3, -⟩ :=
    complete_spec args ({ c with modules := [], modulePaths := [] } : moduleCmd.deleteConfig)
  simp only [List.nil_append] at h1 h2
  refine ⟨h2, h1, ?_, ?_, h3⟩
  · rw [h1, h2]
    exact filter_partition_length (fun a => stringsContains a "/") args
  · intro a ha
    rw [h1, h2]
    by_cases h : stringsContains a "/" = true
    · left
      simp [List.mem_filter, ha, h]
    · have h' : stringsContains a "/" = false := by simpa using h
      right
      simp [List.mem_filter, ha, h']

/-- Witness of C25: of three arguments the one with a `/` becomes a module
path and the two others modules, in their order. -/
theorem complete_partitions_arguments_witness :
    (({ moduleCmd.sampleDelete with modules := [], modulePaths := [] }
        : moduleCmd.deleteConfig).complete
        ["serverless", "default/cluster-ip", "istio"]).modulePaths = ["default/cluster-ip"]
    ∧ (({ moduleCmd.sampleDelete with modules := [], modulePaths := [] }
        : moduleCmd.deleteConfig).complete
        ["serverless", "default/cluster-ip", "istio"]).modules = ["serverless", "istio"] :=
  have h := complete_partitions_arguments moduleCmd.sampleDelete
    ["serverless", "default/cluster-ip", "istio"]
  ⟨h.1.trans (by decide), h.2.1.trans (by decide)⟩

/-- C26, the claim as stated, fails: when the cluster client cannot be obtained,
`runDelete` returns that error before the first deletion: with two core
modules and two module paths and deletion routines that never fail, nothing is
deleted and no empty line is printed, not the three lines the claim counts. -/
theorem runDelete_without_client_counterexample :
    moduleCmd.offlineDelete.modules.length + moduleCmd.offlineDelete.modulePaths.length = 4
    ∧ moduleCmd.runDelete moduleCmd.alwaysDeleted moduleCmd.alwaysDeleted
        moduleCmd.offlineDelete = ([], some (.errorString "no kubeconfig"))
    ∧ (moduleCmd.runDelete moduleCmd.alwaysDeleted moduleCmd.alwaysDeleted
        moduleCmd.offlineDelete).1.count .emptyLine = 0 := by
  refine ⟨rfl, rfl, rfl⟩

/-- C26 (amended): in a run of `runDelete` in which the cluster client is
obtained and no deletion returns an error, the events are the core modules, in
order, followed by the community modules, in order, with one empty line
between each two consecutive deletions and none after the last; with `m` core
modules and `p` module paths, `m + p ≥ 1`, that makes `m + p - 1` empty lines. -/
theorem runDelete_separator_lines
    (disableModule uninstallCommunityModule : String → Option GoError)
    (cfg : moduleCmd.deleteConfig) (client : KubeClient)
    (hclient : cfg.GetKubeClientWithClierr = .ok client)
    (hcore : ∀ m ∈ cfg.modules, disableModule m = none)
    (hcommunity : ∀ p ∈ cfg.modulePaths, uninstallCommunityModule p = none)
    (hsome : cfg.modules.length + cfg.modulePaths.length ≥ 1) :
    moduleCmd.runDelete disableModule uninstallCommunityModule cfg
        = ((cfg.modules.map moduleCmd.DeleteEvent.coreModule
              ++ cfg.modulePaths.map moduleCmd.DeleteEvent.communityModule).intersperse
            .emptyLine, none)
    ∧ ((moduleCmd.runDelete disableModule uninstallCommunityModule cfg).1.count .emptyLine : Int)
        = (cfg.modules.length : Int) + (cfg.modulePaths.length : Int) - 1
    ∧ (moduleCmd.runDelete disableModule uninstallCommunityModule cfg).1.getLast?
        ≠ some .emptyLine := by
  have hrun : moduleCmd.runDelete disableModule uninstallCommunityModule cfg
      = ((cfg.modules.map moduleCmd.DeleteEvent.coreModule
            ++ cfg.modulePaths.map moduleCmd.DeleteEvent.communityModule).intersperse
          .emptyLine, none) := by
    unfold moduleCmd.runDelete
    rw [hclient]
    simp only
    rw [coreLoop_events disableModule _ _ cfg.modules 0 [] (by simp) hcore]
    simp only
    rw [communityLoop_events uninstallCommunityModule _ cfg.modulePaths 0 _ (by simp) hcommunity]
    by_cases hm : cfg.modules = []
    · simp [hm]
    · by_cases hp : cfg.modulePaths = []
      · simp [hp]
      · have hp' : cfg.modulePaths.length > 0 := List.length_pos.mpr hp
        rw [intersperse_append_ne_nil _ _ _ (by simpa using hm) (by simpa using hp)]
        simp [hm, hp']
  have hitems : ∀ e ∈ cfg.modules.map moduleCmd.DeleteEvent.coreModule
      ++ cfg.modulePaths.map moduleCmd.DeleteEvent.communityModule,
      e ≠ moduleCmd.DeleteEvent.emptyLine := by
    intro e he
    rcases List.mem_append.mp he with h | h
    · obtain ⟨x, -, rfl⟩ := List.mem_map.mp h
      exact fun h => by cases h
    · obtain ⟨x, -, rfl⟩ := List.mem_map.mp h
      exact fun h => by cases h
  refine ⟨hrun, ?_, ?_⟩
  · rw [hrun]
    simp only
    rw [count_emptyLine_intersperse _ hitems]
    simp only [List.length_append, List.length_map]
    omega
  · rw [hrun]
    simp only
    rw [getLast_intersperse_eq]
    intro hlast
    exact hitems _ (List.mem_of_getLast?_eq_some hlast) rfl

/-- Witness of C26 on a config with two core modules and two module paths. -/
theorem runDelete_separator_lines_witness :
    moduleCmd.runDelete moduleCmd.alwaysDeleted moduleCmd.alwaysDeleted moduleCmd.sampleDelete
        = ([.coreModule "serverless", .emptyLine, .coreModule "istio", .emptyLine,
            .communityModule "default/cluster-ip", .emptyLine,
            .communityModule "kyma-system/docker-registry"], none)
    ∧ ((moduleCmd.runDelete moduleCmd.alwaysDeleted moduleCmd.alwaysDeleted
          moduleCmd.sampleDelete).1.count .emptyLine : Int) = 2 + 2 - 1 :=
  have h := runDelete_separator_lines moduleCmd.alwaysDeleted moduleCmd.alwaysDeleted
    moduleCmd.sampleDelete _ rfl (fun _ _ => rfl) (fun _ _ => rfl) (by decide)
  ⟨h.1, h.2.1⟩

/-- C27: `handleDeleteResponse` returns nil exactly when the delete error is
nil or a not-found error, and otherwise the error wrapped with the message
`failed to delete Hana resource.`. So `runDelete` on a Hana whose binding, URL
binding and instance are all absent returns nil after three delete calls, and
it stops at the first resource whose deletion fails with another error: the
wrapped error is returned and no later delete call is made. -/
theorem hana_delete_idempotent_and_stops (c : hana.Collaborators)
    (config : hana.hanaDeleteConfig) :
    (∀ (err : Option GoError) (printedName namespace_ name : String),
        (hana.handleDeleteResponse c err printedName namespace_ name).2 = none
          ↔ (err = none ∨ ∃ e, err = some e ∧ c.IsNotFound e = true))
    ∧ (∀ (e : GoError) (printedName namespace_ name : String), c.IsNotFound e = false →
        hana.handleDeleteResponse c (some e) printedName namespace_ name
          = ([], some (c.Wrap e "failed to delete Hana resource.")))
    ∧ ((∃ e, config.Delete .ServiceBinding config.namespace_ config.name = some e
            ∧ c.IsNotFound e = true) →
        (∃ e, config.Delete .ServiceBinding config.namespace_
              (c.hanaBindingUrlName config.name) = some e ∧ c.IsNotFound e = true) →
        (∃ e, config.Delete .ServiceInstance config.namespace_ config.name = some e
            ∧ c.IsNotFound e = true) →
        (hana.runDelete c config).2 = none
        ∧ (hana.runDelete c config).1.getLast? = some (.printed "Operation completed.\n")
        ∧ ((hana.runDelete c config).1.filter
            (fun ev => match ev with | .deleteCall _ _ _ => true | _ => false))
          = [.deleteCall .ServiceBinding config.namespace_ config.name,
             .deleteCall .ServiceBinding config.namespace_ (c.hanaBindingUrlName config.name),
             .deleteCall .ServiceInstance config.namespace_ config.name])
    ∧ (∀ e, config.Delete .ServiceBinding config.namespace_ config.name = some e →
        c.IsNotFound e = false →
        hana.runDelete c config
          = ([.printed ("Deleting Hana (" ++ config.namespace_ ++ "/" ++ config.name ++ ").\n"),
              .deleteCall .ServiceBinding config.namespace_ config.name],
             some (c.Wrap e "failed to delete Hana resource.")))
    ∧ (∀ e, (hana.deleteHanaBinding c config).2 = none →
        config.Delete .ServiceBinding config.namespace_ (c.hanaBindingUrlName config.name)
          = some e →
        c.IsNotFound e = false →
        (hana.runDelete c config).2 = some (c.Wrap e "failed to delete Hana resource.")
        ∧ hana.Event.deleteCall .ServiceInstance config.namespace_ config.name
            ∉ (hana.runDelete c config).1
        ∧ hana.Event.printed "Operation completed.\n" ∉ (hana.runDelete c config).1)
    ∧ (∀ e, (hana.deleteHanaBinding c config).2 = none →
        (hana.deleteHanaBindingUrl c config).2 = none →
        config.Delete .ServiceInstance config.namespace_ config.name = some e →
        c.IsNotFound e = false →
        (hana.runDelete c config).2 = some (c.Wrap e "failed to delete Hana resource.")
        ∧ hana.Event.printed "Operation completed.\n" ∉ (hana.runDelete c config).1) := by
  have hnil : ∀ (printedName namespace_ name : String),
      hana.handleDeleteResponse c none printedName namespace_ name
        = ([.printed ("Deleted " ++ printedName ++ " (" ++ namespace_ ++ "/" ++ name
            ++ ").\n")], none) := fun _ _ _ => rfl
  have hfound : ∀ (e : GoError) (printedName namespace_ name : String),
      c.IsNotFound e = true →
      hana.handleDeleteResponse c (some e) printedName namespace_ name
        = ([.printed (printedName ++ " (" ++ namespace_ ++ "/" ++ name ++ ") not found.\n")],
            none) := by
    intro e printedName namespace_ name h
    simp [hana.handleDeleteResponse, h]
  have hother : ∀ (e : GoError) (printedName namespace_ name : String),
      c.IsNotFound e = false →
      hana.handleDeleteResponse c (some e) printedName namespace_ name
        = ([], some (c.Wrap e "failed to delete Hana resource.")) := by
    intro e printedName namespace_ name h
    simp [hana.handleDeleteResponse, h]
  have hshape : ∀ (err : Option GoError) (printedName namespace_ name : String),
      (∀ x, "Operation completed.\n" ≠ printedName ++ x) →
      (hana.handleDeleteResponse c err printedName namespace_ name).2 = none →
      ∃ line, hana.handleDeleteResponse c err printedName namespace_ name
        = ([.printed line], none) ∧ "Operation completed.\n" ≠ line := by
    intro err printedName namespace_ name hp h
    cases err with
    | none =>
      refine ⟨_, hnil _ _ _, ?_⟩
      apply ne_of_first_char
      simp [String.data_append]
    | some e =>
      cases hf : c.IsNotFound e with
      | true =>
        refine ⟨_, hfound e _ _ _ hf, ?_⟩
        simp only [String.append_assoc]
        exact hp _
      | false => rw [hother e _ _ _ hf] at h; cases h
  have hstart : ∀ x, "Operation completed.\n" ≠ "Deleting Hana (" ++ x := by
    intro x
    apply ne_of_first_char
    simp [String.data_append]
  have hbinding : ∀ x, "Operation completed.\n" ≠ "Hana binding" ++ x := by
    intro x
    apply ne_of_first_char
    simp [String.data_append]
  have hurl : ∀ x, "Operation completed.\n" ≠ "Hana URL binding" ++ x := by
    intro x
    apply ne_of_first_char
    simp [String.data_append]
  refine ⟨?_, hother, ?_, ?_, ?_, ?_⟩
  · intro err printedName namespace_ name
    cases err with
    | none => simp [hnil]
    | some e =>
      cases hf : c.IsNotFound e with
      | true => simp [hfound e _ _ _ hf, hf]
      | false => simp [hother e _ _ _ hf, hf]
  · rintro ⟨e1, h1, f1⟩ ⟨e2, h2, f2⟩ ⟨e3, h3, f3⟩
    simp [hana.runDelete, hana.deleteCommands, hana.runCommands, hana.deleteHanaBinding,
      hana.deleteHanaBindingUrl, hana.deleteHanaInstance, h1, h2, h3, hfound _ _ _ _ f1,
      hfound _ _ _ _ f2, hfound _ _ _ _ f3, List.filter_cons]
  · intro e h1 f1
    simp [hana.runDelete, hana.deleteCommands, hana.runCommands, hana.deleteHanaBinding, h1,
      hother _ _ _ _ f1]
  · intro e hb h2 f2
    obtain ⟨line, hline, hne⟩ :=
      hshape _ _ _ _ hbinding (by simpa [hana.deleteHanaBinding] using hb)
    have hs := hstart (config.namespace_ ++ "/" ++ config.name ++ ").\n")
    simp only [← String.append_assoc] at hs
    simp [hana.runDelete, hana.deleteCommands, hana.runCommands, hana.deleteHanaBinding,
      hana.deleteHanaBindingUrl, hline, h2, hother _ _ _ _ f2, hne, hs]
  · intro e hb hu h3 f3
    obtain ⟨line, hline, hne⟩ :=
      hshape _ _ _ _ hbinding (by simpa [hana.deleteHanaBinding] using hb)
    obtain ⟨line2, hline2, hne2⟩ :=
      hshape _ _ _ _ hurl (by simpa [hana.deleteHanaBindingUrl] using hu)
    have hs := hstart (config.namespace_ ++ "/" ++ config.name ++ ").\n")
    simp only [← String.append_assoc] at hs
    simp [hana.runDelete, hana.deleteCommands, hana.runCommands, hana.deleteHanaBinding,
      hana.deleteHanaBindingUrl, hana.deleteHanaInstance, hline, hline2, h3,
      hother _ _ _ _ f3, hne, hne2, hs]

/-- Witness of C27: a Hana of which nothing is left is deleted without error,
and a Hana whose URL binding cannot be deleted ends with the wrapped error
before the instance is touched. -/
theorem hana_delete_idempotent_and_stops_witness :
    ((hana.runDelete hana.sampleCollaborators hana.absentHana).2 = none
      ∧ (hana.runDelete hana.sampleCollaborators hana.absentHana).1.getLast?
          = some (.printed "Operation completed.\n"))
    ∧ ((hana.runDelete hana.sampleCollaborators hana.lockedHana).2
          = some (.withMessage (.errorString "forbidden") "failed to delete Hana resource.")
      ∧ hana.Event.deleteCall .ServiceInstance "default" "db"
          ∉ (hana.runDelete hana.sampleCollaborators hana.lockedHana).1) :=
  have h1 := (hana_delete_idempotent_and_stops hana.sampleCollaborators hana.absentHana).2.2.1
    ⟨_, rfl, by decide⟩ ⟨_, rfl, by decide⟩ ⟨_, rfl, by decide⟩
  have h2 := (hana_delete_idempotent_and_stops hana.sampleCollaborators
    hana.lockedHana).2.2.2.2.1 (.errorString "forbidden") rfl rfl (by decide)
  ⟨⟨h1.1, h1.2.1⟩, h2.1, h2.2.1⟩
